import Mathlib

/-!
# Tetris (`src/tetris.c`): a shallow embedding and its checked properties

The game state of `tetris.c` lives in global variables (`board`, `curShape`,
`curRot`, `curPos`, `score`, `gameOver`, `level`, `linesCleared`).  Here the
globals are the fields of one record, `Game`, and every C function that reads
or writes them becomes a function on that record.

Conventions of the embedding:

* A C `int` is 32 bits wide.  Where the program computes with values that can
  leave that range (the coordinates `nx + c`, `ny + r` inside `collide`, the
  gravity interval `1000 - (level - 1) * 80`, and the counters `score`,
  `linesCleared`, `level` in `clear_lines`) the result is reduced into
  `[-2^31, 2^31)` by `wrapInt`: the two's complement wrap-around of the compiled
  program (ISO C leaves signed overflow undefined).  The piece's position and
  rotation index change by one per step; their steps `x - 1`, `x + 1`, `y + 1`,
  `curRot + 1` are plain integer steps, and `collide` and `shape_at` reduce
  what they are given (in every reachable state the position is within
  `-3 <= x <= 9`, `-1 <= y <= 19`, see `reachable_posOk`).  `place_piece` tests
  its sums `curPos.y + r`, `curPos.x + c` against both bounds of the array, and
  there the plain and the wrapped sum of `int` values select the same cells, so
  its sums are plain.  The clock values are `long` and are left as integers.
* Values that the program only ever uses as small non-negative indices (the
  shape id, the loop counters `r`, `c` over the 4x4 grid) are naturals.
* `board[r][c]` is `b r c` for a function `b : Int → Int → Int`; only the
  cells with `0 ≤ r < 20`, `0 ≤ c < 10` exist in the C array.
* A `for` loop with a constant trip count is a structural recursion on the
  number of iterations left; a loop whose trip count depends on the data
  (`clear_lines`' scan, the hard drop) takes fuel and answers `none` when the
  fuel runs out, and the theorems show how much fuel is enough.
* `rand()`, `time_ms()` and `getch()` are inputs of the step they occur in.
-/

namespace Tetris

/-! ## Constants and the shape table -/

/-- The macro `#define BOARD_W 10`. -/
abbrev BOARD_W : Int := 10

/-- The macro `#define BOARD_H 20`. -/
abbrev BOARD_H : Int := 20

/-- The macro `#define SHAPES 7`. -/
abbrev SHAPES : Nat := 7

/-- The macro `#define SIZE 4`. -/
abbrev SIZE : Nat := 4

/-- The value that a C `int` (32 bits, two's complement) holds after a
computation whose exact result is `x`: `x` reduced modulo `2^32` into
`[-2^31, 2^31)`. -/
def wrapInt (x : Int) : Int :=
  (x + 2147483648) % 4294967296 - 2147483648

/-- The struct `typedef struct { int x, y; } Vec2;`. -/
structure Vec2 where
  x : Int
  y : Int
deriving DecidableEq, Repr

/-- The table `const int tetromino[SHAPES][SIZE][SIZE]`: the seven 4x4 grids, row-major. -/
def tetromino : List (List (List Int)) :=
  [ -- I
    [ [0,0,0,0],
      [1,1,1,1],
      [0,0,0,0],
      [0,0,0,0] ],
    -- O
    [ [0,1,1,0],
      [0,1,1,0],
      [0,0,0,0],
      [0,0,0,0] ],
    -- T
    [ [0,1,0,0],
      [1,1,1,0],
      [0,0,0,0],
      [0,0,0,0] ],
    -- S
    [ [0,1,1,0],
      [1,1,0,0],
      [0,0,0,0],
      [0,0,0,0] ],
    -- Z
    [ [1,1,0,0],
      [0,1,1,0],
      [0,0,0,0],
      [0,0,0,0] ],
    -- J
    [ [1,0,0,0],
      [1,1,1,0],
      [0,0,0,0],
      [0,0,0,0] ],
    -- L
    [ [0,0,1,0],
      [1,1,1,0],
      [0,0,0,0],
      [0,0,0,0] ] ]

/-- The array read `tetromino[shape][r][c]`.  Outside the table (undefined
behaviour in C) the model answers 0. -/
def tetrominoAt (shape r c : Nat) : Int :=
  ((tetromino.getD shape []).getD r []).getD c 0

/-- Function `int shape_at(int shape, int rot, int r, int c)`: the cell of the shape
after `rot & 3` quarter turns.  `rot & 3` is the bitwise and of C on a two's
complement `int`, `Int.land rot 3`. -/
def shape_at (shape : Nat) (rot : Int) (r c : Nat) : Int :=
  let k := Int.land rot 3
  if k = 0 then tetrominoAt shape r c
  else if k = 1 then tetrominoAt shape (SIZE - 1 - c) r
  else if k = 2 then tetrominoAt shape (SIZE - 1 - r) (SIZE - 1 - c)
  else if k = 3 then tetrominoAt shape c (SIZE - 1 - r)
  else 0

/-! ## The game state -/

/-- The array `int board[BOARD_H][BOARD_W]`, read as `b r c`. -/
abbrev Board := Int → Int → Int

/-- The assignment `board[r][c] = v`. -/
def setCell (b : Board) (r c v : Int) : Board :=
  fun r' c' => if r' = r ∧ c' = c then v else b r' c'

/-- The global variables of `tetris.c`. -/
structure Game where
  board : Board
  curShape : Nat
  curRot : Int
  curPos : Vec2
  score : Int
  gameOver : Int
  level : Int
  linesCleared : Int

/-! ## `collide` -/

/-- The body of `collide`'s loops at cell `(r, c)`: `true` when it executes
`return 1`.  The sums `int bx = nx + c; int by = ny + r;` are `int` sums. -/
def collideCell (b : Board) (shape : Nat) (nx ny nrot : Int) (r c : Nat) : Bool :=
  if shape_at shape nrot r c ≠ 0 then
    let bx := wrapInt (nx + c)
    let by_ := wrapInt (ny + r)
    if bx < 0 ∨ bx ≥ BOARD_W ∨ by_ ≥ BOARD_H then true
    else if by_ ≥ 0 ∧ b by_ bx ≠ 0 then true
    else false
  else false

/-- The inner loop `for (int c = ...; c < SIZE; c++)` of `collide` with `n`
iterations left, starting at column `c`. -/
def collideCols (b : Board) (shape : Nat) (nx ny nrot : Int) (r : Nat) : Nat → Nat → Bool
  | 0, _ => false
  | n + 1, c =>
    if collideCell b shape nx ny nrot r c then true
    else collideCols b shape nx ny nrot r n (c + 1)

/-- The outer loop `for (int r = ...; r < SIZE; r++)` of `collide` with `n`
iterations left, starting at row `r`. -/
def collideRows (b : Board) (shape : Nat) (nx ny nrot : Int) : Nat → Nat → Bool
  | 0, _ => false
  | n + 1, r =>
    if collideCols b shape nx ny nrot r SIZE 0 then true
    else collideRows b shape nx ny nrot n (r + 1)

/-- Function `int collide(int nx, int ny, int nrot)`. -/
def collide (g : Game) (nx ny nrot : Int) : Int :=
  if collideRows g.board g.curShape nx ny nrot SIZE 0 then 1 else 0

/-! ## `place_piece` -/

/-- The body of `place_piece`'s loops at cell `(r, c)`. -/
def placeCell (shape : Nat) (rot x y : Int) (b : Board) (r c : Nat) : Board :=
  if shape_at shape rot r c ≠ 0 then
    let bx := x + c
    let by_ := y + r
    if by_ ≥ 0 ∧ by_ < BOARD_H ∧ bx ≥ 0 ∧ bx < BOARD_W then
      setCell b by_ bx ((shape : Int) + 1)
    else b
  else b

/-- The inner loop over `c` of `place_piece`. -/
def placeCols (shape : Nat) (rot x y : Int) (r : Nat) : Nat → Nat → Board → Board
  | 0, _, b => b
  | n + 1, c, b => placeCols shape rot x y r n (c + 1) (placeCell shape rot x y b r c)

/-- The outer loop over `r` of `place_piece`. -/
def placeRows (shape : Nat) (rot x y : Int) : Nat → Nat → Board → Board
  | 0, _, b => b
  | n + 1, r, b => placeRows shape rot x y n (r + 1) (placeCols shape rot x y r SIZE 0 b)

/-- Function `void place_piece()`. -/
def place_piece (g : Game) : Game :=
  { g with board := placeRows g.curShape g.curRot g.curPos.x g.curPos.y SIZE 0 g.board }

/-! ## `clear_lines` -/

/-- The loop `for (int c=0;c<BOARD_W;c++) if (!board[r][c]) { full = 0; break; }`
with `n` iterations left: the value of `full` after it. -/
def rowFull (b : Board) (r : Int) : Nat → Int → Bool
  | 0, _ => true
  | n + 1, c => if b r c = 0 then false else rowFull b r n (c + 1)

/-- The loop `for (int cc=0;cc<BOARD_W;cc++) board[rr][cc] = board[rr-1][cc];`
with `n` iterations left. -/
def copyRowDown (rr : Int) : Nat → Int → Board → Board
  | 0, _, b => b
  | n + 1, cc, b => copyRowDown rr n (cc + 1) (setCell b rr cc (b (rr - 1) cc))

/-- The loop `for (int rr = r; rr > 0; rr--) ...` that moves the rows above `r`
down by one.  The guard `rr > 0` ends it; `n` only bounds the recursion and is
never reached when `rr ≤ n` (see `shiftRows_apply`). -/
def shiftRows : Nat → Int → Board → Board
  | 0, _, b => b
  | n + 1, rr, b =>
    if rr > 0 then shiftRows n (rr - 1) (copyRowDown rr BOARD_W.toNat 0 b) else b

/-- The loop `for (int cc=0;cc<BOARD_W;cc++) board[0][cc] = 0;` with `n`
iterations left. -/
def zeroTop : Nat → Int → Board → Board
  | 0, _, b => b
  | n + 1, cc, b => zeroTop n (cc + 1) (setCell b 0 cc 0)

/-- The scan `for (int r = BOARD_H-1; r>=0; r--) { ... }` of `clear_lines`
from row `r` on, with the board and the counter `cleared` as loop state.  In
the full-row branch the body's `r++` and the loop's `r--` leave `r` where it
is.  `none` when the fuel is used up. -/
def clearLoop : Nat → Int → Board → Int → Option (Board × Int)
  | 0, _, _, _ => none
  | fuel + 1, r, b, cleared =>
    if r ≥ 0 then
      if rowFull b r BOARD_W.toNat 0 then
        let b1 := shiftRows BOARD_H.toNat r b
        let b2 := zeroTop BOARD_W.toNat 0 b1
        clearLoop fuel (r + 1 - 1) b2 (cleared + 1)
      else clearLoop fuel (r - 1) b cleared
    else some (b, cleared)

/-- The table `pts` of `clear_lines`: four `if`s in sequence over `pts = 0`. -/
def linePoints (cleared : Int) : Int :=
  let pts := 0
  let pts := if cleared = 1 then 40 else pts
  let pts := if cleared = 2 then 100 else pts
  let pts := if cleared = 3 then 300 else pts
  let pts := if cleared = 4 then 1200 else pts
  pts

/-- The tail `if (cleared) { ... }` of `clear_lines`.  The sums and the
product are `int` operations; `/` of C on `int` is truncating division. -/
def applyCleared (g : Game) (b : Board) (cleared : Int) : Game :=
  if cleared ≠ 0 then
    let linesCleared := wrapInt (g.linesCleared + cleared)
    let score := wrapInt (g.score + wrapInt (linePoints cleared * g.level))
    let level := wrapInt (1 + Int.tdiv linesCleared 10)
    { g with board := b, linesCleared := linesCleared, score := score, level := level }
  else { g with board := b }

/-- Function `void clear_lines()`: the scan, then the scoring tail. -/
def clear_lines (fuel : Nat) (g : Game) : Option Game :=
  match clearLoop fuel (BOARD_H - 1) g.board 0 with
  | none => none
  | some (b, cleared) => some (applyCleared g b cleared)

/-! ## `spawn_piece`, `init_game` -/

/-- Function `void spawn_piece()`; `rnd` is the value returned by `rand()`. -/
def spawn_piece (rnd : Nat) (g : Game) : Game :=
  let g1 : Game :=
    { g with curShape := rnd % SHAPES, curRot := 0, curPos := ⟨(BOARD_W / 2) - 2, -1⟩ }
  if collide g1 g1.curPos.x g1.curPos.y g1.curRot ≠ 0 then { g1 with gameOver := 1 } else g1

/-- Function `void init_game()`: every global is assigned (`memset` zeroes the
board, `spawn_piece` sets the piece), so the result depends on `rand()` only.
The piece fields written before `spawn_piece` are placeholders it overwrites. -/
def init_game (rnd : Nat) : Game :=
  spawn_piece rnd
    { board := fun _ _ => 0, curShape := 0, curRot := 0, curPos := ⟨0, 0⟩,
      score := 0, level := 1, linesCleared := 0, gameOver := 0 }

/-! ## The main loop -/

/-- Key code `KEY_DOWN` of `ncurses.h` (octal 0402). -/
abbrev KEY_DOWN : Int := 258

/-- Key code `KEY_UP` of `ncurses.h` (octal 0403). -/
abbrev KEY_UP : Int := 259

/-- Key code `KEY_LEFT` of `ncurses.h` (octal 0404). -/
abbrev KEY_LEFT : Int := 260

/-- Key code `KEY_RIGHT` of `ncurses.h` (octal 0405). -/
abbrev KEY_RIGHT : Int := 261

/-- The character `'q'`. -/
abbrev KEY_Q : Int := 113

/-- The character `' '`. -/
abbrev KEY_SPACE : Int := 32

/-- The globals together with the locals `last_tick`, `drop_interval` of
`main`: the state at the head of `while (1)`. -/
structure Loop where
  g : Game
  last_tick : Int
  drop_interval : Int

/-- What one iteration of `while (1)` reads from outside: the key from
`getch()`, the clock read in the soft/hard drop branch, the clock read before
the gravity test, and the `rand()` values of the (at most two) spawns. -/
structure Input where
  ch : Int
  t_cmd : Int
  now : Int
  rnd_cmd : Nat
  rnd_grav : Nat

/-- The statement `curPos.x += d`. -/
def moveX (g : Game) (d : Int) : Game :=
  { g with curPos := ⟨g.curPos.x + d, g.curPos.y⟩ }

/-- The statement `curPos.y++`. -/
def moveDown (g : Game) : Game :=
  { g with curPos := ⟨g.curPos.x, g.curPos.y + 1⟩ }

/-- The three calls `place_piece(); clear_lines(); spawn_piece();`. -/
def lockSequence (fuel : Nat) (rnd : Nat) (g : Game) : Option Game :=
  match clear_lines fuel (place_piece g) with
  | none => none
  | some g2 => some (spawn_piece rnd g2)

/-- The loop `while (!collide(curPos.x, curPos.y + 1, curRot)) curPos.y++;`.
Answers `none` when the fuel is used up before the loop ends. -/
def hardDropLoop : Nat → Game → Option Game
  | 0, _ => none
  | fuel + 1, g =>
    if collide g g.curPos.x (g.curPos.y + 1) g.curRot = 0 then hardDropLoop fuel (moveDown g)
    else some g

/-- The input handling `if (ch == KEY_LEFT) ... else if (ch == ' ') ...` of
`main`: the globals and `last_tick` after it. -/
def handleKey (fuel : Nat) (inp : Input) (g : Game) (last_tick : Int) : Option (Game × Int) :=
  if inp.ch = KEY_LEFT then
    if collide g (g.curPos.x - 1) g.curPos.y g.curRot = 0 then some (moveX g (-1), last_tick)
    else some (g, last_tick)
  else if inp.ch = KEY_RIGHT then
    if collide g (g.curPos.x + 1) g.curPos.y g.curRot = 0 then some (moveX g 1, last_tick)
    else some (g, last_tick)
  else if inp.ch = KEY_UP then
    if collide g g.curPos.x g.curPos.y (g.curRot + 1) = 0 then
      some ({ g with curRot := g.curRot + 1 }, last_tick)
    else some (g, last_tick)
  else if inp.ch = KEY_DOWN then
    if collide g g.curPos.x (g.curPos.y + 1) g.curRot = 0 then some (moveDown g, inp.t_cmd)
    else
      match lockSequence fuel inp.rnd_cmd g with
      | none => none
      | some g1 => some (g1, inp.t_cmd)
  else if inp.ch = KEY_SPACE then
    match hardDropLoop fuel g with
    | none => none
    | some g1 =>
      match lockSequence fuel inp.rnd_cmd g1 with
      | none => none
      | some g2 => some (g2, inp.t_cmd)
  else some (g, last_tick)

/-- The assignment `drop_interval = 1000 - (level - 1) * 80;` followed by
`if (drop_interval < 100) drop_interval = 100;`.  The right-hand side is
computed in `int` (`level` is an `int`) before it is stored in the `long`. -/
def dropInterval (level : Int) : Int :=
  let drop_interval := wrapInt (1000 - wrapInt (wrapInt (level - 1) * 80))
  if drop_interval < 100 then 100 else drop_interval

/-- The gravity block `if (now - last_tick >= drop_interval) { ... }`. -/
def gravity (fuel : Nat) (inp : Input) (g : Game) (last_tick drop_interval : Int) :
    Option (Game × Int) :=
  if inp.now - last_tick ≥ drop_interval then
    if collide g g.curPos.x (g.curPos.y + 1) g.curRot = 0 then some (moveDown g, inp.now)
    else
      match lockSequence fuel inp.rnd_grav g with
      | none => none
      | some g1 => some (g1, inp.now)
  else some (g, last_tick)

/-- One pass through the body of `while (1)` after the test
`if (ch == 'q') break;` has let it through.  Drawing and sleeping do not touch
the state.  With `gameOver` set the pass is `continue`. -/
def mainBody (fuel : Nat) (inp : Input) (st : Loop) : Option Loop :=
  if st.g.gameOver ≠ 0 then some st
  else
    match handleKey fuel inp st.g st.last_tick with
    | none => none
    | some (g1, lt1) =>
      let drop_interval := dropInterval g1.level
      match gravity fuel inp g1 lt1 drop_interval with
      | none => none
      | some (g2, lt2) => some { g := g2, last_tick := lt2, drop_interval := drop_interval }

/-- The states at the head of `while (1)`: the one `main` enters the loop with
(`init_game()`, `last_tick = time_ms()`, `drop_interval = 1000`) and those
reached from it by iterations that did not quit. -/
inductive Reachable : Loop → Prop
  | init (rnd : Nat) (t0 : Int) :
      Reachable { g := init_game rnd, last_tick := t0, drop_interval := 1000 }
  | step {st st' : Loop} (fuel : Nat) (inp : Input) :
      Reachable st → inp.ch ≠ KEY_Q → mainBody fuel inp st = some st' → Reachable st'

/-! ## Statement vocabulary

Definitions used to state the properties; they are not part of the program. -/

/-- The pose `(nx, ny, nrot)` of shape `shape` hits something on board `b`:
some occupied cell of the rotated 4x4 grid, at the coordinates that `collide`
computes for it, lies left or right of the board, below it, or on a locked
cell of a row that is not above the board. -/
def Hits (b : Board) (shape : Nat) (nx ny nrot : Int) : Prop :=
  ∃ r c : Nat, r < 4 ∧ c < 4 ∧ shape_at shape nrot r c ≠ 0 ∧
    (wrapInt (nx + c) < 0 ∨ wrapInt (nx + c) ≥ 10 ∨ wrapInt (ny + r) ≥ 20 ∨
      (wrapInt (ny + r) ≥ 0 ∧ b (wrapInt (ny + r)) (wrapInt (nx + c)) ≠ 0))

/-- The sums `v + 0 .. v + 3` that `collide` forms from the coordinate `v` are
representable as `int`. -/
def SumsFit (v : Int) : Prop :=
  -2147483648 ≤ v ∧ v + 3 ≤ 2147483647

/-- Row `r` of the board as the list of its 10 cells, left to right. -/
def rowOf (b : Board) (r : Nat) : List Int :=
  (List.range 10).map fun c : Nat => b r c

/-- The board as the list of its 20 rows, top to bottom. -/
def rowsOf (b : Board) : List (List Int) :=
  (List.range 20).map (rowOf b)

/-- A row is full when every cell of it is nonzero. -/
def isFull (row : List Int) : Bool :=
  row.all fun v => decide (v ≠ 0)

/-- An all-zero row of 10 cells. -/
def zeroRow : List Int := List.replicate 10 0

/-- The number of full rows of the board. -/
def fullRows (b : Board) : Nat :=
  (rowsOf b).countP isFull

/-- Gravity compaction of a list of rows: as many zero rows on top as there
were full rows, then the rows that are not full, in their order. -/
def compact (rows : List (List Int)) : List (List Int) :=
  List.replicate (rows.countP isFull) zeroRow ++ rows.filter fun row => !isFull row

/-- The bonus table of the specification: 40, 100, 300, 1200 points for 1, 2,
3, 4 rows and nothing for any other count. -/
def specPoints (k : Nat) : Int :=
  if k = 1 then 40 else if k = 2 then 100 else if k = 3 then 300 else if k = 4 then 1200 else 0

/-- The active piece is free at its pose: `collide` at the current position
and rotation is 0 unless the game is over. -/
def PieceFree (g : Game) : Prop :=
  g.gameOver = 0 → collide g g.curPos.x g.curPos.y g.curRot = 0

/-- The globals after the assignments to `curShape`, `curRot`, `curPos` in
`spawn_piece`, before its collision test. -/
def spawnPose (rnd : Nat) (g : Game) : Game :=
  { g with curShape := rnd % SHAPES, curRot := 0, curPos := ⟨3, -1⟩ }

/-- The active piece is one of the seven shapes and its position is within the
range that the collision test lets it reach: `-3 <= x <= 9`, `-1 <= y <= 19`. -/
def PosOk (g : Game) : Prop :=
  g.curShape < 7 ∧ -3 ≤ g.curPos.x ∧ g.curPos.x ≤ 9 ∧ -1 ≤ g.curPos.y ∧ g.curPos.y ≤ 19

/-- The integer `x` is representable as a C `int`. -/
def FitsInt (x : Int) : Prop :=
  -2147483648 ≤ x ∧ x ≤ 2147483647

/-- The level is the one that belongs to the number of cleared lines, with the
truncating division of C, and the counter is an `int` value. -/
def LevelOk (g : Game) : Prop :=
  g.level = 1 + Int.tdiv g.linesCleared 10 ∧ FitsInt g.linesCleared

/-- From `g` to `g2` the line counter took up at most `m` rows, added in `int`
arithmetic, and the level of `g2` belongs to its counter. -/
def LinesAdded (m : Nat) (g g2 : Game) : Prop :=
  LevelOk g2 ∧ ∃ k : Nat, k ≤ m ∧ g2.linesCleared = wrapInt (g.linesCleared + k)

/-! ## Concrete inputs -/

/-- A board whose rows 19 and 17 are full and whose other rows are empty: the
bottom three rows are full, empty, full. -/
def fullEmptyFull : Board :=
  fun r c => if (r = 19 ∨ r = 17) ∧ 0 ≤ c ∧ c < 10 then 1 else 0

/-- A game state with the given board and level, an I piece at the spawn pose
and no points yet. -/
def gameOn (b : Board) (level : Int) : Game :=
  { board := b, curShape := 0, curRot := 0, curPos := ⟨3, -1⟩,
    score := 0, gameOver := 0, level := level, linesCleared := 0 }

/-- A board whose bottom row is full and whose other rows are empty. -/
def bottomFull : Board :=
  fun r c => if r = 19 ∧ 0 ≤ c ∧ c < 10 then 1 else 0

/-- The empty board. -/
def emptyBoard : Board := fun _ _ => 0

/-- The state `main` enters its loop with when `rand()` gives 0 (an I piece)
and the clock reads 0. -/
def startLoop : Loop :=
  { g := init_game 0, last_tick := 0, drop_interval := 1000 }

/-- An input with key `ch`, both clock reads at 0 and both `rand()` values 0. -/
def keyAt0 (ch : Int) : Input :=
  { ch := ch, t_cmd := 0, now := 0, rnd_cmd := 0, rnd_grav := 0 }

/-- The state after a Left key in `startLoop`: the I piece one column to the left. -/
def leftLoop : Loop :=
  { g := moveX (init_game 0) (-1), last_tick := 0, drop_interval := 1000 }

/-- The board after an S piece was locked on the floor at `x = 3`: cells
(18,4), (18,5), (19,3), (19,4).  The cell (18,5) hangs over the empty cell
(19,5). -/
def sOnFloor : Board :=
  fun r c => if (r = 18 ∧ (c = 4 ∨ c = 5)) ∨ (r = 19 ∧ (c = 3 ∨ c = 4)) then 4 else 0

/-- A flat I piece above columns 5..8 of the board `sOnFloor`, at `y = -1`. -/
def iOverS : Game :=
  { board := sOnFloor, curShape := 0, curRot := 0, curPos := ⟨5, -1⟩,
    score := 0, gameOver := 0, level := 1, linesCleared := 0 }

/-- Several iterations of `while (1)` in a row, one per input of the list. -/
def runIters (fuel : Nat) : List Input → Loop → Option Loop
  | [], st => some st
  | inp :: rest, st =>
    match mainBody fuel inp st with
    | none => none
    | some st' => runIters fuel rest st'

/-- A board whose top row is full and whose other rows are empty. -/
def topFull : Board :=
  fun r c => if r = 0 ∧ 0 ≤ c ∧ c < 10 then 1 else 0

/-- The loop state after `spawn_piece` ran on the board `topFull`: the spawn
pose of the I piece collides, so the game is over. -/
def overLoop : Loop :=
  { g := spawn_piece 0 (gameOn topFull 1), last_tick := 0, drop_interval := 1000 }

/-- Cell `(r, c)` of the piece's grid is occupied and lands on the board cell
`(r', c')`, which lies inside the 20x10 array: the test under which
`place_piece` executes `board[by][bx] = curShape + 1` with `by = r'`,
`bx = c'`. -/
def WritesAt (shape : Nat) (rot x y : Int) (r c : Nat) (r' c' : Int) : Prop :=
  shape_at shape rot r c ≠ 0 ∧ r' = y + r ∧ c' = x + c ∧
    0 ≤ r' ∧ r' < 20 ∧ 0 ≤ c' ∧ c' < 10

/-- A T piece lying half above the empty board: position `(3, -1)`, so the
grid row 0 is at board row -1 and the grid row 1 at board row 0. -/
def tAtTop : Game :=
  { board := emptyBoard, curShape := 2, curRot := 0, curPos := ⟨3, -1⟩,
    score := 0, gameOver := 0, level := 1, linesCleared := 0 }

/-! ## The main loop with a log of its lock sequences

The same code as `handleKey`, `gravity` and `mainBody`, with one addition: each
time the three calls `place_piece(); clear_lines(); spawn_piece();` are
reached, the globals at that moment are appended to a log.  Erasing the log
gives back the functions above (`handleKeyT_erase`, `gravityT_erase`,
`mainBodyT_erase`). -/

/-- The input handling of `main` with the log of its lock sequences. -/
def handleKeyT (fuel : Nat) (inp : Input) (g : Game) (last_tick : Int) :
    Option (Game × Int × List Game) :=
  if inp.ch = KEY_LEFT then
    if collide g (g.curPos.x - 1) g.curPos.y g.curRot = 0 then
      some (moveX g (-1), last_tick, [])
    else some (g, last_tick, [])
  else if inp.ch = KEY_RIGHT then
    if collide g (g.curPos.x + 1) g.curPos.y g.curRot = 0 then
      some (moveX g 1, last_tick, [])
    else some (g, last_tick, [])
  else if inp.ch = KEY_UP then
    if collide g g.curPos.x g.curPos.y (g.curRot + 1) = 0 then
      some ({ g with curRot := g.curRot + 1 }, last_tick, [])
    else some (g, last_tick, [])
  else if inp.ch = KEY_DOWN then
    if collide g g.curPos.x (g.curPos.y + 1) g.curRot = 0 then
      some (moveDown g, inp.t_cmd, [])
    else
      match lockSequence fuel inp.rnd_cmd g with
      | none => none
      | some g1 => some (g1, inp.t_cmd, [g])
  else if inp.ch = KEY_SPACE then
    match hardDropLoop fuel g with
    | none => none
    | some g1 =>
      match lockSequence fuel inp.rnd_cmd g1 with
      | none => none
      | some g2 => some (g2, inp.t_cmd, [g1])
  else some (g, last_tick, [])

/-- The gravity block of `main` with the log of its lock sequences. -/
def gravityT (fuel : Nat) (inp : Input) (g : Game) (last_tick drop_interval : Int) :
    Option (Game × Int × List Game) :=
  if inp.now - last_tick ≥ drop_interval then
    if collide g g.curPos.x (g.curPos.y + 1) g.curRot = 0 then some (moveDown g, inp.now, [])
    else
      match lockSequence fuel inp.rnd_grav g with
      | none => none
      | some g1 => some (g1, inp.now, [g])
  else some (g, last_tick, [])

/-- One pass through the body of `while (1)` with the log of the lock
sequences it ran, in the order they ran. -/
def mainBodyT (fuel : Nat) (inp : Input) (st : Loop) : Option (Loop × List Game) :=
  if st.g.gameOver ≠ 0 then some (st, [])
  else
    match handleKeyT fuel inp st.g st.last_tick with
    | none => none
    | some (g1, lt1, tr1) =>
      let drop_interval := dropInterval g1.level
      match gravityT fuel inp g1 lt1 drop_interval with
      | none => none
      | some (g2, lt2, tr2) =>
        some ({ g := g2, last_tick := lt2, drop_interval := drop_interval }, tr1 ++ tr2)

/-- The state after a Space key (hard drop) in `startLoop`: the I piece is
locked on the floor, in row 19 at columns 3..6, and a new I piece is at the
spawn pose.  Should the iteration not return, the state is `startLoop`. -/
def afterDrop : Loop :=
  (mainBody 41 (keyAt0 KEY_SPACE) startLoop).getD startLoop

/-- The globals on which the lock sequence runs after a Space key in
`startLoop`: the I piece dropped to `y = 18`, its cells in board row 19. -/
def droppedPiece : Game :=
  { init_game 0 with curPos := ⟨3, 18⟩ }

/-! ## The array accesses, checked

The same code as `shape_at`, `collide`, `place_piece` and `clear_lines`, with
every array access made through a read or write that answers `none` when an
index is outside the array (`tetromino[7][4][4]`, `board[20][10]`).  An index
expression is evaluated as the C `int` it is, so `SIZE-1-c` can be negative
here.  A result `some _` of one of these functions means that the run made no
access out of bounds (and, for `clear_lines`, that the fuel was enough). -/

/-- The read `tetromino[shape][r][c]`, `none` outside `[0,7) x [0,4) x [0,4)`. -/
def tetrominoRead (shape : Nat) (r c : Int) : Option Int :=
  if shape < SHAPES ∧ 0 ≤ r ∧ r < SIZE ∧ 0 ≤ c ∧ c < SIZE then
    some (tetrominoAt shape r.toNat c.toNat)
  else none

/-- The read `board[r][c]`, `none` outside `[0,20) x [0,10)`. -/
def boardRead (b : Board) (r c : Int) : Option Int :=
  if 0 ≤ r ∧ r < BOARD_H ∧ 0 ≤ c ∧ c < BOARD_W then some (b r c) else none

/-- The write `board[r][c] = v`, `none` outside `[0,20) x [0,10)`. -/
def boardWrite (b : Board) (r c v : Int) : Option Board :=
  if 0 ≤ r ∧ r < BOARD_H ∧ 0 ≤ c ∧ c < BOARD_W then some (setCell b r c v) else none

/-- Function `shape_at` with the table read checked. -/
def shape_atC (shape : Nat) (rot : Int) (r c : Int) : Option Int :=
  let k := Int.land rot 3
  if k = 0 then tetrominoRead shape r c
  else if k = 1 then tetrominoRead shape ((SIZE : Int) - 1 - c) r
  else if k = 2 then tetrominoRead shape ((SIZE : Int) - 1 - r) ((SIZE : Int) - 1 - c)
  else if k = 3 then tetrominoRead shape c ((SIZE : Int) - 1 - r)
  else some 0

/-- The body of `collide`'s loops with checked accesses.  In
`by >= 0 && board[by][bx]` the board is read only when `by >= 0` holds. -/
def collideCellC (b : Board) (shape : Nat) (nx ny nrot : Int) (r c : Nat) : Option Bool :=
  match shape_atC shape nrot r c with
  | none => none
  | some v =>
    if v ≠ 0 then
      let bx := wrapInt (nx + c)
      let by_ := wrapInt (ny + r)
      if bx < 0 ∨ bx ≥ BOARD_W ∨ by_ ≥ BOARD_H then some true
      else if by_ ≥ 0 then
        match boardRead b by_ bx with
        | none => none
        | some w => if w ≠ 0 then some true else some false
      else some false
    else some false

/-- The inner loop of `collide` with checked accesses. -/
def collideColsC (b : Board) (shape : Nat) (nx ny nrot : Int) (r : Nat) :
    Nat → Nat → Option Bool
  | 0, _ => some false
  | n + 1, c =>
    match collideCellC b shape nx ny nrot r c with
    | none => none
    | some true => some true
    | some false => collideColsC b shape nx ny nrot r n (c + 1)

/-- The outer loop of `collide` with checked accesses. -/
def collideRowsC (b : Board) (shape : Nat) (nx ny nrot : Int) : Nat → Nat → Option Bool
  | 0, _ => some false
  | n + 1, r =>
    match collideColsC b shape nx ny nrot r SIZE 0 with
    | none => none
    | some true => some true
    | some false => collideRowsC b shape nx ny nrot n (r + 1)

/-- Function `collide` with checked accesses. -/
def collideC (g : Game) (nx ny nrot : Int) : Option Int :=
  match collideRowsC g.board g.curShape nx ny nrot SIZE 0 with
  | none => none
  | some hit => some (if hit then 1 else 0)

/-- The body of `place_piece`'s loops with checked accesses. -/
def placeCellC (shape : Nat) (rot x y : Int) (b : Board) (r c : Nat) : Option Board :=
  match shape_atC shape rot r c with
  | none => none
  | some v =>
    if v ≠ 0 then
      let bx := x + c
      let by_ := y + r
      if by_ ≥ 0 ∧ by_ < BOARD_H ∧ bx ≥ 0 ∧ bx < BOARD_W then
        boardWrite b by_ bx ((shape : Int) + 1)
      else some b
    else some b

/-- The inner loop of `place_piece` with checked accesses. -/
def placeColsC (shape : Nat) (rot x y : Int) (r : Nat) : Nat → Nat → Board → Option Board
  | 0, _, b => some b
  | n + 1, c, b =>
    match placeCellC shape rot x y b r c with
    | none => none
    | some b1 => placeColsC shape rot x y r n (c + 1) b1

/-- The outer loop of `place_piece` with checked accesses. -/
def placeRowsC (shape : Nat) (rot x y : Int) : Nat → Nat → Board → Option Board
  | 0, _, b => some b
  | n + 1, r, b =>
    match placeColsC shape rot x y r SIZE 0 b with
    | none => none
    | some b1 => placeRowsC shape rot x y n (r + 1) b1

/-- Function `place_piece` with checked accesses. -/
def place_pieceC (g : Game) : Option Game :=
  match placeRowsC g.curShape g.curRot g.curPos.x g.curPos.y SIZE 0 g.board with
  | none => none
  | some b => some { g with board := b }

/-- The full-row test of `clear_lines` with checked reads. -/
def rowFullC (b : Board) (r : Int) : Nat → Int → Option Bool
  | 0, _ => some true
  | n + 1, c =>
    match boardRead b r c with
    | none => none
    | some v => if v = 0 then some false else rowFullC b r n (c + 1)

/-- The row copy `board[rr][cc] = board[rr-1][cc]` of `clear_lines` with
checked accesses. -/
def copyRowDownC (rr : Int) : Nat → Int → Board → Option Board
  | 0, _, b => some b
  | n + 1, cc, b =>
    match boardRead b (rr - 1) cc with
    | none => none
    | some v =>
      match boardWrite b rr cc v with
      | none => none
      | some b1 => copyRowDownC rr n (cc + 1) b1

/-- The loop `for (int rr = r; rr > 0; rr--) ...` with checked accesses. -/
def shiftRowsC : Nat → Int → Board → Option Board
  | 0, _, b => some b
  | n + 1, rr, b =>
    if rr > 0 then
      match copyRowDownC rr BOARD_W.toNat 0 b with
      | none => none
      | some b1 => shiftRowsC n (rr - 1) b1
    else some b

/-- The loop that zeroes row 0 with checked writes. -/
def zeroTopC : Nat → Int → Board → Option Board
  | 0, _, b => some b
  | n + 1, cc, b =>
    match boardWrite b 0 cc 0 with
    | none => none
    | some b1 => zeroTopC n (cc + 1) b1

/-- The scan of `clear_lines` with checked accesses.  As in `clearLoop`, the
`r++` of the full-row branch is followed by the `r--` of the loop before any
access is made. -/
def clearLoopC : Nat → Int → Board → Int → Option (Board × Int)
  | 0, _, _, _ => none
  | fuel + 1, r, b, cleared =>
    if r ≥ 0 then
      match rowFullC b r BOARD_W.toNat 0 with
      | none => none
      | some true =>
        match shiftRowsC BOARD_H.toNat r b with
        | none => none
        | some b1 =>
          match zeroTopC BOARD_W.toNat 0 b1 with
          | none => none
          | some b2 => clearLoopC fuel (r + 1 - 1) b2 (cleared + 1)
      | some false => clearLoopC fuel (r - 1) b cleared
    else some (b, cleared)

/-- Function `clear_lines` with checked accesses. -/
def clear_linesC (fuel : Nat) (g : Game) : Option Game :=
  match clearLoopC fuel (BOARD_H - 1) g.board 0 with
  | none => none
  | some (b, cleared) => some (applyCleared g b cleared)

/-- A state with the score at `INT_MAX` at level 1, on a board whose bottom
row is full. -/
def maxScore : Game :=
  { gameOn bottomFull 1 with score := 2147483647 }

/-! ## A cycle of play that clears two rows

Definitions used to show that the counters reach every multiple of two rows in
play: five O pieces, moved to the columns 0-1, 2-3, 4-5, 6-7, 8-9 and dropped,
fill rows 18 and 19 of the empty board, which `clear_lines` then removes. -/

/-- An input with key `ch`, the clock standing at 0 and `rand()` giving 1 (an
O piece). -/
def keyO (ch : Int) : Input :=
  { ch := ch, t_cmd := 0, now := 0, rnd_cmd := 1, rnd_grav := 1 }

/-- The globals with an O piece at `(x, y)` in rotation 0 over the board `b`,
not game-over, with the given counters. -/
def oGame (b : Board) (x y : Int) (lines score level : Int) : Game :=
  { board := b, curShape := 1, curRot := 0, curPos := ⟨x, y⟩, score := score,
    gameOver := 0, level := level, linesCleared := lines }

/-- The loop head with globals `g`, `last_tick = 0` and the gravity interval
of the level of `g`. -/
def headOf (g : Game) : Loop :=
  { g := g, last_tick := 0, drop_interval := dropInterval g.level }

/-- The board whose rows 18 and 19 hold O cells (value 2) in the columns
`0 .. w-1` and which is empty elsewhere. -/
def oRows (w : Int) : Board :=
  fun r c => if 18 ≤ r ∧ r ≤ 19 ∧ 0 ≤ c ∧ c < w then 2 else 0

/-- The line counter after `n` cycles: `2 * n` as an `int`. -/
def cycLines (n : Nat) : Int := wrapInt (2 * (n : Int))

/-- The level after `n` cycles. -/
def cycLevel (n : Nat) : Int := 1 + Int.tdiv (cycLines n) 10

/-- The score after `n` cycles: each cycle clears two rows at once, worth 100
times the level held before. -/
def cycScore : Nat → Int
  | 0 => 0
  | n + 1 => wrapInt (cycScore n + wrapInt (100 * cycLevel n))

/-- The loop head after `n` cycles: empty board, a fresh O piece. -/
def cycHead (n : Nat) : Loop :=
  headOf (oGame (oRows 0) 3 (-1) (cycLines n) (cycScore n) (cycLevel n))

/-- The loop head before the last drop of cycle `n + 1`: four O pieces locked
in the columns 0..7 of rows 18 and 19, the fifth above the columns 8 and 9. -/
def cycLast (n : Nat) : Loop :=
  headOf (oGame (oRows 8) 7 (-1) (cycLines n) (cycScore n) (cycLevel n))

/-- The loop head before the last drop of cycle `2^30`: the line counter stands
at `INT_MAX - 1 = 2147483646`, the level is `1 + 2147483646 / 10`, four O
pieces are locked in the columns 0..7 of rows 18 and 19 and the fifth is above
the columns 8 and 9. -/
def overflowLoop : Loop :=
  headOf (oGame (oRows 8) 7 (-1) 2147483646 (cycScore 1073741823) 214748365)

/-- The loop head after 134217795 cycles: 268435590 rows cleared, level
26843560. -/
def fastLoop : Loop :=
  headOf (oGame (oRows 0) 3 (-1) 268435590 (cycScore 134217795) 26843560)

/-- The loop head after 55 cycles: 110 rows cleared, score 33000, level 12. -/
def level12Loop : Loop :=
  headOf (oGame (oRows 0) 3 (-1) 110 33000 12)

/-! # Theorems -/

/-! ## Lemmas on `shape_at` and `collide` -/

theorem ldiff_three (n : Nat) : Nat.ldiff 3 n = 3 - n % 4 := by
  have hlt : n % 4 < 4 := Nat.mod_lt _ (by decide)
  have hm : ∀ i, i < 2 → n.testBit i = (n % 4).testBit i := by
    intro i hi
    have := Nat.testBit_mod_two_pow n 2 i
    rw [show (2:Nat)^2 = 4 from rfl] at this
    rw [this, decide_eq_true hi, Bool.true_and]
  apply Nat.eq_of_testBit_eq
  intro i
  rw [Nat.ldiff, Nat.testBit_bitwise rfl]
  rcases i with _ | _ | i
  · rw [hm 0 (by decide)]
    generalize n % 4 = m at hlt
    interval_cases m <;> rfl
  · rw [hm 1 (by decide)]
    generalize n % 4 = m at hlt
    interval_cases m <;> rfl
  · have h3 : ∀ k, k < 4 → Nat.testBit k (i+1+1) = false := by
      intro k hk
      apply Nat.testBit_lt_two_pow
      calc k < 4 := hk
        _ ≤ 2 ^ (i+1+1) := by
          rw [pow_succ, pow_succ]; have := Nat.one_le_two_pow (n := i); omega
    rw [h3 3 (by decide), h3 (3 - n % 4) (by omega)]; rfl

/-- On a two's complement integer `rot & 3` is the remainder of `rot` modulo 4
that lies in `0..3`, also for negative `rot`. -/
theorem land_three (rot : Int) : Int.land rot 3 = rot % 4 := by
  cases rot with
  | ofNat n =>
    show ((n &&& 3 : Nat) : Int) = _
    have := Nat.and_pow_two_sub_one_eq_mod n 2
    rw [show (2:Nat)^2 - 1 = 3 from rfl, show (2:Nat)^2 = 4 from rfl] at this
    rw [this]; rfl
  | negSucc n =>
    show ((Nat.ldiff 3 n : Nat) : Int) = _
    rw [ldiff_three]
    have hlt : n % 4 < 4 := Nat.mod_lt _ (by decide)
    rw [Int.negSucc_eq]
    omega

theorem wrapInt_of_fits (x : Int) (h1 : -2147483648 ≤ x) (h2 : x ≤ 2147483647) :
    wrapInt x = x := by
  unfold wrapInt
  omega

theorem wrapInt_mem (x : Int) : -2147483648 ≤ wrapInt x ∧ wrapInt x ≤ 2147483647 := by
  unfold wrapInt
  omega

theorem wrapInt_wrapInt_add (a b : Int) : wrapInt (wrapInt a + b) = wrapInt (a + b) := by
  unfold wrapInt
  omega

theorem wrapInt_add_period (x k : Int) : wrapInt (x + 4294967296 * k) = wrapInt x := by
  unfold wrapInt
  omega

/-- The sums of `collide` from a coordinate whose sums fit are the plain sums. -/
theorem wrapInt_sum (v : Int) (h : SumsFit v) (k : Nat) (hk : k < 4) :
    wrapInt (v + k) = v + k := by
  obtain ⟨h1, h2⟩ := h
  exact wrapInt_of_fits _ (by omega) (by omega)

theorem collideCell_iff (b : Board) (shape : Nat) (nx ny nrot : Int) (r c : Nat) :
    collideCell b shape nx ny nrot r c = true ↔
      shape_at shape nrot r c ≠ 0 ∧
        (wrapInt (nx + c) < 0 ∨ wrapInt (nx + c) ≥ 10 ∨ wrapInt (ny + r) ≥ 20 ∨
          (wrapInt (ny + r) ≥ 0 ∧ b (wrapInt (ny + r)) (wrapInt (nx + c)) ≠ 0)) := by
  simp only [collideCell, BOARD_W, BOARD_H]
  by_cases hs : shape_at shape nrot r c ≠ 0
  · rw [if_pos hs]
    by_cases h1 : wrapInt (nx + (c : Int)) < 0 ∨ wrapInt (nx + (c : Int)) ≥ 10 ∨
        wrapInt (ny + (r : Int)) ≥ 20
    · rw [if_pos h1]
      refine ⟨fun _ => ⟨hs, ?_⟩, fun _ => rfl⟩
      rcases h1 with h | h | h
      · exact Or.inl h
      · exact Or.inr (Or.inl h)
      · exact Or.inr (Or.inr (Or.inl h))
    · rw [if_neg h1]
      by_cases h2 : wrapInt (ny + (r : Int)) ≥ 0 ∧
          b (wrapInt (ny + r)) (wrapInt (nx + c)) ≠ 0
      · rw [if_pos h2]
        exact ⟨fun _ => ⟨hs, Or.inr (Or.inr (Or.inr h2))⟩, fun _ => rfl⟩
      · rw [if_neg h2]
        refine ⟨fun h => (by cases h), ?_⟩
        rintro ⟨_, h | h | h | h⟩
        · exact absurd (Or.inl h) h1
        · exact absurd (Or.inr (Or.inl h)) h1
        · exact absurd (Or.inr (Or.inr h)) h1
        · exact absurd h h2
  · rw [if_neg hs]
    exact ⟨fun h => (by cases h), fun h => absurd h.1 hs⟩

theorem collideCols_iff (b : Board) (shape : Nat) (nx ny nrot : Int) (r : Nat) (n c : Nat) :
    collideCols b shape nx ny nrot r n c = true ↔
      ∃ c', c ≤ c' ∧ c' < c + n ∧ collideCell b shape nx ny nrot r c' = true := by
  induction n generalizing c with
  | zero =>
    simp only [collideCols, Bool.false_eq_true, false_iff]
    rintro ⟨c', h1, h2, _⟩
    omega
  | succ n ih =>
    unfold collideCols
    by_cases hc : collideCell b shape nx ny nrot r c = true
    · simp only [hc, if_true, true_iff]
      exact ⟨c, le_refl _, by omega, hc⟩
    · simp only [hc, if_false, Bool.false_eq_true]
      rw [ih]
      constructor
      · rintro ⟨c', h1, h2, h3⟩
        exact ⟨c', by omega, by omega, h3⟩
      · rintro ⟨c', h1, h2, h3⟩
        have : c' ≠ c := by
          intro e; subst e; exact hc h3
        exact ⟨c', by omega, by omega, h3⟩

theorem collideRows_iff (b : Board) (shape : Nat) (nx ny nrot : Int) (n r : Nat) :
    collideRows b shape nx ny nrot n r = true ↔
      ∃ r' c', r ≤ r' ∧ r' < r + n ∧ c' < 4 ∧ collideCell b shape nx ny nrot r' c' = true := by
  induction n generalizing r with
  | zero =>
    simp only [collideRows, Bool.false_eq_true, false_iff]
    rintro ⟨r', c', h1, h2, _⟩
    omega
  | succ n ih =>
    unfold collideRows
    by_cases hc : collideCols b shape nx ny nrot r SIZE 0 = true
    · simp only [hc, if_true, true_iff]
      obtain ⟨c', _, h2, h3⟩ := (collideCols_iff b shape nx ny nrot r 4 0).1 hc
      exact ⟨r, c', le_refl _, by omega, by omega, h3⟩
    · simp only [hc, if_false, Bool.false_eq_true]
      rw [ih]
      constructor
      · rintro ⟨r', c', h1, h2, h3, h4⟩
        exact ⟨r', c', by omega, by omega, h3, h4⟩
      · rintro ⟨r', c', h1, h2, h3, h4⟩
        have : r' ≠ r := by
          intro e; subst e
          exact hc ((collideCols_iff b shape nx ny nrot r' 4 0).2 ⟨c', Nat.zero_le _, by omega, h4⟩)
        exact ⟨r', c', by omega, by omega, h3, h4⟩

theorem collideRows_hits (b : Board) (shape : Nat) (nx ny nrot : Int) :
    collideRows b shape nx ny nrot SIZE 0 = true ↔ Hits b shape nx ny nrot := by
  show collideRows b shape nx ny nrot 4 0 = true ↔ _
  rw [collideRows_iff]
  constructor
  · rintro ⟨r, c, _, h2, h3, h4⟩
    exact ⟨r, c, by omega, h3, (collideCell_iff b shape nx ny nrot r c).1 h4⟩
  · rintro ⟨r, c, h1, h2, h3⟩
    exact ⟨r, c, Nat.zero_le _, by omega, h2, (collideCell_iff b shape nx ny nrot r c).2 h3⟩

theorem collide_eq_one_iff (g : Game) (nx ny nrot : Int) :
    collide g nx ny nrot = 1 ↔ Hits g.board g.curShape nx ny nrot := by
  rw [← collideRows_hits]
  unfold collide
  by_cases h : collideRows g.board g.curShape nx ny nrot SIZE 0 = true <;> simp [h]

theorem collide_eq_zero_iff (g : Game) (nx ny nrot : Int) :
    collide g nx ny nrot = 0 ↔ ¬ Hits g.board g.curShape nx ny nrot := by
  rw [← collideRows_hits]
  unfold collide
  by_cases h : collideRows g.board g.curShape nx ny nrot SIZE 0 = true <;> simp [h]

theorem collide_ne_zero_iff (g : Game) (nx ny nrot : Int) :
    collide g nx ny nrot ≠ 0 ↔ Hits g.board g.curShape nx ny nrot := by
  rw [Ne, collide_eq_zero_iff, not_not]

/-- When the sums of both coordinates fit, `Hits` is the condition on the plain
sums. -/
theorem hits_iff_plain (b : Board) (shape : Nat) (nx ny nrot : Int) (hx : SumsFit nx)
    (hy : SumsFit ny) :
    Hits b shape nx ny nrot ↔
      ∃ r c : Nat, r < 4 ∧ c < 4 ∧ shape_at shape nrot r c ≠ 0 ∧
        (nx + c < 0 ∨ nx + c ≥ 10 ∨ ny + r ≥ 20 ∨ (ny + r ≥ 0 ∧ b (ny + r) (nx + c) ≠ 0)) := by
  unfold Hits
  constructor
  · rintro ⟨r, c, hr, hc, hs, h⟩
    rw [wrapInt_sum nx hx c hc, wrapInt_sum ny hy r hr] at h
    exact ⟨r, c, hr, hc, hs, h⟩
  · rintro ⟨r, c, hr, hc, hs, h⟩
    refine ⟨r, c, hr, hc, hs, ?_⟩
    rw [wrapInt_sum nx hx c hc, wrapInt_sum ny hy r hr]
    exact h

/-! ## Lemmas on `clear_lines` -/

theorem rowFull_iff (b : Board) (r : Int) (n : Nat) (c : Int) :
    rowFull b r n c = true ↔ ∀ c' : Int, c ≤ c' → c' < c + n → b r c' ≠ 0 := by
  induction n generalizing c with
  | zero =>
    simp only [rowFull, true_iff]
    intro c' h1 h2
    simp only [Nat.cast_zero, add_zero] at h2
    omega
  | succ n ih =>
    unfold rowFull
    by_cases h0 : b r c = 0
    · rw [if_pos h0]
      refine ⟨fun h => (by cases h), fun h => absurd h0 (h c (le_refl _) (by push_cast; omega))⟩
    · rw [if_neg h0, ih]
      constructor
      · intro h c' h1 h2
        by_cases e : c' = c
        · rw [e]; exact h0
        · exact h c' (by omega) (by push_cast at h2; omega)
      · intro h c' h1 h2
        exact h c' (by omega) (by push_cast; omega)

theorem copyRowDown_apply (rr : Int) (n : Nat) (cc : Int) (b : Board) (r' c' : Int) :
    copyRowDown rr n cc b r' c' =
      if r' = rr ∧ cc ≤ c' ∧ c' < cc + n then b (rr - 1) c' else b r' c' := by
  induction n generalizing cc b with
  | zero =>
    have : ¬ (r' = rr ∧ cc ≤ c' ∧ c' < cc + ((0 : Nat) : Int)) := by
      simp only [Nat.cast_zero, add_zero]; omega
    rw [if_neg this]; rfl
  | succ n ih =>
    unfold copyRowDown
    rw [ih]
    have hprev : setCell b rr cc (b (rr - 1) cc) (rr - 1) c' = b (rr - 1) c' := by
      unfold setCell
      rw [if_neg]; omega
    rw [hprev]
    by_cases h : r' = rr ∧ cc + 1 ≤ c' ∧ c' < cc + 1 + n
    · rw [if_pos h, if_pos]
      push_cast; omega
    · rw [if_neg h]
      unfold setCell
      by_cases h2 : r' = rr ∧ c' = cc
      · rw [if_pos h2, if_pos, h2.2]
        push_cast; omega
      · rw [if_neg h2, if_neg]
        push_cast; omega

theorem shiftRows_apply (n : Nat) (rr : Int) (b : Board) (h : rr ≤ n) (r' c' : Int) :
    shiftRows n rr b r' c' =
      if 1 ≤ r' ∧ r' ≤ rr ∧ 0 ≤ c' ∧ c' < 10 then b (r' - 1) c' else b r' c' := by
  induction n generalizing rr b with
  | zero =>
    have : ¬ (1 ≤ r' ∧ r' ≤ rr ∧ 0 ≤ c' ∧ c' < 10) := by
      simp only [Nat.cast_zero] at h; omega
    rw [if_neg this]; rfl
  | succ n ih =>
    unfold shiftRows
    by_cases hr : rr > 0
    · rw [if_pos hr, ih _ _ (by push_cast at h; omega)]
      show (if 1 ≤ r' ∧ r' ≤ rr - 1 ∧ 0 ≤ c' ∧ c' < 10 then copyRowDown rr 10 0 b (r' - 1) c'
        else copyRowDown rr 10 0 b r' c') = _
      rw [copyRowDown_apply, copyRowDown_apply]
      by_cases h1 : 1 ≤ r' ∧ r' ≤ rr - 1 ∧ 0 ≤ c' ∧ c' < 10
      · rw [if_pos h1, if_neg (by omega), if_pos (by omega)]
      · rw [if_neg h1]
        by_cases h2 : r' = rr ∧ (0 : Int) ≤ c' ∧ c' < 0 + ((10 : Nat) : Int)
        · rw [if_pos h2, if_pos (by push_cast at h2; omega), h2.1]
        · rw [if_neg h2, if_neg (by push_cast at h2; omega)]
    · rw [if_neg hr, if_neg (by omega)]

theorem zeroTop_apply (n : Nat) (cc : Int) (b : Board) (r' c' : Int) :
    zeroTop n cc b r' c' = if r' = 0 ∧ cc ≤ c' ∧ c' < cc + n then 0 else b r' c' := by
  induction n generalizing cc b with
  | zero =>
    have : ¬ (r' = 0 ∧ cc ≤ c' ∧ c' < cc + ((0 : Nat) : Int)) := by
      simp only [Nat.cast_zero, add_zero]; omega
    rw [if_neg this]; rfl
  | succ n ih =>
    unfold zeroTop
    rw [ih]
    by_cases h : r' = 0 ∧ cc + 1 ≤ c' ∧ c' < cc + 1 + n
    · rw [if_pos h, if_pos]
      push_cast; omega
    · rw [if_neg h]
      unfold setCell
      by_cases h2 : r' = 0 ∧ c' = cc
      · rw [if_pos h2, if_pos]
        push_cast; omega
      · rw [if_neg h2, if_neg]
        push_cast; omega

/-- The board after the full-row branch of the scan at row `r`: the rows above
`r` moved down by one and row 0 zeroed. -/
theorem pullDown_apply (b : Board) (r : Int) (h : r ≤ 20) (r' c' : Int)
    (hc : 0 ≤ c' ∧ c' < 10) :
    zeroTop BOARD_W.toNat 0 (shiftRows BOARD_H.toNat r b) r' c' =
      if r' = 0 then 0 else if 1 ≤ r' ∧ r' ≤ r then b (r' - 1) c' else b r' c' := by
  show zeroTop 10 0 (shiftRows 20 r b) r' c' = _
  rw [zeroTop_apply, shiftRows_apply 20 r b (by push_cast; omega)]
  by_cases h0 : r' = 0
  · rw [if_pos h0, if_pos]
    push_cast; omega
  · rw [if_neg h0, if_neg (by omega)]
    by_cases h1 : 1 ≤ r' ∧ r' ≤ r
    · rw [if_pos h1, if_pos (by omega)]
    · rw [if_neg h1, if_neg (by omega)]

theorem rowsOf_length (b : Board) : (rowsOf b).length = 20 := by
  simp [rowsOf]

theorem rowOf_length (b : Board) (r : Nat) : (rowOf b r).length = 10 := by
  simp [rowOf]

theorem rowsOf_getElem? (b : Board) (i : Nat) (h : i < 20) :
    (rowsOf b)[i]? = some (rowOf b i) := by
  simp [rowsOf, List.getElem?_map, List.getElem?_range h]

theorem rowOf_getElem? (b : Board) (r i : Nat) (h : i < 10) :
    (rowOf b r)[i]? = some (b r i) := by
  simp [rowOf, List.getElem?_map, List.getElem?_range h]

theorem isFull_rowOf (b : Board) (r : Nat) :
    isFull (rowOf b r) = true ↔ ∀ c : Nat, c < 10 → b r c ≠ 0 := by
  simp [isFull, rowOf, List.all_eq_true]

theorem rowFull_eq_isFull (b : Board) (r : Nat) :
    rowFull b r BOARD_W.toNat 0 = isFull (rowOf b r) := by
  have h1 := rowFull_iff b r 10 0
  have h2 := isFull_rowOf b r
  have h3 : (∀ c' : Int, 0 ≤ c' → c' < 0 + ((10 : Nat) : Int) → b r c' ≠ 0) ↔
      ∀ c : Nat, c < 10 → b r c ≠ 0 := by
    constructor
    · intro h c hc
      exact h c (by omega) (by push_cast; omega)
    · intro h c' h0 h10
      have := h c'.toNat (by push_cast at h10; omega)
      rwa [Int.toNat_of_nonneg h0] at this
  show rowFull b r 10 0 = _
  rw [Bool.eq_iff_iff, h1, h2, h3]

theorem isFull_zeroRow : isFull zeroRow = false := by decide

theorem rowsOf_pullDown (b : Board) (r : Nat) (h : r < 20) :
    rowsOf (zeroTop BOARD_W.toNat 0 (shiftRows BOARD_H.toNat r b)) =
      zeroRow :: ((rowsOf b).take r ++ (rowsOf b).drop (r + 1)) := by
  rw [← List.eraseIdx_eq_take_drop_succ]
  apply List.ext_getElem?
  intro i
  by_cases hi : i < 20
  · rw [rowsOf_getElem? _ i hi]
    have hrow : rowOf (zeroTop BOARD_W.toNat 0 (shiftRows BOARD_H.toNat r b)) i =
        if i = 0 then zeroRow else if i ≤ r then rowOf b (i - 1) else rowOf b i := by
      apply List.ext_getElem?
      intro j
      by_cases hj : j < 10
      · rw [rowOf_getElem? _ _ _ hj, pullDown_apply b r (by omega) i j (by omega)]
        by_cases h0 : i = 0
        · subst h0
          rw [if_pos (by rfl), if_pos rfl, show zeroRow = List.replicate 10 0 from rfl,
            List.getElem?_replicate, if_pos hj]
        · rw [if_neg (by omega), if_neg h0]
          by_cases h1 : i ≤ r
          · rw [if_pos (by omega), if_pos h1, rowOf_getElem? _ _ _ hj]
            congr 2
            omega
          · rw [if_neg (by omega), if_neg h1, rowOf_getElem? _ _ _ hj]
      · have e1 : ∀ l : List Int, l.length = 10 → l[j]? = none := by
          intro l hl
          apply List.getElem?_eq_none
          omega
        rw [e1 _ (rowOf_length _ _)]
        symm
        apply e1
        split
        · simp [zeroRow]
        · split <;> exact rowOf_length _ _
    rw [hrow]
    rcases i with _ | i
    · simp
    · rw [List.getElem?_cons_succ, List.getElem?_eraseIdx, if_neg (by omega)]
      by_cases h1 : i + 1 ≤ r
      · rw [if_pos h1, if_pos (by omega), rowsOf_getElem? _ _ (by omega)]
        rfl
      · rw [if_neg h1, if_neg (by omega), rowsOf_getElem? _ _ hi]
  · have e1 : ∀ l : List (List Int), l.length = 20 → l[i]? = none := by
      intro l hl
      apply List.getElem?_eq_none
      omega
    rw [e1 _ (rowsOf_length _)]
    symm
    apply e1
    rw [List.length_cons, List.length_eraseIdx, rowsOf_length]
    simp [h]

theorem take_succ_rowsOf (b : Board) (m : Nat) (h : m < 20) :
    (rowsOf b).take (m + 1) = (rowsOf b).take m ++ [rowOf b m] := by
  rw [List.take_succ, rowsOf_getElem? b m h]
  rfl

theorem drop_rowsOf (b : Board) (m : Nat) (h : m < 20) :
    (rowsOf b).drop m = rowOf b m :: (rowsOf b).drop (m + 1) := by
  have hl : m < (rowsOf b).length := by rw [rowsOf_length]; exact h
  rw [List.drop_eq_getElem_cons hl]
  congr 1
  have := rowsOf_getElem? b m h
  rw [List.getElem?_eq_getElem hl] at this
  exact Option.some.inj this

theorem compact_snoc_full (l : List (List Int)) (row : List Int) (h : isFull row = true) :
    compact (l ++ [row]) = zeroRow :: compact l := by
  simp only [compact, List.countP_append, List.filter_append, List.countP_cons,
    List.countP_nil, List.filter_cons, List.filter_nil, h, if_true, Bool.not_true,
    Bool.false_eq_true, if_false, List.append_nil, zero_add]
  rw [List.replicate_succ, List.cons_append]

theorem compact_snoc_notFull (l : List (List Int)) (row : List Int) (h : isFull row = false) :
    compact (l ++ [row]) = compact l ++ [row] := by
  simp only [compact, List.countP_append, List.filter_append, List.countP_cons,
    List.countP_nil, List.filter_cons, List.filter_nil, h, Bool.false_eq_true, if_false,
    Bool.not_false, if_true, add_zero, List.append_assoc]

theorem compact_cons_zeroRow (l : List (List Int)) :
    compact (zeroRow :: l) = zeroRow :: compact l := by
  have hrep : ∀ (k : Nat) (t : List (List Int)),
      List.replicate k zeroRow ++ zeroRow :: t = zeroRow :: (List.replicate k zeroRow ++ t) := by
    intro k t
    rw [← List.cons_append, ← List.replicate_succ, List.replicate_succ', List.append_assoc]
    rfl
  simp only [compact, List.countP_cons, isFull_zeroRow, Bool.false_eq_true, if_false,
    add_zero, List.filter_cons, Bool.not_false, if_true]
  exact hrep _ _

/-- The scan of `clear_lines` from row `n - 1` upwards: with fuel for the `n`
rows still to visit and for the full rows among them (and one more step to
leave the loop), it ends, counts the full rows among rows `0..n-1`, and leaves
those rows compacted above the untouched rows `n..19`. -/
theorem clearLoop_spec (fuel n : Nat) (b : Board) (cleared : Int) (hn : n ≤ 20)
    (hf : n + ((rowsOf b).take n).countP isFull + 1 ≤ fuel) :
    ∃ b', clearLoop fuel ((n : Int) - 1) b cleared =
        some (b', cleared + (((rowsOf b).take n).countP isFull : Nat)) ∧
      rowsOf b' = compact ((rowsOf b).take n) ++ (rowsOf b).drop n := by
  induction fuel generalizing n b cleared with
  | zero => omega
  | succ fuel ih =>
    unfold clearLoop
    rcases n with _ | m
    · rw [if_neg (by simp)]
      refine ⟨b, ?_, ?_⟩
      · simp
      · simp [compact]
    · have hm : m < 20 := by omega
      have hr : ((m + 1 : Nat) : Int) - 1 = (m : Int) := by push_cast; omega
      rw [hr, if_pos (by omega), rowFull_eq_isFull]
      rw [take_succ_rowsOf b m hm] at hf ⊢
      by_cases hfull : isFull (rowOf b m) = true
      · rw [if_pos hfull]
        have hrows := rowsOf_pullDown b m hm
        have htl : ((rowsOf b).take m).length = m := by
          rw [List.length_take, rowsOf_length]; omega
        have htake : (rowsOf (zeroTop BOARD_W.toNat 0 (shiftRows BOARD_H.toNat m b))).take (m + 1)
            = zeroRow :: (rowsOf b).take m := by
          rw [hrows, List.take_succ_cons, List.take_left' htl]
        have hdrop : (rowsOf (zeroTop BOARD_W.toNat 0 (shiftRows BOARD_H.toNat m b))).drop (m + 1)
            = (rowsOf b).drop (m + 1) := by
          rw [hrows, List.drop_succ_cons, List.drop_left' htl]
        have hcnt : List.countP isFull (zeroRow :: (rowsOf b).take m) =
            List.countP isFull ((rowsOf b).take m) := by
          rw [List.countP_cons, isFull_zeroRow]; simp
        have hcnt2 : List.countP isFull ((rowsOf b).take m ++ [rowOf b m]) =
            List.countP isFull ((rowsOf b).take m) + 1 := by
          rw [List.countP_append, List.countP_cons, hfull]; simp
        rw [hcnt2] at hf
        obtain ⟨b', h1, h2⟩ := ih (m + 1) (zeroTop BOARD_W.toNat 0 (shiftRows BOARD_H.toNat m b))
          (cleared + 1) hn (by rw [htake, hcnt]; omega)
        refine ⟨b', ?_, ?_⟩
        · have hr2 : (m : Int) + 1 - 1 = ((m + 1 : Nat) : Int) - 1 := by push_cast; omega
          show clearLoop fuel ((m : Int) + 1 - 1) _ _ = _
          rw [hr2, h1, htake, hcnt, hcnt2]
          congr 2
          push_cast; omega
        · rw [h2, htake, hdrop, compact_snoc_full _ _ hfull, compact_cons_zeroRow]
      · have hnf : isFull (rowOf b m) = false := by
          cases h : isFull (rowOf b m)
          · rfl
          · exact absurd h hfull
        rw [if_neg hfull]
        have hcnt2 : List.countP isFull ((rowsOf b).take m ++ [rowOf b m]) =
            List.countP isFull ((rowsOf b).take m) := by
          rw [List.countP_append, List.countP_cons, hnf]; simp
        rw [hcnt2] at hf ⊢
        obtain ⟨b', h1, h2⟩ := ih m b cleared (by omega) (by omega)
        refine ⟨b', h1, ?_⟩
        rw [h2, compact_snoc_notFull _ _ hnf, drop_rowsOf b m hm, List.append_assoc]
        rfl

theorem take_all_rowsOf (b : Board) : (rowsOf b).take 20 = rowsOf b := by
  apply List.take_of_length_le
  rw [rowsOf_length]

theorem drop_all_rowsOf (b : Board) : (rowsOf b).drop 20 = [] := by
  apply List.drop_of_length_le
  rw [rowsOf_length]

theorem fullRows_le (b : Board) : fullRows b ≤ 20 := by
  unfold fullRows
  have := List.countP_le_length isFull (l := rowsOf b)
  rwa [rowsOf_length] at this

/-- The whole scan of `clear_lines`: 41 units of fuel are enough for it to end
(20 rows, at most 20 full ones, and the last test of `r >= 0`); it counts the
full rows of the board and leaves the board compacted. -/
theorem clearLoop_full (b : Board) (fuel : Nat) (hf : 41 ≤ fuel) :
    ∃ b', clearLoop fuel (BOARD_H - 1) b 0 = some (b', (fullRows b : Int)) ∧
      rowsOf b' = compact (rowsOf b) := by
  have hcount := fullRows_le b
  unfold fullRows at hcount
  obtain ⟨b', h1, h2⟩ := clearLoop_spec fuel 20 b 0 (le_refl _)
    (by rw [take_all_rowsOf]; omega)
  rw [take_all_rowsOf] at h1 h2
  rw [drop_all_rowsOf, List.append_nil] at h2
  refine ⟨b', ?_, h2⟩
  rw [zero_add] at h1
  exact h1

theorem clear_lines_full (g : Game) (fuel : Nat) (hf : 41 ≤ fuel) :
    ∃ b', clear_lines fuel g = some (applyCleared g b' (fullRows g.board)) ∧
      clearLoop fuel (BOARD_H - 1) g.board 0 = some (b', (fullRows g.board : Int)) ∧
      rowsOf b' = compact (rowsOf g.board) := by
  obtain ⟨b', h1, h2⟩ := clearLoop_full g.board fuel hf
  refine ⟨b', ?_, h1, h2⟩
  unfold clear_lines
  rw [h1]

theorem clearLoop_mono_succ (fuel : Nat) (r : Int) (b : Board) (cleared : Int)
    (x : Board × Int) (h : clearLoop fuel r b cleared = some x) :
    clearLoop (fuel + 1) r b cleared = some x := by
  induction fuel generalizing r b cleared with
  | zero => cases h
  | succ fuel ih =>
    rw [clearLoop] at h
    rw [clearLoop]
    split
    · rw [if_pos (by assumption)] at h
      split
      · rw [if_pos (by assumption)] at h
        exact ih _ _ _ h
      · rw [if_neg (by assumption)] at h
        exact ih _ _ _ h
    · rw [if_neg (by assumption)] at h
      exact h

/-- More fuel does not change the result of the scan. -/
theorem clearLoop_mono (fuel k : Nat) (r : Int) (b : Board) (cleared : Int)
    (x : Board × Int) (h : clearLoop fuel r b cleared = some x) :
    clearLoop (fuel + k) r b cleared = some x := by
  induction k with
  | zero => exact h
  | succ k ih => exact clearLoop_mono_succ _ _ _ _ _ ih

/-- Whatever fuel `clear_lines` returned with, its result is the compaction:
the count is the number of full rows. -/
theorem clear_lines_result (fuel : Nat) (g g' : Game) (h : clear_lines fuel g = some g') :
    ∃ b', g' = applyCleared g b' (fullRows g.board) ∧ rowsOf b' = compact (rowsOf g.board) := by
  unfold clear_lines at h
  split at h
  · cases h
  · next b cleared hloop =>
    cases h
    obtain ⟨b', h1, h2⟩ := clearLoop_full g.board (fuel + 41) (by omega)
    rw [clearLoop_mono fuel 41 _ _ _ _ hloop] at h1
    cases h1
    exact ⟨b, rfl, h2⟩

/-! ## Line clearing: the checked claims -/

/-- C1: for every board, `clear_lines` performs gravity compaction.  With `k`
the number of full rows of the input board, the scan ends (41 units of fuel are
enough), counts `k` cleared rows, and leaves a board whose 20 rows are `k`
all-zero rows followed by the non-full rows of the input, cell for cell and in
their order; `clear_lines` returns the state with that board and the scoring
tail applied to the count `k`. -/
theorem C1_clear_lines_compaction (g : Game) (fuel : Nat) (hf : 41 ≤ fuel) :
    ∃ b', clearLoop fuel (BOARD_H - 1) g.board 0 = some (b', (fullRows g.board : Int)) ∧
      clear_lines fuel g = some (applyCleared g b' (fullRows g.board)) ∧
      (applyCleared g b' (fullRows g.board)).board = b' ∧
      rowsOf b' = List.replicate (fullRows g.board) (List.replicate 10 0) ++
        (rowsOf g.board).filter (fun row => !isFull row) := by
  obtain ⟨b', h1, h2, h3⟩ := clear_lines_full g fuel hf
  refine ⟨b', h2, h1, ?_, h3⟩
  unfold applyCleared
  split <;> rfl

/-- C1, at the board full, empty, full (rows 19, 18, 17): the count is 2 and
all 20 rows of the result are empty. -/
theorem C1_clear_lines_compaction_witness :
    41 ≤ 41 ∧
    ∃ b', clearLoop 41 (BOARD_H - 1) (gameOn fullEmptyFull 1).board 0 = some (b', 2) ∧
      clear_lines 41 (gameOn fullEmptyFull 1) = some (applyCleared (gameOn fullEmptyFull 1) b' 2) ∧
      (applyCleared (gameOn fullEmptyFull 1) b' 2).board = b' ∧
      rowsOf b' = List.replicate 20 (List.replicate 10 0) := by
  refine ⟨le_refl _, ?_⟩
  have hk : fullRows (gameOn fullEmptyFull 1).board = 2 := by decide
  have hrows : List.replicate 2 (List.replicate 10 (0 : Int)) ++
      (rowsOf (gameOn fullEmptyFull 1).board).filter (fun row => !isFull row) =
      List.replicate 20 (List.replicate 10 0) := by decide
  have h := C1_clear_lines_compaction (gameOn fullEmptyFull 1) 41 (le_refl _)
  rw [hk, hrows] at h
  exact h

theorem compact_notFull (l : List (List Int)) (row : List Int) (h : row ∈ compact l) :
    isFull row = false := by
  unfold compact at h
  rcases List.mem_append.1 h with h | h
  · rw [List.eq_of_mem_replicate h]
    exact isFull_zeroRow
  · have := (List.mem_filter.1 h).2
    simpa using this

theorem rowOf_mem_rowsOf (b : Board) (r : Nat) (h : r < 20) : rowOf b r ∈ rowsOf b := by
  unfold rowsOf
  exact List.mem_map.2 ⟨r, List.mem_range.2 h, rfl⟩

theorem not_isFull_iff (b : Board) (r : Nat) :
    isFull (rowOf b r) = false ↔ ∃ c : Nat, c < 10 ∧ b r c = 0 := by
  rw [← Bool.not_eq_true, isFull_rowOf]
  push_neg
  rfl

theorem applyCleared_board (g : Game) (b : Board) (cleared : Int) :
    (applyCleared g b cleared).board = b := by
  unfold applyCleared
  split <;> rfl

/-- The scan over rows none of which is full ends after one step per row and
changes nothing. -/
theorem clearLoop_noFull (n fuel : Nat) (b : Board) (cleared : Int) (hn : n ≤ 20)
    (hf : n + 1 ≤ fuel) (h : ∀ r : Nat, r < n → isFull (rowOf b r) = false) :
    clearLoop fuel ((n : Int) - 1) b cleared = some (b, cleared) := by
  induction n generalizing fuel with
  | zero =>
    obtain ⟨fuel, rfl⟩ : ∃ k, fuel = k + 1 := ⟨fuel - 1, by omega⟩
    unfold clearLoop
    rw [if_neg (by simp)]
  | succ m ih =>
    obtain ⟨fuel, rfl⟩ : ∃ k, fuel = k + 1 := ⟨fuel - 1, by omega⟩
    unfold clearLoop
    have hr : ((m + 1 : Nat) : Int) - 1 = (m : Int) := by push_cast; omega
    rw [hr, if_pos (by omega), rowFull_eq_isFull, h m (by omega), if_neg (by simp)]
    exact ih fuel (by omega) (by omega) (fun r hr => h r (by omega))

/-- C2: for every input board, after `clear_lines` has returned (it does, 41
units of fuel are enough) the board has no full row: every row `r` in `[0,20)`
has a column `c` in `[0,10)` with `board[r][c] == 0`. -/
theorem C2_no_full_row_after_clear (g : Game) (fuel : Nat) (hf : 41 ≤ fuel) :
    ∃ g', clear_lines fuel g = some g' ∧
      ∀ r : Nat, r < 20 → ∃ c : Nat, c < 10 ∧ g'.board r c = 0 := by
  obtain ⟨b', h1, _, h3⟩ := clear_lines_full g fuel hf
  refine ⟨_, h1, ?_⟩
  intro r hr
  rw [applyCleared_board]
  apply (not_isFull_iff b' r).1
  apply compact_notFull (rowsOf g.board)
  rw [← h3]
  exact rowOf_mem_rowsOf b' r hr

/-- C2, at the board whose rows 19 and 17 are full. -/
theorem C2_no_full_row_after_clear_witness :
    41 ≤ 41 ∧ ∃ g', clear_lines 41 (gameOn fullEmptyFull 1) = some g' ∧
      ∀ r : Nat, r < 20 → ∃ c : Nat, c < 10 ∧ g'.board r c = 0 :=
  ⟨le_refl _, C2_no_full_row_after_clear (gameOn fullEmptyFull 1) 41 (le_refl _)⟩

/-- C3: on a board that has no full row, `clear_lines` counts 0 cleared rows
and returns the state it was given: every board cell, `score`, `level` and
`linesCleared` (and every other global) are unchanged. -/
theorem C3_clear_lines_noop (g : Game) (fuel : Nat) (hf : 21 ≤ fuel)
    (h : ∀ r : Nat, r < 20 → ∃ c : Nat, c < 10 ∧ g.board r c = 0) :
    clearLoop fuel (BOARD_H - 1) g.board 0 = some (g.board, 0) ∧
      clear_lines fuel g = some g ∧
      ∀ g', clear_lines fuel g = some g' →
        g'.board = g.board ∧ g'.score = g.score ∧ g'.level = g.level ∧
          g'.linesCleared = g.linesCleared := by
  have h1 : clearLoop fuel (BOARD_H - 1) g.board 0 = some (g.board, 0) :=
    clearLoop_noFull 20 fuel g.board 0 (le_refl _) (by omega)
      (fun r hr => (not_isFull_iff g.board r).2 (h r hr))
  have h2 : clear_lines fuel g = some g := by
    unfold clear_lines
    rw [h1]
    rfl
  refine ⟨h1, h2, ?_⟩
  intro g' hg'
  rw [h2] at hg'
  cases hg'
  exact ⟨rfl, rfl, rfl, rfl⟩

/-- C3, at the empty board. -/
theorem C3_clear_lines_noop_witness :
    21 ≤ 21 ∧ (∀ r : Nat, r < 20 → ∃ c : Nat, c < 10 ∧ (gameOn emptyBoard 1).board r c = 0) ∧
      clearLoop 21 (BOARD_H - 1) (gameOn emptyBoard 1).board 0 =
        some ((gameOn emptyBoard 1).board, 0) ∧
      clear_lines 21 (gameOn emptyBoard 1) = some (gameOn emptyBoard 1) ∧
      ∀ g', clear_lines 21 (gameOn emptyBoard 1) = some g' →
        g'.board = (gameOn emptyBoard 1).board ∧ g'.score = (gameOn emptyBoard 1).score ∧
          g'.level = (gameOn emptyBoard 1).level ∧
          g'.linesCleared = (gameOn emptyBoard 1).linesCleared :=
  ⟨le_refl _, fun _ _ => ⟨0, by decide, rfl⟩,
    C3_clear_lines_noop (gameOn emptyBoard 1) 21 (le_refl _) (fun _ _ => ⟨0, by decide, rfl⟩)⟩

theorem linePoints_cast (k : Nat) : linePoints (k : Int) = specPoints k := by
  unfold linePoints specPoints
  by_cases h1 : k = 1
  · subst h1; rfl
  by_cases h2 : k = 2
  · subst h2; rfl
  by_cases h3 : k = 3
  · subst h3; rfl
  by_cases h4 : k = 4
  · subst h4; rfl
  have e1 : ¬ ((k : Int) = 1) := by omega
  have e2 : ¬ ((k : Int) = 2) := by omega
  have e3 : ¬ ((k : Int) = 3) := by omega
  have e4 : ¬ ((k : Int) = 4) := by omega
  simp only [e1, e2, e3, e4, h1, h2, h3, h4, if_false]

/-- The score after the tail of `clear_lines` that counted `k` rows. -/
theorem applyCleared_score (g : Game) (b : Board) (k : Nat) :
    (applyCleared g b k).score =
      if k = 0 then g.score else wrapInt (g.score + wrapInt (specPoints k * g.level)) := by
  unfold applyCleared
  by_cases h : (k : Int) ≠ 0
  · rw [if_pos h, if_neg (by omega)]
    show wrapInt (g.score + wrapInt (linePoints (k : Int) * g.level)) = _
    rw [linePoints_cast]
  · rw [if_neg h, if_pos (by omega)]

/-- The line counter after the tail of `clear_lines` that counted `k` rows. -/
theorem applyCleared_lines (g : Game) (b : Board) (k : Nat) :
    (applyCleared g b k).linesCleared =
      if k = 0 then g.linesCleared else wrapInt (g.linesCleared + k) := by
  unfold applyCleared
  by_cases h : (k : Int) ≠ 0
  · rw [if_pos h, if_neg (by omega)]
  · rw [if_neg h, if_pos (by omega)]

/-- The level after the tail of `clear_lines` that counted `k` rows. -/
theorem applyCleared_level (g : Game) (b : Board) (k : Nat) :
    (applyCleared g b k).level =
      if k = 0 then g.level
      else wrapInt (1 + Int.tdiv (wrapInt (g.linesCleared + k)) 10) := by
  unfold applyCleared
  by_cases h : (k : Int) ≠ 0
  · rw [if_pos h, if_neg (by omega)]
  · rw [if_neg h, if_pos (by omega)]

set_option maxRecDepth 100000 in
/-- C4 as stated fails where the `int` score overflows: with the score at
`INT_MAX = 2147483647`, level 1 and one full row, `clear_lines` leaves the
score -2147483609, not 2147483647 + 40 = 2147483687. -/
theorem C4_counterexample :
    fullRows maxScore.board = 1 ∧ maxScore.level = 1 ∧ maxScore.score = 2147483647 ∧
    (clear_lines 41 maxScore).map (fun g => g.score) = some (-2147483609) ∧
    maxScore.score + specPoints 1 * maxScore.level = 2147483687 :=
  ⟨by decide, rfl, rfl, rfl, by decide⟩

/-- C4, amended: for every state, with `k` the number of full rows of its
board, `clear_lines` returns (41 units of fuel are enough) and sets the score
to `score + pts(k) * level` computed in `int` arithmetic (the product and the
sum are each reduced modulo `2^32` into the `int` range), with the level held
before the call and `pts` = 40, 100, 300, 1200 for 1, 2, 3, 4 rows and 0 for
every other count; for `k = 0` the score is not written.  When `pts(k) * level`
and `score + pts(k) * level` are representable as `int`, the score changes by
exactly `pts(k) * level`: at level 1 clearing 1/2/3/4 rows adds
40/100/300/1200 and at level 2 clearing 1 row adds 80. -/
theorem C4_score_delta (g : Game) (fuel : Nat) (hf : 41 ≤ fuel) :
    ∃ g', clear_lines fuel g = some g' ∧
      g'.score = (if fullRows g.board = 0 then g.score
        else wrapInt (g.score + wrapInt (specPoints (fullRows g.board) * g.level))) ∧
      (FitsInt (specPoints (fullRows g.board) * g.level) →
        FitsInt (g.score + specPoints (fullRows g.board) * g.level) →
        g'.score = g.score + specPoints (fullRows g.board) * g.level) ∧
      (g.level = 1 → fullRows g.board = 1 → FitsInt (g.score + 40) →
        g'.score = g.score + 40) ∧
      (g.level = 1 → fullRows g.board = 2 → FitsInt (g.score + 100) →
        g'.score = g.score + 100) ∧
      (g.level = 1 → fullRows g.board = 3 → FitsInt (g.score + 300) →
        g'.score = g.score + 300) ∧
      (g.level = 1 → fullRows g.board = 4 → FitsInt (g.score + 1200) →
        g'.score = g.score + 1200) ∧
      (g.level = 2 → fullRows g.board = 1 → FitsInt (g.score + 80) →
        g'.score = g.score + 80) ∧
      (fullRows g.board = 0 → g'.score = g.score) ∧
      (5 ≤ fullRows g.board → FitsInt g.score → g'.score = g.score) := by
  obtain ⟨b', h1, _, _⟩ := clear_lines_full g fuel hf
  have hs := applyCleared_score g b' (fullRows g.board)
  have hfit : FitsInt (specPoints (fullRows g.board) * g.level) →
      FitsInt (g.score + specPoints (fullRows g.board) * g.level) →
      (applyCleared g b' (fullRows g.board)).score =
        g.score + specPoints (fullRows g.board) * g.level := by
    intro f1 f2
    rw [hs]
    by_cases hk : fullRows g.board = 0
    · rw [if_pos hk, hk]
      simp [specPoints]
    · rw [if_neg hk, wrapInt_of_fits _ f1.1 f1.2, wrapInt_of_fits _ f2.1 f2.2]
  have hcase : ∀ (l : Int) (k : Nat) (p : Int), specPoints k * l = p → FitsInt p →
      g.level = l → fullRows g.board = k → FitsInt (g.score + p) →
      (applyCleared g b' (fullRows g.board)).score = g.score + p := by
    intro l k p hp fp hl hk f
    have e : specPoints (fullRows g.board) * g.level = p := by rw [hk, hl, hp]
    rw [← e]
    exact hfit (by rw [e]; exact fp) (by rw [e]; exact f)
  refine ⟨_, h1, hs, hfit, ?_, ?_, ?_, ?_, ?_, ?_, ?_⟩
  · exact hcase 1 1 40 (by decide) (by unfold FitsInt; decide)
  · exact hcase 1 2 100 (by decide) (by unfold FitsInt; decide)
  · exact hcase 1 3 300 (by decide) (by unfold FitsInt; decide)
  · exact hcase 1 4 1200 (by decide) (by unfold FitsInt; decide)
  · exact hcase 2 1 80 (by decide) (by unfold FitsInt; decide)
  · intro hk
    rw [hs, if_pos hk]
  · intro hk f
    have hp : specPoints (fullRows g.board) = 0 := by
      unfold specPoints
      rw [if_neg (by omega), if_neg (by omega), if_neg (by omega), if_neg (by omega)]
    have := hfit (by rw [hp, zero_mul]; unfold FitsInt; decide)
      (by rw [hp, zero_mul, add_zero]; exact f)
    rw [this, hp, zero_mul, add_zero]

/-- C4 amended, at level 2 on a board whose bottom row is the one full row: the
score goes from 0 to 80. -/
theorem C4_score_delta_witness :
    41 ≤ 41 ∧ ∃ g', clear_lines 41 (gameOn bottomFull 2) = some g' ∧ g'.score = 80 := by
  refine ⟨le_refl _, ?_⟩
  obtain ⟨g', h1, _, _, _, _, _, _, h80, _⟩ :=
    C4_score_delta (gameOn bottomFull 2) 41 (le_refl _)
  refine ⟨g', h1, ?_⟩
  rw [h80 rfl (by decide) (by unfold FitsInt; decide)]
  rfl

/-! ## `collide`: the checked claim -/

/-- C6 as stated fails where the `int` sum `ny + r` overflows: for the I piece
at `ny = INT_MAX = 2147483647` the occupied cell `(1, 0)` has
`ny + r = 2147483648 >= 20`, yet `collide(3, 2147483647, 0)` returns 0, because
the program's `by` is the wrapped sum -2147483648. -/
theorem C6_counterexample :
    shape_at (gameOn emptyBoard 1).curShape 0 1 0 ≠ 0 ∧
    (2147483647 : Int) + ((1 : Nat) : Int) ≥ 20 ∧
    collide (gameOn emptyBoard 1) 3 2147483647 0 = 0 ∧
    collide (gameOn emptyBoard 1) 3 2147483647 0 ≠ 1 := by
  decide

/-- C6, amended: for every board, shape and integers `nx`, `ny`, `nrot`,
`collide(nx, ny, nrot)` returns 1 exactly when some cell `(r, c)` of the 4x4
grid with `shape_at(curShape, nrot, r, c)` nonzero has `bx < 0`, or
`bx >= 10`, or `by >= 20`, or (`by >= 0` and `board[by][bx] != 0`), where
`bx`, `by` are the `int` sums `nx + c`, `ny + r` (reduced modulo `2^32`); it
returns 0 otherwise.  When the sums are representable as `int`
(`-2^31 <= nx, ny` and `nx + 3, ny + 3 <= 2^31 - 1`) this is the condition on
the plain sums `nx+c`, `ny+r`, and occupied cells in rows above the board with
columns in `[0,10)` never cause a collision: when every occupied cell is such a
cell or lies on an empty cell of the board, the result is 0.  The result never
depends on what the board holds at negative rows. -/
theorem C6_collide_iff (g : Game) (nx ny nrot : Int) :
    (collide g nx ny nrot = 1 ↔
      ∃ r c : Nat, r < 4 ∧ c < 4 ∧ shape_at g.curShape nrot r c ≠ 0 ∧
        (wrapInt (nx + c) < 0 ∨ wrapInt (nx + c) ≥ 10 ∨ wrapInt (ny + r) ≥ 20 ∨
          (wrapInt (ny + r) ≥ 0 ∧
            g.board (wrapInt (ny + r)) (wrapInt (nx + c)) ≠ 0))) ∧
    (collide g nx ny nrot ≠ 1 → collide g nx ny nrot = 0) ∧
    (SumsFit nx → SumsFit ny →
      (collide g nx ny nrot = 1 ↔
        ∃ r c : Nat, r < 4 ∧ c < 4 ∧ shape_at g.curShape nrot r c ≠ 0 ∧
          (nx + c < 0 ∨ nx + c ≥ 10 ∨ ny + r ≥ 20 ∨
            (ny + r ≥ 0 ∧ g.board (ny + r) (nx + c) ≠ 0)))) ∧
    (SumsFit nx → SumsFit ny →
      (∀ r c : Nat, r < 4 → c < 4 → shape_at g.curShape nrot r c ≠ 0 →
        (0 ≤ nx + c ∧ nx + c < 10) ∧
          (ny + r < 0 ∨ (ny + r < 20 ∧ g.board (ny + r) (nx + c) = 0))) →
      collide g nx ny nrot = 0) ∧
    (∀ g2 : Game, g2.curShape = g.curShape →
      (∀ r c : Int, 0 ≤ r → g2.board r c = g.board r c) →
      collide g2 nx ny nrot = collide g nx ny nrot) := by
  refine ⟨collide_eq_one_iff g nx ny nrot, ?_, ?_, ?_, ?_⟩
  · intro h
    unfold collide at h ⊢
    by_cases hc : collideRows g.board g.curShape nx ny nrot SIZE 0 = true
    · rw [if_pos hc] at h
      exact absurd rfl h
    · rw [if_neg hc]
  · intro hx hy
    rw [collide_eq_one_iff, hits_iff_plain g.board g.curShape nx ny nrot hx hy]
  · intro hx hy h
    rw [collide_eq_zero_iff, hits_iff_plain g.board g.curShape nx ny nrot hx hy]
    rintro ⟨r, c, hr, hc, hs, hit⟩
    have := h r c hr hc hs
    omega
  · intro g2 hs hb
    have hiff : Hits g2.board g2.curShape nx ny nrot ↔ Hits g.board g.curShape nx ny nrot := by
      unfold Hits
      rw [hs]
      constructor
      · rintro ⟨r, c, hr, hc, hsh, h | h | h | h⟩
        · exact ⟨r, c, hr, hc, hsh, Or.inl h⟩
        · exact ⟨r, c, hr, hc, hsh, Or.inr (Or.inl h)⟩
        · exact ⟨r, c, hr, hc, hsh, Or.inr (Or.inr (Or.inl h))⟩
        · exact ⟨r, c, hr, hc, hsh, Or.inr (Or.inr (Or.inr ⟨h.1, by rw [← hb _ _ h.1]; exact h.2⟩))⟩
      · rintro ⟨r, c, hr, hc, hsh, h | h | h | h⟩
        · exact ⟨r, c, hr, hc, hsh, Or.inl h⟩
        · exact ⟨r, c, hr, hc, hsh, Or.inr (Or.inl h)⟩
        · exact ⟨r, c, hr, hc, hsh, Or.inr (Or.inr (Or.inl h))⟩
        · exact ⟨r, c, hr, hc, hsh, Or.inr (Or.inr (Or.inr ⟨h.1, by rw [hb _ _ h.1]; exact h.2⟩))⟩
    by_cases hh : Hits g.board g.curShape nx ny nrot
    · rw [(collide_eq_one_iff g nx ny nrot).2 hh, (collide_eq_one_iff g2 nx ny nrot).2 (hiff.2 hh)]
    · rw [(collide_eq_zero_iff g nx ny nrot).2 hh,
        (collide_eq_zero_iff g2 nx ny nrot).2 (fun h => hh (hiff.1 h))]

/-- C6 amended, at the I piece over the board with an S piece on the floor:
at `(5, 17)` its cell `(1, 0)` lies on the locked cell (18,5), so the result is
1; the sums of 5 and 17 fit. -/
theorem C6_collide_iff_witness :
    SumsFit 5 ∧ SumsFit 17 ∧ collide iOverS 5 17 0 = 1 ∧
    ∃ r c : Nat, r < 4 ∧ c < 4 ∧ shape_at iOverS.curShape 0 r c ≠ 0 ∧
      ((5 : Int) + c < 0 ∨ (5 : Int) + c ≥ 10 ∨ (17 : Int) + r ≥ 20 ∨
        ((17 : Int) + r ≥ 0 ∧ iOverS.board (17 + r) (5 + c) ≠ 0)) := by
  have hx : SumsFit 5 := by unfold SumsFit; decide
  have hy : SumsFit 17 := by unfold SumsFit; decide
  have hc : collide iOverS 5 17 0 = 1 := by decide
  exact ⟨hx, hy, hc, ((C6_collide_iff iOverS 5 17 0).2.2.1 hx hy).1 hc⟩

/-! ## Lemmas on the main loop -/

theorem collide_congr (g g' : Game) (hb : g'.board = g.board) (hs : g'.curShape = g.curShape)
    (nx ny nrot : Int) : collide g' nx ny nrot = collide g nx ny nrot := by
  unfold collide
  rw [hb, hs]

theorem spawn_piece_eq (rnd : Nat) (g : Game) :
    spawn_piece rnd g =
      if collide (spawnPose rnd g) 3 (-1) 0 ≠ 0 then { spawnPose rnd g with gameOver := 1 }
      else spawnPose rnd g := rfl

theorem spawn_piece_free (rnd : Nat) (g : Game) : PieceFree (spawn_piece rnd g) := by
  rw [spawn_piece_eq]
  unfold PieceFree
  by_cases hc : collide (spawnPose rnd g) 3 (-1) 0 ≠ 0
  · rw [if_pos hc]
    intro h
    have h1 : (1 : Int) = 0 := h
    exact absurd h1 (by decide)
  · rw [if_neg hc]
    intro _
    exact not_not.1 hc

theorem spawn_piece_fields (rnd : Nat) (g : Game) :
    (spawn_piece rnd g).board = g.board ∧ (spawn_piece rnd g).score = g.score ∧
      (spawn_piece rnd g).level = g.level ∧
      (spawn_piece rnd g).linesCleared = g.linesCleared ∧
      (spawn_piece rnd g).curShape = rnd % 7 := by
  rw [spawn_piece_eq]
  split <;> exact ⟨rfl, rfl, rfl, rfl, rfl⟩

theorem spawn_piece_pose (rnd : Nat) (g : Game) :
    (spawn_piece rnd g).curRot = 0 ∧ (spawn_piece rnd g).curPos = ⟨3, -1⟩ := by
  rw [spawn_piece_eq]
  split <;> exact ⟨rfl, rfl⟩

theorem clearLoop_cleared_le (fuel : Nat) (r : Int) (b : Board) (cleared : Int)
    (b' : Board) (cleared' : Int) (h : clearLoop fuel r b cleared = some (b', cleared')) :
    cleared ≤ cleared' := by
  induction fuel generalizing r b cleared with
  | zero => cases h
  | succ fuel ih =>
    unfold clearLoop at h
    split at h
    · split at h
      · have := ih _ _ _ h
        omega
      · exact ih _ _ _ h
    · cases h
      exact le_refl _

theorem tdiv_ten (a : Int) :
    Int.tdiv a 10 = if 0 ≤ a then a / 10 else -((-a) / 10) := by
  by_cases h : 0 ≤ a
  · rw [if_pos h, Int.tdiv_eq_ediv h (by decide)]
  · rw [if_neg h]
    have h1 : Int.tdiv (-(-a)) 10 = -(Int.tdiv (-a) 10) := Int.neg_tdiv (-a) 10
    rw [neg_neg] at h1
    rw [h1, Int.tdiv_eq_ediv (by omega) (by decide)]

theorem tdiv_ten_mono (a b : Int) (h : a ≤ b) : Int.tdiv a 10 ≤ Int.tdiv b 10 := by
  rw [tdiv_ten, tdiv_ten]
  split <;> split <;> omega

theorem tdiv_ten_fits (a : Int) (h : FitsInt a) :
    wrapInt (1 + Int.tdiv a 10) = 1 + Int.tdiv a 10 := by
  unfold FitsInt at h
  apply wrapInt_of_fits
  · rw [tdiv_ten]; split <;> omega
  · rw [tdiv_ten]; split <;> omega

theorem levelOk_added (g : Game) (h : LevelOk g) : LinesAdded 0 g g := by
  refine ⟨h, 0, le_refl _, ?_⟩
  rw [Nat.cast_zero, add_zero, wrapInt_of_fits _ h.2.1 h.2.2]

theorem linesAdded_le (m n : Nat) (hmn : m ≤ n) (g g2 : Game) (h : LinesAdded m g g2) :
    LinesAdded n g g2 := by
  obtain ⟨h1, k, hk, h2⟩ := h
  exact ⟨h1, k, le_trans hk hmn, h2⟩

theorem linesAdded_trans (m n : Nat) (g g1 g2 : Game) (h1 : LinesAdded m g g1)
    (h2 : LinesAdded n g1 g2) : LinesAdded (m + n) g g2 := by
  obtain ⟨_, k1, hk1, e1⟩ := h1
  obtain ⟨a2, k2, hk2, e2⟩ := h2
  refine ⟨a2, k1 + k2, by omega, ?_⟩
  rw [e2, e1, wrapInt_wrapInt_add, Nat.cast_add, add_assoc]

theorem applyCleared_levelOk (g : Game) (b : Board) (k : Nat) (hk : k ≤ 20)
    (h : LevelOk g) : LinesAdded 20 g (applyCleared g b k) := by
  by_cases h0 : k = 0
  · subst h0
    have e : applyCleared g b ((0 : Nat) : Int) = { g with board := b } := by
      unfold applyCleared
      rw [if_neg (by simp)]
    rw [e]
    exact linesAdded_le 0 20 (by omega) _ _ (levelOk_added g h)
  · refine ⟨⟨?_, ?_⟩, k, hk, ?_⟩
    · rw [applyCleared_level, applyCleared_lines, if_neg h0, if_neg h0]
      exact tdiv_ten_fits _ (wrapInt_mem _)
    · rw [applyCleared_lines, if_neg h0]
      exact wrapInt_mem _
    · rw [applyCleared_lines, if_neg h0]

theorem clear_lines_levelOk (fuel : Nat) (g g' : Game) (h : clear_lines fuel g = some g')
    (hl : LevelOk g) : LinesAdded 20 g g' := by
  obtain ⟨b', e, _⟩ := clear_lines_result fuel g g' h
  rw [e]
  exact applyCleared_levelOk g b' _ (fullRows_le _) hl

theorem lockSequence_free (fuel rnd : Nat) (g g' : Game) (h : lockSequence fuel rnd g = some g') :
    PieceFree g' := by
  unfold lockSequence at h
  split at h
  · cases h
  · cases h
    exact spawn_piece_free _ _

theorem lockSequence_levelOk (fuel rnd : Nat) (g g' : Game)
    (h : lockSequence fuel rnd g = some g') (hl : LevelOk g) : LinesAdded 20 g g' := by
  unfold lockSequence at h
  split at h
  · cases h
  · next g2 hc =>
    cases h
    have h2 := clear_lines_levelOk fuel (place_piece g) g2 hc hl
    obtain ⟨_, _, e3, e4, _⟩ := spawn_piece_fields rnd g2
    unfold LinesAdded LevelOk at h2 ⊢
    rw [e3, e4]
    exact h2

theorem hardDropLoop_shape (fuel : Nat) (g g' : Game) (h : hardDropLoop fuel g = some g') :
    ∃ n : Nat, g' = { g with curPos := ⟨g.curPos.x, g.curPos.y + n⟩ } := by
  induction fuel generalizing g with
  | zero => cases h
  | succ fuel ih =>
    unfold hardDropLoop at h
    split at h
    · obtain ⟨n, hn⟩ := ih _ h
      refine ⟨n + 1, ?_⟩
      rw [hn]
      show ({ g with curPos := ⟨g.curPos.x, g.curPos.y + 1 + n⟩ } : Game) = _
      have : g.curPos.y + 1 + (n : Int) = g.curPos.y + ((n + 1 : Nat) : Int) := by
        push_cast; omega
      rw [this]
    · cases h
      exact ⟨0, by simp⟩

theorem pieceFree_of_move (g g' : Game) (hb : g'.board = g.board) (hs : g'.curShape = g.curShape)
    (h : collide g g'.curPos.x g'.curPos.y g'.curRot = 0) : PieceFree g' := by
  intro _
  rw [collide_congr g g' hb hs]
  exact h

theorem handleKey_free (fuel : Nat) (inp : Input) (g : Game) (lt : Int) (g' : Game) (lt' : Int)
    (h : handleKey fuel inp g lt = some (g', lt')) (hg : PieceFree g) : PieceFree g' := by
  unfold handleKey at h
  split at h
  · split at h
    · next hc => cases h; exact pieceFree_of_move g _ rfl rfl hc
    · cases h; exact hg
  split at h
  · split at h
    · next hc => cases h; exact pieceFree_of_move g _ rfl rfl hc
    · cases h; exact hg
  split at h
  · split at h
    · next hc => cases h; exact pieceFree_of_move g _ rfl rfl hc
    · cases h; exact hg
  split at h
  · split at h
    · next hc => cases h; exact pieceFree_of_move g _ rfl rfl hc
    · split at h
      · cases h
      · next g1 hl => cases h; exact lockSequence_free _ _ _ _ hl
  split at h
  · split at h
    · cases h
    · split at h
      · cases h
      · next g2 hl => cases h; exact lockSequence_free _ _ _ _ hl
  · cases h; exact hg

theorem gravity_free (fuel : Nat) (inp : Input) (g : Game) (lt di : Int) (g' : Game) (lt' : Int)
    (h : gravity fuel inp g lt di = some (g', lt')) (hg : PieceFree g) : PieceFree g' := by
  unfold gravity at h
  split at h
  · split at h
    · next hc => cases h; exact pieceFree_of_move g _ rfl rfl hc
    · split at h
      · cases h
      · next g1 hl => cases h; exact lockSequence_free _ _ _ _ hl
  · cases h; exact hg

theorem mainBody_free (fuel : Nat) (inp : Input) (st st' : Loop)
    (h : mainBody fuel inp st = some st') (hg : PieceFree st.g) : PieceFree st'.g := by
  unfold mainBody at h
  split at h
  · cases h; exact hg
  · split at h
    · cases h
    · next g1 lt1 hk =>
      dsimp only at h
      split at h
      · cases h
      · next g2 lt2 hgr =>
        cases h
        exact gravity_free _ _ _ _ _ _ _ hgr (handleKey_free _ _ _ _ _ _ hk hg)

theorem reachable_free (st : Loop) (h : Reachable st) : PieceFree st.g := by
  induction h with
  | init rnd t0 => exact spawn_piece_free _ _
  | step fuel inp _ _ hstep ih => exact mainBody_free fuel inp _ _ hstep ih

theorem levelOk_refl (g : Game) (h : LevelOk g) : LinesAdded 20 g g :=
  linesAdded_le 0 20 (by omega) _ _ (levelOk_added g h)

theorem handleKey_levelOk (fuel : Nat) (inp : Input) (g : Game) (lt : Int) (g' : Game)
    (lt' : Int) (h : handleKey fuel inp g lt = some (g', lt')) (hg : LevelOk g) :
    LinesAdded 20 g g' := by
  unfold handleKey at h
  split at h
  · split at h <;> (cases h; exact levelOk_refl g hg)
  split at h
  · split at h <;> (cases h; exact levelOk_refl g hg)
  split at h
  · split at h <;> (cases h; exact levelOk_refl g hg)
  split at h
  · split at h
    · cases h; exact levelOk_refl g hg
    · split at h
      · cases h
      · next g1 hl => cases h; exact lockSequence_levelOk _ _ _ _ hl hg
  split at h
  · split at h
    · cases h
    · next g1 hd =>
      split at h
      · cases h
      · next g2 hl =>
        cases h
        obtain ⟨n, hn⟩ := hardDropLoop_shape _ _ _ hd
        have h1 : LevelOk g1 := by rw [hn]; exact hg
        have h2 := lockSequence_levelOk _ _ _ _ hl h1
        rw [hn] at h2
        exact h2
  · cases h; exact levelOk_refl g hg

theorem gravity_levelOk (fuel : Nat) (inp : Input) (g : Game) (lt di : Int) (g' : Game)
    (lt' : Int) (h : gravity fuel inp g lt di = some (g', lt')) (hg : LevelOk g) :
    LinesAdded 20 g g' := by
  unfold gravity at h
  split at h
  · split at h
    · cases h; exact levelOk_refl g hg
    · split at h
      · cases h
      · next g1 hl => cases h; exact lockSequence_levelOk _ _ _ _ hl hg
  · cases h; exact levelOk_refl g hg

theorem mainBody_levelOk (fuel : Nat) (inp : Input) (st st' : Loop)
    (h : mainBody fuel inp st = some st') (hg : LevelOk st.g) :
    LinesAdded 40 st.g st'.g := by
  unfold mainBody at h
  split at h
  · cases h; exact linesAdded_le 0 40 (by omega) _ _ (levelOk_added _ hg)
  · split at h
    · cases h
    · next g1 lt1 hk =>
      dsimp only at h
      split at h
      · cases h
      · next g2 lt2 hgr =>
        cases h
        have a := handleKey_levelOk _ _ _ _ _ _ hk hg
        have b := gravity_levelOk _ _ _ _ _ _ _ hgr a.1
        exact linesAdded_trans 20 20 _ _ _ a b

theorem init_game_levelOk (rnd : Nat) : LevelOk (init_game rnd) := by
  unfold init_game LevelOk
  obtain ⟨_, _, e3, e4, _⟩ := spawn_piece_fields rnd
    { board := fun _ _ => 0, curShape := 0, curRot := 0, curPos := ⟨0, 0⟩,
      score := 0, level := 1, linesCleared := 0, gameOver := 0 }
  rw [e3, e4]
  unfold FitsInt
  decide

theorem reachable_levelOk (st : Loop) (h : Reachable st) : LevelOk st.g := by
  induction h with
  | init rnd t0 => exact init_game_levelOk rnd
  | step fuel inp _ _ hstep ih => exact (mainBody_levelOk fuel inp _ _ hstep ih).1

/-- Without overflow of the counter, added lines raise neither counter nor
level below their old values. -/
theorem linesAdded_mono (m : Nat) (g g2 : Game) (hg : LevelOk g) (h : LinesAdded m g g2)
    (hfit : g.linesCleared + m ≤ 2147483647) :
    g.linesCleared ≤ g2.linesCleared ∧ g.level ≤ g2.level := by
  obtain ⟨⟨a1, _⟩, k, hk, e⟩ := h
  obtain ⟨b1, b2, _⟩ := hg
  have e2 : g2.linesCleared = g.linesCleared + k := by
    rw [e]
    exact wrapInt_of_fits _ (by omega) (by omega)
  refine ⟨by omega, ?_⟩
  rw [a1, b1]
  have := tdiv_ten_mono g.linesCleared g2.linesCleared (by omega)
  omega

theorem shape_at_emod (shape : Nat) (rot : Int) (r c : Nat) :
    shape_at shape rot r c = shape_at shape (rot % 4) r c := by
  unfold shape_at
  rw [land_three, land_three, Int.emod_emod_of_dvd rot (by decide : (4 : Int) ∣ 4)]

theorem emod_four_cases (rot : Int) :
    rot % 4 = 0 ∨ rot % 4 = 1 ∨ rot % 4 = 2 ∨ rot % 4 = 3 := by omega

theorem shape_has_cell_base :
    ∀ k : Nat, k < 4 → ∀ s : Nat, s < 7 →
      ∃ r : Nat, r < 4 ∧ ∃ c : Nat, c < 4 ∧ shape_at s (k : Int) r c ≠ 0 := by
  decide

/-- Every rotation of each of the seven shapes has an occupied cell. -/
theorem shape_has_cell (shape : Nat) (hs : shape < 7) (rot : Int) :
    ∃ r c : Nat, r < 4 ∧ c < 4 ∧ shape_at shape rot r c ≠ 0 := by
  have hk : ∃ k : Nat, k < 4 ∧ rot % 4 = (k : Int) := by
    refine ⟨(rot % 4).toNat, by omega, by omega⟩
  obtain ⟨k, hk4, hk⟩ := hk
  obtain ⟨r, hr, c, hc, h⟩ := shape_has_cell_base k hk4 shape hs
  refine ⟨r, c, hr, hc, ?_⟩
  rw [shape_at_emod, hk]
  exact h

/-! ## Lemmas on the hard drop -/

theorem moveDown_eq (g : Game) (n : Nat) :
    ({ moveDown g with curPos := ⟨(moveDown g).curPos.x, (moveDown g).curPos.y + n⟩ } : Game) =
      { g with curPos := ⟨g.curPos.x, g.curPos.y + ((n + 1 : Nat) : Int)⟩ } := by
  have : g.curPos.y + 1 + (n : Int) = g.curPos.y + ((n + 1 : Nat) : Int) := by
    push_cast; omega
  show ({ g with curPos := ⟨g.curPos.x, g.curPos.y + 1 + n⟩ } : Game) = _
  rw [this]

/-- The hard-drop loop runs `n` times when the `n` poses below the start are
free and the next one is not; `n + 1` units of fuel are enough. -/
theorem hardDropLoop_run (n fuel : Nat) (g : Game) (hf : n + 1 ≤ fuel)
    (hfree : ∀ j : Nat, j < n → collide g g.curPos.x (g.curPos.y + 1 + j) g.curRot = 0)
    (hstop : collide g g.curPos.x (g.curPos.y + 1 + n) g.curRot ≠ 0) :
    hardDropLoop fuel g = some { g with curPos := ⟨g.curPos.x, g.curPos.y + n⟩ } := by
  induction n generalizing fuel g with
  | zero =>
    obtain ⟨fuel, rfl⟩ : ∃ k, fuel = k + 1 := ⟨fuel - 1, by omega⟩
    unfold hardDropLoop
    have hstop' : collide g g.curPos.x (g.curPos.y + 1) g.curRot ≠ 0 := by
      simpa using hstop
    rw [if_neg hstop']
    simp
  | succ n ih =>
    obtain ⟨fuel, rfl⟩ : ∃ k, fuel = k + 1 := ⟨fuel - 1, by omega⟩
    unfold hardDropLoop
    have h0 : collide g g.curPos.x (g.curPos.y + 1) g.curRot = 0 := by
      simpa using hfree 0 (Nat.succ_pos n)
    rw [if_pos h0, ih fuel (moveDown g) (by omega), moveDown_eq]
    · intro j hj
      have := hfree (j + 1) (by omega)
      have e : g.curPos.y + 1 + ((j + 1 : Nat) : Int) = g.curPos.y + 1 + 1 + (j : Int) := by
        push_cast; omega
      rw [e] at this
      exact this
    · have e : g.curPos.y + 1 + ((n + 1 : Nat) : Int) = g.curPos.y + 1 + 1 + (n : Int) := by
        push_cast; omega
      rw [e] at hstop
      exact hstop

/-- A pose low enough that an occupied cell is at row 20 or below collides. -/
theorem collide_of_low (g : Game) (nx ny nrot : Int) (r c : Nat) (hr : r < 4) (hc : c < 4)
    (hcell : shape_at g.curShape nrot r c ≠ 0) (hlow : wrapInt (ny + r) ≥ 20) :
    collide g nx ny nrot ≠ 0 :=
  (collide_ne_zero_iff g nx ny nrot).2 ⟨r, c, hr, hc, hcell, Or.inr (Or.inr (Or.inl hlow))⟩

/-- The number of steps of the hard drop: the first `n` for which the pose
`n + 1` rows below the start collides.  It exists for each of the seven
shapes, whatever the board, rotation and start: the row of an occupied cell,
as `collide` computes it, is 20 after at most `2^32` steps. -/
theorem hardDrop_steps (g : Game) (hs : g.curShape < 7) :
    ∃ n : Nat, collide g g.curPos.x (g.curPos.y + 1 + n) g.curRot ≠ 0 ∧
      ∀ j : Nat, j < n → collide g g.curPos.x (g.curPos.y + 1 + j) g.curRot = 0 := by
  obtain ⟨r, c, hr, hc, hcell⟩ := shape_has_cell g.curShape hs g.curRot
  have hex : ∃ n : Nat, collide g g.curPos.x (g.curPos.y + 1 + n) g.curRot ≠ 0 := by
    refine ⟨((20 - (g.curPos.y + 1 + r)) % 4294967296).toNat, ?_⟩
    apply collide_of_low g _ _ _ r c hr hc hcell
    have hm : 0 ≤ (20 - (g.curPos.y + 1 + r)) % 4294967296 :=
      Int.emod_nonneg _ (by decide)
    rw [Int.toNat_of_nonneg hm]
    have e : g.curPos.y + 1 + (20 - (g.curPos.y + 1 + r)) % 4294967296 + r =
        20 + 4294967296 * (-((20 - (g.curPos.y + 1 + r)) / 4294967296)) := by
      have := Int.emod_add_ediv (20 - (g.curPos.y + 1 + r)) 4294967296
      omega
    rw [e, wrapInt_add_period]
    decide
  refine ⟨Nat.find hex, Nat.find_spec hex, ?_⟩
  intro j hj
  exact not_not.1 (Nat.find_min hex hj)

theorem startLoop_step_left : mainBody 1 (keyAt0 KEY_LEFT) startLoop = some leftLoop := rfl

theorem leftLoop_reachable : Reachable leftLoop :=
  Reachable.step 1 (keyAt0 KEY_LEFT) (Reachable.init 0 0) (by decide) startLoop_step_left

/-! ## Moves and rotation: the checked claims -/

theorem mainBody_running (fuel : Nat) (inp : Input) (st : Loop) (hgo : st.g.gameOver = 0) :
    mainBody fuel inp st =
      match handleKey fuel inp st.g st.last_tick with
      | none => none
      | some (g1, lt1) =>
        match gravity fuel inp g1 lt1 (dropInterval g1.level) with
        | none => none
        | some (g2, lt2) =>
          some { g := g2, last_tick := lt2, drop_interval := dropInterval g1.level } := by
  unfold mainBody
  rw [if_neg (by rw [hgo]; decide)]

theorem gravity_not_due (fuel : Nat) (inp : Input) (g : Game) (lt di : Int)
    (h : inp.now - lt < di) : gravity fuel inp g lt di = some (g, lt) := by
  unfold gravity
  rw [if_neg (by omega)]

theorem init_game_running (rnd : Nat) : (init_game rnd).gameOver = 0 := by
  unfold init_game
  rw [spawn_piece_eq]
  have hfree : collide (spawnPose rnd
      { board := fun _ _ => 0, curShape := 0, curRot := 0, curPos := ⟨0, 0⟩,
        score := 0, level := 1, linesCleared := 0, gameOver := 0 }) 3 (-1) 0 = 0 := by
    rw [collide_eq_zero_iff, hits_iff_plain _ _ _ _ _ (by unfold SumsFit; decide)
      (by unfold SumsFit; decide)]
    rintro ⟨r, c, hr, hc, _, h | h | h | h⟩
    · omega
    · omega
    · omega
    · exact h.2 rfl
  rw [if_neg (by rw [hfree]; decide)]
  rfl

/-- A pose next to the range of `PosOk` that does not collide is within it. -/
theorem free_bounds (g : Game) (nx ny nrot : Int) (hs : g.curShape < 7)
    (hx1 : -4 ≤ nx) (hx2 : nx ≤ 10) (hy1 : -1 ≤ ny) (hy2 : ny ≤ 20)
    (hc : collide g nx ny nrot = 0) : -3 ≤ nx ∧ nx ≤ 9 ∧ ny ≤ 19 := by
  obtain ⟨r, c, hr, hcc, hcell⟩ := shape_has_cell g.curShape hs nrot
  have hn := (collide_eq_zero_iff g nx ny nrot).1 hc
  have hx : SumsFit nx := ⟨by omega, by omega⟩
  have hy : SumsFit ny := ⟨by omega, by omega⟩
  rw [hits_iff_plain _ _ _ _ _ hx hy] at hn
  refine ⟨?_, ?_, ?_⟩
  · by_contra h
    exact hn ⟨r, c, hr, hcc, hcell, Or.inl (by omega)⟩
  · by_contra h
    exact hn ⟨r, c, hr, hcc, hcell, Or.inr (Or.inl (by omega))⟩
  · by_contra h
    exact hn ⟨r, c, hr, hcc, hcell, Or.inr (Or.inr (Or.inl (by omega)))⟩

theorem posOk_left (g : Game) (h : PosOk g)
    (hc : collide g (g.curPos.x - 1) g.curPos.y g.curRot = 0) : PosOk (moveX g (-1)) := by
  obtain ⟨h0, h1, h2, h3, h4⟩ := h
  have hb := free_bounds g _ _ _ h0 (by omega) (by omega) h3 (by omega) hc
  exact ⟨h0, by show -3 ≤ g.curPos.x + -1; omega, by show g.curPos.x + -1 ≤ 9; omega, h3, h4⟩

theorem posOk_right (g : Game) (h : PosOk g)
    (hc : collide g (g.curPos.x + 1) g.curPos.y g.curRot = 0) : PosOk (moveX g 1) := by
  obtain ⟨h0, h1, h2, h3, h4⟩ := h
  have hb := free_bounds g _ _ _ h0 (by omega) (by omega) h3 (by omega) hc
  exact ⟨h0, by show -3 ≤ g.curPos.x + 1; omega, by show g.curPos.x + 1 ≤ 9; omega, h3, h4⟩

theorem posOk_down (g : Game) (h : PosOk g)
    (hc : collide g g.curPos.x (g.curPos.y + 1) g.curRot = 0) : PosOk (moveDown g) := by
  obtain ⟨h0, h1, h2, h3, h4⟩ := h
  have hb := free_bounds g _ _ _ h0 (by omega) (by omega) (by omega) (by omega) hc
  exact ⟨h0, h1, h2, by show -1 ≤ g.curPos.y + 1; omega, by show g.curPos.y + 1 ≤ 19; omega⟩

theorem hardDropLoop_posOk (fuel : Nat) (g g' : Game) (h : hardDropLoop fuel g = some g')
    (hg : PosOk g) : PosOk g' := by
  induction fuel generalizing g with
  | zero => cases h
  | succ fuel ih =>
    unfold hardDropLoop at h
    split at h
    · next hc => exact ih _ h (posOk_down g hg hc)
    · cases h; exact hg

theorem lockSequence_posOk (fuel rnd : Nat) (g g' : Game)
    (h : lockSequence fuel rnd g = some g') : PosOk g' := by
  unfold lockSequence at h
  split at h
  · cases h
  · cases h
    unfold PosOk
    rw [(spawn_piece_pose _ _).2, (spawn_piece_fields _ _).2.2.2.2]
    exact ⟨Nat.mod_lt _ (by decide), by decide, by decide, by decide, by decide⟩

theorem handleKey_posOk (fuel : Nat) (inp : Input) (g : Game) (lt : Int) (g' : Game)
    (lt' : Int) (h : handleKey fuel inp g lt = some (g', lt')) (hg : PosOk g) : PosOk g' := by
  unfold handleKey at h
  split at h
  · split at h
    · next hc => cases h; exact posOk_left g hg hc
    · cases h; exact hg
  split at h
  · split at h
    · next hc => cases h; exact posOk_right g hg hc
    · cases h; exact hg
  split at h
  · split at h
    · cases h; exact hg
    · cases h; exact hg
  split at h
  · split at h
    · next hc => cases h; exact posOk_down g hg hc
    · split at h
      · cases h
      · next g1 hl => cases h; exact lockSequence_posOk _ _ _ _ hl
  split at h
  · split at h
    · cases h
    · split at h
      · cases h
      · next g2 hl => cases h; exact lockSequence_posOk _ _ _ _ hl
  · cases h; exact hg

theorem gravity_posOk (fuel : Nat) (inp : Input) (g : Game) (lt di : Int) (g' : Game)
    (lt' : Int) (h : gravity fuel inp g lt di = some (g', lt')) (hg : PosOk g) : PosOk g' := by
  unfold gravity at h
  split at h
  · split at h
    · next hc => cases h; exact posOk_down g hg hc
    · split at h
      · cases h
      · next g1 hl => cases h; exact lockSequence_posOk _ _ _ _ hl
  · cases h; exact hg

theorem mainBody_posOk (fuel : Nat) (inp : Input) (st st' : Loop)
    (h : mainBody fuel inp st = some st') (hg : PosOk st.g) : PosOk st'.g := by
  unfold mainBody at h
  split at h
  · cases h; exact hg
  · split at h
    · cases h
    · next g1 lt1 hk =>
      dsimp only at h
      split at h
      · cases h
      · next g2 lt2 hgr =>
        cases h
        exact gravity_posOk _ _ _ _ _ _ _ hgr (handleKey_posOk _ _ _ _ _ _ hk hg)

/-- In every reachable state the position of the active piece is in the range
`-3 <= x <= 9`, `-1 <= y <= 19`: no sum of `collide` at the pose overflows. -/
theorem reachable_posOk (st : Loop) (h : Reachable st) : PosOk st.g := by
  induction h with
  | init rnd t0 =>
    show PosOk (init_game rnd)
    unfold init_game PosOk
    rw [(spawn_piece_pose _ _).2, (spawn_piece_fields _ _).2.2.2.2]
    exact ⟨Nat.mod_lt _ (by decide), by decide, by decide, by decide, by decide⟩
  | step fuel inp _ _ hstep ih => exact mainBody_posOk fuel inp _ _ hstep ih

/-- C8: in every state reachable from `init_game` by iterations of the main
loop (any keys, clock values and random shapes), if `gameOver` is 0 the active
piece does not collide at its pose: each occupied cell of `(curShape, curRot)`
at `curPos` has its column in `[0,10)` and its row below 20, and lies on an
empty board cell when its row is not negative.  Right after `init_game`,
`gameOver` is 0 whatever shape was drawn. -/
theorem C8_active_piece_free (st : Loop) (h : Reachable st) (hgo : st.g.gameOver = 0) :
    collide st.g st.g.curPos.x st.g.curPos.y st.g.curRot = 0 ∧
    (∀ r c : Nat, r < 4 → c < 4 → shape_at st.g.curShape st.g.curRot r c ≠ 0 →
      0 ≤ st.g.curPos.x + c ∧ st.g.curPos.x + c < 10 ∧ st.g.curPos.y + r < 20 ∧
      (0 ≤ st.g.curPos.y + r → st.g.board (st.g.curPos.y + r) (st.g.curPos.x + c) = 0)) ∧
    (∀ rnd : Nat, (init_game rnd).gameOver = 0) := by
  have hfree := reachable_free st h hgo
  refine ⟨hfree, ?_, init_game_running⟩
  intro r c hr hc hcell
  obtain ⟨_, p1, p2, p3, p4⟩ := reachable_posOk st h
  have hn := (collide_eq_zero_iff st.g _ _ _).1 hfree
  rw [hits_iff_plain _ _ _ _ _ ⟨by omega, by omega⟩ ⟨by omega, by omega⟩] at hn
  refine ⟨?_, ?_, ?_, ?_⟩
  · by_contra hx
    exact hn ⟨r, c, hr, hc, hcell, Or.inl (by omega)⟩
  · by_contra hx
    exact hn ⟨r, c, hr, hc, hcell, Or.inr (Or.inl (by omega))⟩
  · by_contra hx
    exact hn ⟨r, c, hr, hc, hcell, Or.inr (Or.inr (Or.inl (by omega)))⟩
  · intro h0
    by_contra hx
    exact hn ⟨r, c, hr, hc, hcell, Or.inr (Or.inr (Or.inr ⟨h0, hx⟩))⟩

/-- C8, at the state reached from the start by one Left key. -/
theorem C8_active_piece_free_witness :
    Reachable leftLoop ∧ leftLoop.g.gameOver = 0 ∧
      collide leftLoop.g leftLoop.g.curPos.x leftLoop.g.curPos.y leftLoop.g.curRot = 0 :=
  ⟨leftLoop_reachable, by decide,
    (C8_active_piece_free leftLoop leftLoop_reachable (by decide)).1⟩

/-! ## The hard drop: the checked claims -/

theorem lockSequence_total (fuel rnd : Nat) (g : Game) (hf : 41 ≤ fuel) :
    ∃ g', lockSequence fuel rnd g = some g' ∧ g'.curShape < 7 := by
  obtain ⟨b', hc, _, _⟩ := clear_lines_full (place_piece g) fuel hf
  refine ⟨_, by unfold lockSequence; rw [hc], ?_⟩
  rw [(spawn_piece_fields rnd _).2.2.2.2]
  exact Nat.mod_lt _ (by decide)

/-- With enough fuel the key handling returns, whatever the key, and the shape
it leaves is one of the seven. -/
theorem handleKey_total (inp : Input) (g : Game) (lt : Int) (hs : g.curShape < 7) :
    ∃ N : Nat, ∀ fuel : Nat, N ≤ fuel →
      ∃ g' lt', handleKey fuel inp g lt = some (g', lt') ∧ g'.curShape < 7 := by
  obtain ⟨n, hstop, hfree⟩ := hardDrop_steps g hs
  refine ⟨n + 41, ?_⟩
  intro fuel hf
  unfold handleKey
  split
  · split
    · exact ⟨_, _, rfl, hs⟩
    · exact ⟨_, _, rfl, hs⟩
  split
  · split
    · exact ⟨_, _, rfl, hs⟩
    · exact ⟨_, _, rfl, hs⟩
  split
  · split
    · exact ⟨_, _, rfl, hs⟩
    · exact ⟨_, _, rfl, hs⟩
  split
  · split
    · exact ⟨_, _, rfl, hs⟩
    · obtain ⟨g', hl, hs'⟩ := lockSequence_total fuel inp.rnd_cmd g (by omega)
      rw [hl]
      exact ⟨_, _, rfl, hs'⟩
  split
  · rw [hardDropLoop_run n fuel g (by omega) hfree hstop]
    dsimp only
    obtain ⟨g', hl, hs'⟩ := lockSequence_total fuel inp.rnd_cmd
      { g with curPos := ⟨g.curPos.x, g.curPos.y + n⟩ } (by omega)
    rw [hl]
    exact ⟨_, _, rfl, hs'⟩
  · exact ⟨_, _, rfl, hs⟩

theorem gravity_total (fuel : Nat) (inp : Input) (g : Game) (lt di : Int) (hf : 41 ≤ fuel)
    (hs : g.curShape < 7) :
    ∃ g' lt', gravity fuel inp g lt di = some (g', lt') ∧ g'.curShape < 7 := by
  unfold gravity
  split
  · split
    · exact ⟨_, _, rfl, hs⟩
    · obtain ⟨g', hl, hs'⟩ := lockSequence_total fuel inp.rnd_grav g hf
      rw [hl]
      exact ⟨_, _, rfl, hs'⟩
  · exact ⟨_, _, rfl, hs⟩

/-- From a state whose shape is one of the seven, an iteration of the main
loop returns for every input once the fuel is large enough. -/
theorem mainBody_total (inp : Input) (st : Loop) (hs : st.g.curShape < 7) :
    ∃ N : Nat, ∀ fuel : Nat, N ≤ fuel →
      ∃ st', mainBody fuel inp st = some st' ∧ st'.g.curShape < 7 := by
  obtain ⟨N, hN⟩ := handleKey_total inp st.g st.last_tick hs
  refine ⟨N + 41, ?_⟩
  intro fuel hf
  unfold mainBody
  split
  · exact ⟨_, rfl, hs⟩
  · obtain ⟨g1, lt1, hk, hs1⟩ := hN fuel (by omega)
    rw [hk]
    dsimp only
    obtain ⟨g2, lt2, hg, hs2⟩ := gravity_total fuel inp g1 lt1 (dropInterval g1.level)
      (by omega) hs1
    rw [hg]
    exact ⟨_, rfl, hs2⟩

theorem lockSequence_shape (fuel rnd : Nat) (g g' : Game)
    (h : lockSequence fuel rnd g = some g') : g'.curShape < 7 := by
  unfold lockSequence at h
  split at h
  · cases h
  · cases h
    rw [(spawn_piece_fields _ _).2.2.2.2]
    exact Nat.mod_lt _ (by decide)

theorem handleKey_shape (fuel : Nat) (inp : Input) (g : Game) (lt : Int) (g' : Game)
    (lt' : Int) (h : handleKey fuel inp g lt = some (g', lt')) (hs : g.curShape < 7) :
    g'.curShape < 7 := by
  unfold handleKey at h
  split at h
  · split at h <;> (cases h; exact hs)
  split at h
  · split at h <;> (cases h; exact hs)
  split at h
  · split at h <;> (cases h; exact hs)
  split at h
  · split at h
    · cases h; exact hs
    · split at h
      · cases h
      · next g1 hl => cases h; exact lockSequence_shape _ _ _ _ hl
  split at h
  · split at h
    · cases h
    · split at h
      · cases h
      · next g2 hl => cases h; exact lockSequence_shape _ _ _ _ hl
  · cases h; exact hs

theorem gravity_shape (fuel : Nat) (inp : Input) (g : Game) (lt di : Int) (g' : Game)
    (lt' : Int) (h : gravity fuel inp g lt di = some (g', lt')) (hs : g.curShape < 7) :
    g'.curShape < 7 := by
  unfold gravity at h
  split at h
  · split at h
    · cases h; exact hs
    · split at h
      · cases h
      · next g1 hl => cases h; exact lockSequence_shape _ _ _ _ hl
  · cases h; exact hs

theorem mainBody_shape (fuel : Nat) (inp : Input) (st st' : Loop)
    (h : mainBody fuel inp st = some st') (hs : st.g.curShape < 7) : st'.g.curShape < 7 := by
  unfold mainBody at h
  split at h
  · cases h; exact hs
  · split at h
    · cases h
    · next g1 lt1 hk =>
      dsimp only at h
      split at h
      · cases h
      · next g2 lt2 hgr =>
        cases h
        exact gravity_shape _ _ _ _ _ _ _ hgr (handleKey_shape _ _ _ _ _ _ hk hs)

/-- In every reachable state the current shape is one of the seven, so the
next iteration returns for every input. -/
theorem reachable_shape (st : Loop) (h : Reachable st) : st.g.curShape < 7 := by
  induction h with
  | init rnd t0 =>
    show (init_game rnd).curShape < 7
    unfold init_game
    rw [(spawn_piece_fields _ _).2.2.2.2]
    exact Nat.mod_lt _ (by decide)
  | step fuel inp _ _ hstep ih => exact mainBody_shape fuel inp _ _ hstep ih

/-! ## Game over: the checked claim -/

theorem mainBody_over (fuel : Nat) (inp : Input) (st : Loop) (hgo : st.g.gameOver ≠ 0) :
    mainBody fuel inp st = some st := by
  unfold mainBody
  rw [if_pos hgo]

theorem runIters_over (fuel : Nat) (inps : List Input) (st : Loop) (hgo : st.g.gameOver ≠ 0) :
    runIters fuel inps st = some st := by
  induction inps with
  | nil => rfl
  | cons inp rest ih =>
    unfold runIters
    rw [mainBody_over fuel inp st hgo]
    exact ih

/-- C11: `spawn_piece` draws the shape `rand() % 7`, puts it at rotation 0 and
position `(3, -1)`, and sets `gameOver` to 1 when that pose collides with the
board; otherwise it leaves `gameOver` as it was.  Once `gameOver` is nonzero at
the head of the main loop, an iteration (any key that is not quit, any clock
values, any fuel) returns the state it was given, so the board, the score, the
level, `linesCleared`, the active piece and `gameOver` stay as they are, also
over any number of iterations. -/
theorem C11_game_over (rnd : Nat) (g : Game) (fuel : Nat) (inp : Input) (inps : List Input)
    (st : Loop) (hgo : st.g.gameOver ≠ 0) :
    ((spawn_piece rnd g).curShape = rnd % 7 ∧ (spawn_piece rnd g).curRot = 0 ∧
      (spawn_piece rnd g).curPos = ⟨3, -1⟩ ∧ (spawn_piece rnd g).board = g.board) ∧
    (collide (spawnPose rnd g) 3 (-1) 0 ≠ 0 → (spawn_piece rnd g).gameOver = 1) ∧
    (collide (spawnPose rnd g) 3 (-1) 0 = 0 → (spawn_piece rnd g).gameOver = g.gameOver) ∧
    mainBody fuel inp st = some st ∧
    runIters fuel inps st = some st := by
  refine ⟨?_, ?_, ?_, mainBody_over fuel inp st hgo, runIters_over fuel inps st hgo⟩
  · rw [spawn_piece_eq]
    split <;> exact ⟨rfl, rfl, rfl, rfl⟩
  · intro hc
    rw [spawn_piece_eq, if_pos hc]
  · intro hc
    rw [spawn_piece_eq, if_neg (by rw [hc]; decide)]
    rfl

/-- C11, at the spawn of an I piece on a board whose top row is full: the
spawn sets `gameOver`, and a Left key then changes nothing. -/
theorem C11_game_over_witness :
    overLoop.g.gameOver ≠ 0 ∧
    collide (spawnPose 0 (gameOn topFull 1)) 3 (-1) 0 ≠ 0 ∧
    (spawn_piece 0 (gameOn topFull 1)).gameOver = 1 ∧
    mainBody 0 (keyAt0 KEY_LEFT) overLoop = some overLoop ∧
    runIters 0 [keyAt0 KEY_LEFT, keyAt0 KEY_SPACE] overLoop = some overLoop := by
  have hgo : overLoop.g.gameOver ≠ 0 := by decide
  have hc : collide (spawnPose 0 (gameOn topFull 1)) 3 (-1) 0 ≠ 0 := by decide
  obtain ⟨_, h1, _, h3, h4⟩ := C11_game_over 0 (gameOn topFull 1) 0 (keyAt0 KEY_LEFT)
    [keyAt0 KEY_LEFT, keyAt0 KEY_SPACE] overLoop hgo
  exact ⟨hgo, hc, h1 hc, h3, h4⟩

/-! ## Lemmas on the gravity interval -/

/-- Up to level 26843559 the `int` computation `1000 - (level - 1) * 80` gives
the value of the formula: from level 26843547 on the product and the difference
both wrap, to a value below 100. -/
theorem dropInterval_raw (level : Int) (h1 : 1 ≤ level) (h2 : level ≤ 26843559) :
    wrapInt (1000 - wrapInt (wrapInt (level - 1) * 80)) = 1000 - (level - 1) * 80 := by
  rw [wrapInt_of_fits (level - 1) (by omega) (by omega)]
  by_cases h : level ≤ 26843546
  · rw [wrapInt_of_fits ((level - 1) * 80) (by omega) (by omega),
      wrapInt_of_fits _ (by omega) (by omega)]
  · have e : wrapInt ((level - 1) * 80) = (level - 1) * 80 - 4294967296 := by
      unfold wrapInt
      omega
    rw [e]
    unfold wrapInt
    omega

theorem dropInterval_eq (level : Int) (h1 : 1 ≤ level) (h2 : level ≤ 26843559) :
    dropInterval level = max 100 (1000 - (level - 1) * 80) := by
  unfold dropInterval
  dsimp only
  rw [dropInterval_raw level h1 h2]
  split
  · rw [max_eq_left (by omega)]
  · rw [max_eq_right (by omega)]

theorem dropInterval_ge (level : Int) : 100 ≤ dropInterval level := by
  unfold dropInterval
  dsimp only
  split
  · exact le_refl _
  · omega

theorem dropInterval_anti (l1 l2 : Int) (h1 : 1 ≤ l1) (h : l1 ≤ l2) (h2 : l2 ≤ 26843559) :
    dropInterval l2 ≤ dropInterval l1 := by
  rw [dropInterval_eq l1 h1 (by omega), dropInterval_eq l2 (by omega) h2]
  exact max_le_max (le_refl _) (by omega)

/-! ## Rotation: the checked claim -/

/-- The four cases of `shape_at`, selected by the remainder of `rot` modulo 4. -/
theorem shape_at_cases (shape : Nat) (rot : Int) (r c : Nat) :
    (rot % 4 = 0 → shape_at shape rot r c = tetrominoAt shape r c) ∧
    (rot % 4 = 1 → shape_at shape rot r c = tetrominoAt shape (3 - c) r) ∧
    (rot % 4 = 2 → shape_at shape rot r c = tetrominoAt shape (3 - r) (3 - c)) ∧
    (rot % 4 = 3 → shape_at shape rot r c = tetrominoAt shape c (3 - r)) := by
  unfold shape_at
  rw [land_three]
  refine ⟨?_, ?_, ?_, ?_⟩ <;> intro h <;> rw [h] <;> rfl

/-- One more quarter turn reads the grid of the previous rotation at
`(3 - c, r)`. -/
theorem shape_at_succ (shape : Nat) (rot : Int) (r c : Nat) (hc : c < 4) :
    shape_at shape (rot + 1) r c = shape_at shape rot (3 - c) r := by
  obtain ⟨a0, a1, a2, a3⟩ := shape_at_cases shape (rot + 1) r c
  obtain ⟨b0, b1, b2, b3⟩ := shape_at_cases shape rot (3 - c) r
  rcases emod_four_cases rot with h | h | h | h
  · rw [a1 (by omega), b0 h]
  · rw [a2 (by omega), b1 h]
  · rw [a3 (by omega), b2 h, show 3 - (3 - c) = c by omega]
  · rw [a0 (by omega), b3 h, show 3 - (3 - c) = c by omega]

/-- C14: rotation in `shape_at` is generated by one quarter turn and has order
4.  For every shape, every integer `rot` (negative ones included, reduced by
`rot & 3`) and all `r`, `c` in `[0,4)`,
`shape_at(shape, rot + 1, r, c) == shape_at(shape, rot, 3 - c, r)`, and four
turns give back the grid: `shape_at(shape, rot + 4, r, c) ==
shape_at(shape, rot, r, c)`; the cell `(3 - c, r)` read on the right is again
a cell of the 4x4 grid.  Two turns do not give back the grid: the T piece
differs at cell (0,1), so the order is 4 and not less. -/
theorem C14_rotation_cyclic (shape : Nat) (rot : Int) (r c : Nat) (hr : r < 4) (hc : c < 4) :
    shape_at shape (rot + 1) r c = shape_at shape rot (3 - c) r ∧
    (3 - c < 4 ∧ r < 4) ∧
    shape_at shape (rot + 4) r c = shape_at shape rot r c ∧
    shape_at 2 (0 + 2) 0 1 ≠ shape_at 2 0 0 1 := by
  refine ⟨shape_at_succ shape rot r c hc, ⟨by omega, hr⟩, ?_, by decide⟩
  rw [shape_at_emod shape (rot + 4), shape_at_emod shape rot]
  rw [show (rot + 4) % 4 = rot % 4 by omega]

/-- C14, at the T piece with the negative rotation index -1 and the cell (0,1). -/
theorem C14_rotation_cyclic_witness :
    0 < 4 ∧ 1 < 4 ∧
    shape_at 2 (-1 + 1) 0 1 = shape_at 2 (-1) (3 - 1) 0 ∧
    (3 - 1 < 4 ∧ 0 < 4) ∧
    shape_at 2 (-1 + 4) 0 1 = shape_at 2 (-1) 0 1 ∧
    shape_at 2 (0 + 2) 0 1 ≠ shape_at 2 0 0 1 :=
  ⟨by decide, by decide, C14_rotation_cyclic 2 (-1) 0 1 (by decide) (by decide)⟩

/-! ## `place_piece`: the checked claim -/

theorem placeCell_apply (shape : Nat) (rot x y : Int) (b : Board) (r c : Nat) (r' c' : Int) :
    (WritesAt shape rot x y r c r' c' →
      placeCell shape rot x y b r c r' c' = (shape : Int) + 1) ∧
    (¬ WritesAt shape rot x y r c r' c' → placeCell shape rot x y b r c r' c' = b r' c') := by
  unfold WritesAt placeCell
  by_cases hs : shape_at shape rot r c ≠ 0
  · rw [if_pos hs]
    by_cases hin : y + (r : Int) ≥ 0 ∧ y + (r : Int) < BOARD_H ∧ x + (c : Int) ≥ 0 ∧
        x + (c : Int) < BOARD_W
    · rw [if_pos hin]
      unfold setCell
      constructor
      · rintro ⟨_, h1, h2, _⟩
        rw [if_pos ⟨h1, h2⟩]
      · intro hn
        rw [if_neg]
        rintro ⟨h1, h2⟩
        simp only [BOARD_H, BOARD_W] at hin
        exact hn ⟨hs, h1, h2, by omega, by omega, by omega, by omega⟩
    · rw [if_neg hin]
      constructor
      · rintro ⟨_, h1, h2, h3, h4, h5, h6⟩
        exfalso
        apply hin
        simp only [BOARD_H, BOARD_W]
        omega
      · intro _; rfl
  · rw [if_neg hs]
    exact ⟨fun h => absurd h.1 hs, fun _ => rfl⟩

theorem placeCols_written (shape : Nat) (rot x y : Int) (r : Nat) (n c0 : Nat) (b : Board)
    (r' c' : Int)
    (h : b r' c' = (shape : Int) + 1 ∨
      ∃ c, c0 ≤ c ∧ c < c0 + n ∧ WritesAt shape rot x y r c r' c') :
    placeCols shape rot x y r n c0 b r' c' = (shape : Int) + 1 := by
  induction n generalizing c0 b with
  | zero =>
    rcases h with h | ⟨c, h1, h2, _⟩
    · exact h
    · omega
  | succ n ih =>
    unfold placeCols
    apply ih
    obtain ⟨hw, hnw⟩ := placeCell_apply shape rot x y b r c0 r' c'
    by_cases hc0 : WritesAt shape rot x y r c0 r' c'
    · exact Or.inl (hw hc0)
    · rcases h with h | ⟨c, h1, h2, h3⟩
      · exact Or.inl (by rw [hnw hc0]; exact h)
      · have : c ≠ c0 := by
          intro e; subst e; exact hc0 h3
        exact Or.inr ⟨c, by omega, by omega, h3⟩

theorem placeCols_kept (shape : Nat) (rot x y : Int) (r : Nat) (n c0 : Nat) (b : Board)
    (r' c' : Int) (h : ∀ c, c0 ≤ c → c < c0 + n → ¬ WritesAt shape rot x y r c r' c') :
    placeCols shape rot x y r n c0 b r' c' = b r' c' := by
  induction n generalizing c0 b with
  | zero => rfl
  | succ n ih =>
    unfold placeCols
    rw [ih (c0 + 1) _ (fun c h1 h2 => h c (by omega) (by omega)),
      (placeCell_apply shape rot x y b r c0 r' c').2 (h c0 (le_refl _) (by omega))]

theorem placeRows_written (shape : Nat) (rot x y : Int) (n r0 : Nat) (b : Board) (r' c' : Int)
    (h : b r' c' = (shape : Int) + 1 ∨
      ∃ r c, r0 ≤ r ∧ r < r0 + n ∧ c < 4 ∧ WritesAt shape rot x y r c r' c') :
    placeRows shape rot x y n r0 b r' c' = (shape : Int) + 1 := by
  induction n generalizing r0 b with
  | zero =>
    rcases h with h | ⟨r, c, h1, h2, _⟩
    · exact h
    · omega
  | succ n ih =>
    unfold placeRows
    apply ih
    by_cases hr0 : ∃ c, c < 4 ∧ WritesAt shape rot x y r0 c r' c'
    · obtain ⟨c, hc, hw⟩ := hr0
      exact Or.inl (placeCols_written shape rot x y r0 4 0 b r' c'
        (Or.inr ⟨c, Nat.zero_le _, by omega, hw⟩))
    · rcases h with h | ⟨r, c, h1, h2, h3, h4⟩
      · exact Or.inl (placeCols_written shape rot x y r0 4 0 b r' c' (Or.inl h))
      · have : r ≠ r0 := by
          intro e; subst e; exact hr0 ⟨c, h3, h4⟩
        exact Or.inr ⟨r, c, by omega, by omega, h3, h4⟩

theorem placeRows_kept (shape : Nat) (rot x y : Int) (n r0 : Nat) (b : Board) (r' c' : Int)
    (h : ∀ r c, r0 ≤ r → r < r0 + n → c < 4 → ¬ WritesAt shape rot x y r c r' c') :
    placeRows shape rot x y n r0 b r' c' = b r' c' := by
  induction n generalizing r0 b with
  | zero => rfl
  | succ n ih =>
    unfold placeRows
    rw [ih (r0 + 1) _ (fun r c h1 h2 h3 => h r c (by omega) (by omega) h3)]
    exact placeCols_kept shape rot x y r0 4 0 b r' c'
      (fun c _ h2 => h r0 c (le_refl _) (by omega) (by omega))

/-- The board after `place_piece`: the written cells hold `curShape + 1`, all
other cells are as before. -/
theorem place_piece_board (g : Game) (r' c' : Int) :
    ((∃ r c : Nat, r < 4 ∧ c < 4 ∧
        WritesAt g.curShape g.curRot g.curPos.x g.curPos.y r c r' c') →
      (place_piece g).board r' c' = (g.curShape : Int) + 1) ∧
    ((∀ r c : Nat, r < 4 → c < 4 →
        ¬ WritesAt g.curShape g.curRot g.curPos.x g.curPos.y r c r' c') →
      (place_piece g).board r' c' = g.board r' c') := by
  constructor
  · rintro ⟨r, c, hr, hc, hw⟩
    exact placeRows_written _ _ _ _ 4 0 g.board r' c'
      (Or.inr ⟨r, c, Nat.zero_le _, by omega, hc, hw⟩)
  · intro h
    exact placeRows_kept _ _ _ _ 4 0 g.board r' c'
      (fun r c _ h2 h3 => h r c (by omega) h3)

/-- C16: for every board, shape, rotation and position `(x, y)`, `place_piece`
writes `curShape + 1` into exactly the board cells `(y + r, x + c)` for which
`shape_at(curShape, curRot, r, c)` is nonzero, the row `y + r` is in `[0,20)`
and the column `x + c` is in `[0,10)`.  Every other board cell is unchanged,
in particular every cell of a negative row (occupied cells above the board are
dropped without a write), and so are `curShape`, `curRot`, `curPos`, `score`,
`level`, `linesCleared` and `gameOver`. -/
theorem C16_place_piece_frame (g : Game) (r' c' : Int) :
    ((∃ r c : Nat, r < 4 ∧ c < 4 ∧ shape_at g.curShape g.curRot r c ≠ 0 ∧
        r' = g.curPos.y + r ∧ c' = g.curPos.x + c ∧
        0 ≤ r' ∧ r' < 20 ∧ 0 ≤ c' ∧ c' < 10) →
      (place_piece g).board r' c' = (g.curShape : Int) + 1) ∧
    ((¬ ∃ r c : Nat, r < 4 ∧ c < 4 ∧ shape_at g.curShape g.curRot r c ≠ 0 ∧
        r' = g.curPos.y + r ∧ c' = g.curPos.x + c ∧
        0 ≤ r' ∧ r' < 20 ∧ 0 ≤ c' ∧ c' < 10) →
      (place_piece g).board r' c' = g.board r' c') ∧
    (r' < 0 → (place_piece g).board r' c' = g.board r' c') ∧
    (place_piece g).curShape = g.curShape ∧ (place_piece g).curRot = g.curRot ∧
    (place_piece g).curPos = g.curPos ∧ (place_piece g).score = g.score ∧
    (place_piece g).level = g.level ∧ (place_piece g).linesCleared = g.linesCleared ∧
    (place_piece g).gameOver = g.gameOver := by
  obtain ⟨hw, hk⟩ := place_piece_board g r' c'
  refine ⟨?_, ?_, ?_, rfl, rfl, rfl, rfl, rfl, rfl, rfl⟩
  · rintro ⟨r, c, hr, hc, h⟩
    exact hw ⟨r, c, hr, hc, h⟩
  · intro hn
    exact hk (fun r c hr hc h => hn ⟨r, c, hr, hc, h⟩)
  · intro hneg
    apply hk
    intro r c _ _ h
    have := h.2.2.2.1
    omega

/-- The board cells that a T piece at `(3, -1)` leaves on the empty board: its
lower grid row is written into board row 0 at columns 3..5 with the value 3,
and the cell of its upper grid row, at board row -1, is not written. -/
theorem tAtTop_cells :
    (place_piece tAtTop).board 0 3 = 3 ∧ (place_piece tAtTop).board 0 4 = 3 ∧
    (place_piece tAtTop).board 0 5 = 3 ∧ (place_piece tAtTop).board 0 6 = 0 ∧
    (place_piece tAtTop).board (-1) 4 = 0 ∧ (place_piece tAtTop).board 1 4 = 0 := by
  decide

/-! ## The logged main loop: erasure and invariants -/

theorem handleKeyT_erase (fuel : Nat) (inp : Input) (g : Game) (lt : Int) :
    (handleKeyT fuel inp g lt).map (fun x => (x.1, x.2.1)) = handleKey fuel inp g lt := by
  unfold handleKeyT handleKey
  split
  · split <;> rfl
  split
  · split <;> rfl
  split
  · split <;> rfl
  split
  · split
    · rfl
    · cases lockSequence fuel inp.rnd_cmd g <;> rfl
  split
  · cases hardDropLoop fuel g with
    | none => rfl
    | some g1 =>
      dsimp only
      cases lockSequence fuel inp.rnd_cmd g1 <;> rfl
  · rfl

theorem gravityT_erase (fuel : Nat) (inp : Input) (g : Game) (lt di : Int) :
    (gravityT fuel inp g lt di).map (fun x => (x.1, x.2.1)) = gravity fuel inp g lt di := by
  unfold gravityT gravity
  split
  · split
    · rfl
    · cases lockSequence fuel inp.rnd_grav g <;> rfl
  · rfl

theorem handleKeyT_of_handleKey (fuel : Nat) (inp : Input) (g : Game) (lt : Int) (g1 : Game)
    (lt1 : Int) (h : handleKey fuel inp g lt = some (g1, lt1)) :
    ∃ tr, handleKeyT fuel inp g lt = some (g1, lt1, tr) := by
  rw [← handleKeyT_erase] at h
  cases hT : handleKeyT fuel inp g lt with
  | none => rw [hT] at h; cases h
  | some x =>
    rw [hT] at h
    obtain ⟨a, b, tr⟩ := x
    cases h
    exact ⟨tr, rfl⟩

theorem gravityT_of_gravity (fuel : Nat) (inp : Input) (g : Game) (lt di : Int) (g1 : Game)
    (lt1 : Int) (h : gravity fuel inp g lt di = some (g1, lt1)) :
    ∃ tr, gravityT fuel inp g lt di = some (g1, lt1, tr) := by
  rw [← gravityT_erase] at h
  cases hT : gravityT fuel inp g lt di with
  | none => rw [hT] at h; cases h
  | some x =>
    rw [hT] at h
    obtain ⟨a, b, tr⟩ := x
    cases h
    exact ⟨tr, rfl⟩

/-- Erasing the log of `mainBodyT` gives `mainBody`. -/
theorem mainBodyT_erase (fuel : Nat) (inp : Input) (st : Loop) :
    (mainBodyT fuel inp st).map Prod.fst = mainBody fuel inp st := by
  unfold mainBodyT mainBody
  split
  · rfl
  · rw [← handleKeyT_erase]
    cases handleKeyT fuel inp st.g st.last_tick with
    | none => rfl
    | some x =>
      obtain ⟨g1, lt1, tr1⟩ := x
      dsimp only [Option.map]
      rw [← gravityT_erase]
      cases gravityT fuel inp g1 lt1 (dropInterval g1.level) with
      | none => rfl
      | some y =>
        obtain ⟨g2, lt2, tr2⟩ := y
        rfl

theorem mainBodyT_of_mainBody (fuel : Nat) (inp : Input) (st st' : Loop)
    (h : mainBody fuel inp st = some st') :
    ∃ tr, mainBodyT fuel inp st = some (st', tr) := by
  rw [← mainBodyT_erase] at h
  cases hT : mainBodyT fuel inp st with
  | none => rw [hT] at h; cases h
  | some x =>
    rw [hT] at h
    obtain ⟨a, tr⟩ := x
    cases h
    exact ⟨tr, rfl⟩

theorem hardDropLoop_inv (I : Game → Prop) (hdown : ∀ g : Game, I g → I (moveDown g))
    (fuel : Nat) (g g' : Game) (h : hardDropLoop fuel g = some g') (hI : I g) : I g' := by
  induction fuel generalizing g with
  | zero => cases h
  | succ fuel ih =>
    unfold hardDropLoop at h
    split at h
    · exact ih _ h (hdown g hI)
    · cases h; exact hI

theorem handleKeyT_inv (I : Game → Prop)
    (hx : ∀ (g : Game) (d : Int), I g → I (moveX g d))
    (hrot : ∀ g : Game, I g → I { g with curRot := g.curRot + 1 })
    (hdown : ∀ g : Game, I g → I (moveDown g))
    (hlock : ∀ (fuel rnd : Nat) (g g' : Game), I g → lockSequence fuel rnd g = some g' → I g')
    (fuel : Nat) (inp : Input) (g : Game) (lt : Int) (g' : Game) (lt' : Int) (tr : List Game)
    (h : handleKeyT fuel inp g lt = some (g', lt', tr)) (hI : I g) :
    I g' ∧ ∀ a ∈ tr, I a := by
  have hnil : ∀ a ∈ ([] : List Game), I a := fun a ha => by cases ha
  have hone : ∀ b : Game, I b → ∀ a ∈ [b], I a := by
    intro b hb a ha
    rw [List.mem_singleton] at ha
    rw [ha]; exact hb
  unfold handleKeyT at h
  split at h
  · split at h
    · cases h; exact ⟨hx g _ hI, hnil⟩
    · cases h; exact ⟨hI, hnil⟩
  split at h
  · split at h
    · cases h; exact ⟨hx g _ hI, hnil⟩
    · cases h; exact ⟨hI, hnil⟩
  split at h
  · split at h
    · cases h; exact ⟨hrot g hI, hnil⟩
    · cases h; exact ⟨hI, hnil⟩
  split at h
  · split at h
    · cases h; exact ⟨hdown g hI, hnil⟩
    · split at h
      · cases h
      · next g1 hl => cases h; exact ⟨hlock _ _ _ _ hI hl, hone g hI⟩
  split at h
  · split at h
    · cases h
    · next g1 hd =>
      split at h
      · cases h
      · next g2 hl =>
        cases h
        have h1 := hardDropLoop_inv I hdown _ _ _ hd hI
        exact ⟨hlock _ _ _ _ h1 hl, hone g1 h1⟩
  · cases h; exact ⟨hI, hnil⟩

theorem gravityT_inv (I : Game → Prop)
    (hdown : ∀ g : Game, I g → I (moveDown g))
    (hlock : ∀ (fuel rnd : Nat) (g g' : Game), I g → lockSequence fuel rnd g = some g' → I g')
    (fuel : Nat) (inp : Input) (g : Game) (lt di : Int) (g' : Game) (lt' : Int)
    (tr : List Game) (h : gravityT fuel inp g lt di = some (g', lt', tr)) (hI : I g) :
    I g' ∧ ∀ a ∈ tr, I a := by
  have hnil : ∀ a ∈ ([] : List Game), I a := fun a ha => by cases ha
  unfold gravityT at h
  split at h
  · split at h
    · cases h; exact ⟨hdown g hI, hnil⟩
    · split at h
      · cases h
      · next g1 hl =>
        cases h
        refine ⟨hlock _ _ _ _ hI hl, ?_⟩
        intro a ha
        rw [List.mem_singleton] at ha
        rw [ha]; exact hI
  · cases h; exact ⟨hI, hnil⟩

/-- A property of the globals that the moves keep and that holds after a lock
sequence started from globals having it, holds after an iteration of the main
loop and at every lock sequence of the iteration. -/
theorem mainBodyT_inv (I : Game → Prop)
    (hx : ∀ (g : Game) (d : Int), I g → I (moveX g d))
    (hrot : ∀ g : Game, I g → I { g with curRot := g.curRot + 1 })
    (hdown : ∀ g : Game, I g → I (moveDown g))
    (hlock : ∀ (fuel rnd : Nat) (g g' : Game), I g → lockSequence fuel rnd g = some g' → I g')
    (fuel : Nat) (inp : Input) (st st' : Loop) (tr : List Game)
    (h : mainBodyT fuel inp st = some (st', tr)) (hI : I st.g) :
    I st'.g ∧ ∀ a ∈ tr, I a := by
  unfold mainBodyT at h
  split at h
  · cases h
    exact ⟨hI, fun a ha => by cases ha⟩
  · split at h
    · cases h
    · next g1 lt1 tr1 hk =>
      dsimp only at h
      split at h
      · cases h
      · next g2 lt2 tr2 hgr =>
        cases h
        obtain ⟨a1, a2⟩ := handleKeyT_inv I hx hrot hdown hlock _ _ _ _ _ _ _ hk hI
        obtain ⟨b1, b2⟩ := gravityT_inv I hdown hlock _ _ _ _ _ _ _ _ hgr a1
        refine ⟨b1, ?_⟩
        intro a ha
        rcases List.mem_append.1 ha with ha | ha
        · exact a2 a ha
        · exact b2 a ha

/-- Such a property, when it holds right after `init_game`, holds in every
reachable state. -/
theorem reachable_inv (I : Game → Prop) (hinit : ∀ rnd : Nat, I (init_game rnd))
    (hx : ∀ (g : Game) (d : Int), I g → I (moveX g d))
    (hrot : ∀ g : Game, I g → I { g with curRot := g.curRot + 1 })
    (hdown : ∀ g : Game, I g → I (moveDown g))
    (hlock : ∀ (fuel rnd : Nat) (g g' : Game), I g → lockSequence fuel rnd g = some g' → I g')
    (st : Loop) (h : Reachable st) : I st.g := by
  induction h with
  | init rnd t0 => exact hinit rnd
  | step fuel inp _ _ hstep ih =>
    obtain ⟨tr, hT⟩ := mainBodyT_of_mainBody fuel inp _ _ hstep
    exact (mainBodyT_inv I hx hrot hdown hlock fuel inp _ _ tr hT ih).1

/-! ## The rotation index: the checked claim -/

theorem afterDrop_step : mainBody 41 (keyAt0 KEY_SPACE) startLoop = some afterDrop := rfl

theorem afterDrop_reachable : Reachable afterDrop :=
  Reachable.step 41 (keyAt0 KEY_SPACE) (Reachable.init 0 0) (by decide) afterDrop_step

theorem afterDrop_cells :
    afterDrop.g.board 19 3 = 1 ∧ afterDrop.g.board 19 6 = 1 ∧ afterDrop.g.board 19 7 = 0 ∧
    afterDrop.g.board 18 3 = 0 := by
  decide

theorem setCell_all (P : Int → Prop) (b : Board) (r0 c0 v : Int)
    (hb : ∀ r c, P (b r c)) (hv : P v) : ∀ r c, P (setCell b r0 c0 v r c) := by
  intro r c
  unfold setCell
  split
  · exact hv
  · exact hb r c

theorem copyRowDown_all (P : Int → Prop) (rr : Int) (n : Nat) (cc : Int) (b : Board)
    (hb : ∀ r c, P (b r c)) : ∀ r c, P (copyRowDown rr n cc b r c) := by
  induction n generalizing cc b with
  | zero => exact hb
  | succ n ih =>
    unfold copyRowDown
    exact ih _ _ (setCell_all P b rr cc _ hb (hb _ _))

theorem shiftRows_all (P : Int → Prop) (n : Nat) (rr : Int) (b : Board)
    (hb : ∀ r c, P (b r c)) : ∀ r c, P (shiftRows n rr b r c) := by
  induction n generalizing rr b with
  | zero => exact hb
  | succ n ih =>
    unfold shiftRows
    split
    · exact ih _ _ (copyRowDown_all P rr _ 0 b hb)
    · exact hb

theorem zeroTop_all (P : Int → Prop) (n : Nat) (cc : Int) (b : Board)
    (hb : ∀ r c, P (b r c)) (h0 : P 0) : ∀ r c, P (zeroTop n cc b r c) := by
  induction n generalizing cc b with
  | zero => exact hb
  | succ n ih =>
    unfold zeroTop
    exact ih _ _ (setCell_all P b 0 cc 0 hb h0)

/-- A property of cell values that 0 has and all cells of the board have is
kept by the scan of `clear_lines`: the scan only copies cells and writes 0. -/
theorem clearLoop_all (P : Int → Prop) (h0 : P 0) (fuel : Nat) (r : Int) (b : Board)
    (cleared : Int) (b' : Board) (cleared' : Int)
    (h : clearLoop fuel r b cleared = some (b', cleared')) (hb : ∀ r c, P (b r c)) :
    ∀ r c, P (b' r c) := by
  induction fuel generalizing r b cleared with
  | zero => cases h
  | succ fuel ih =>
    unfold clearLoop at h
    split at h
    · split at h
      · exact ih _ _ _ h (zeroTop_all P _ 0 _ (shiftRows_all P _ r b hb) h0)
      · exact ih _ _ _ h hb
    · cases h
      exact hb

theorem clear_lines_all (P : Int → Prop) (h0 : P 0) (fuel : Nat) (g g' : Game)
    (h : clear_lines fuel g = some g') (hb : ∀ r c, P (g.board r c)) :
    ∀ r c, P (g'.board r c) := by
  unfold clear_lines at h
  split at h
  · cases h
  · next b cleared hloop =>
    cases h
    rw [applyCleared_board]
    exact clearLoop_all P h0 _ _ _ _ _ _ hloop hb

/-- Each cell after `place_piece` is the old cell or holds `curShape + 1`. -/
theorem place_piece_cell (g : Game) (r c : Int) :
    (place_piece g).board r c = g.board r c ∨
      (place_piece g).board r c = (g.curShape : Int) + 1 := by
  obtain ⟨hw, hk⟩ := place_piece_board g r c
  by_cases h : ∃ r0 c0 : Nat, r0 < 4 ∧ c0 < 4 ∧
      WritesAt g.curShape g.curRot g.curPos.x g.curPos.y r0 c0 r c
  · exact Or.inr (hw h)
  · exact Or.inl (hk (fun r0 c0 h1 h2 h3 => h ⟨r0, c0, h1, h2, h3⟩))

/-- The cells are in `[0,7]` and the current shape is one of the seven. -/
theorem lockSequence_cells (fuel rnd : Nat) (g g' : Game)
    (hI : g.curShape < 7 ∧ ∀ r c, 0 ≤ g.board r c ∧ g.board r c ≤ 7)
    (h : lockSequence fuel rnd g = some g') :
    g'.curShape < 7 ∧ ∀ r c, 0 ≤ g'.board r c ∧ g'.board r c ≤ 7 := by
  refine ⟨lockSequence_shape fuel rnd g g' h, ?_⟩
  unfold lockSequence at h
  split at h
  · cases h
  · next g2 hc =>
    cases h
    rw [(spawn_piece_fields rnd g2).1]
    apply clear_lines_all (fun v => 0 ≤ v ∧ v ≤ 7) (by decide) fuel (place_piece g) g2 hc
    intro r c
    rcases place_piece_cell g r c with e | e
    · rw [e]; exact hI.2 r c
    · rw [e]
      have := hI.1
      constructor <;> omega

theorem init_game_board (rnd : Nat) : (init_game rnd).board = fun _ _ => 0 := by
  unfold init_game
  rw [(spawn_piece_fields _ _).1]

theorem reachable_cells (st : Loop) (h : Reachable st) :
    st.g.curShape < 7 ∧ ∀ r c, 0 ≤ st.g.board r c ∧ st.g.board r c ≤ 7 := by
  refine reachable_inv (fun g => g.curShape < 7 ∧ ∀ r c, 0 ≤ g.board r c ∧ g.board r c ≤ 7)
    ?_ ?_ ?_ ?_ ?_ st h
  · intro rnd
    refine ⟨reachable_shape _ (Reachable.init rnd 0), ?_⟩
    intro r c
    rw [init_game_board]
    show (0 : Int) ≤ 0 ∧ (0 : Int) ≤ 7
    decide
  · intro g d hg; exact hg
  · intro g hg; exact hg
  · intro g hg; exact hg
  · intro fuel rnd g g' hg hl
    exact lockSequence_cells fuel rnd g g' hg hl

/-- C17: in every state reachable from `init_game` by iterations of the main
loop every board cell value is in `[0,7]`.  The reason is in the two functions
that write the board: after `place_piece` each cell is the old cell or holds
`curShape + 1`, which is in 1..7 for the seven shapes, and after `clear_lines`
each cell is 0 or the value of a cell of the board before the call. -/
theorem C17_cell_values (st : Loop) (h : Reachable st) :
    (∀ r c : Int, 0 ≤ st.g.board r c ∧ st.g.board r c ≤ 7) ∧
    st.g.curShape < 7 ∧
    (∀ (g : Game) (r c : Int), g.curShape < 7 →
      (place_piece g).board r c = g.board r c ∨
        ((place_piece g).board r c = (g.curShape : Int) + 1 ∧
          1 ≤ (g.curShape : Int) + 1 ∧ (g.curShape : Int) + 1 ≤ 7)) ∧
    (∀ (fuel : Nat) (g g' : Game), clear_lines fuel g = some g' →
      ∀ r c : Int, g'.board r c = 0 ∨ ∃ r0 c0 : Int, g'.board r c = g.board r0 c0) := by
  obtain ⟨hs, hc⟩ := reachable_cells st h
  refine ⟨hc, hs, ?_, ?_⟩
  · intro g r c hg
    rcases place_piece_cell g r c with e | e
    · exact Or.inl e
    · exact Or.inr ⟨e, by omega, by omega⟩
  · intro fuel g g' hcl
    exact clear_lines_all (fun v => v = 0 ∨ ∃ r0 c0 : Int, v = g.board r0 c0) (Or.inl rfl)
      fuel g g' hcl (fun r c => Or.inr ⟨r, c, rfl⟩)

/-- C17, at the state after a hard drop from the start: the locked I piece
left the value 1 in row 19. -/
theorem C17_cell_values_witness :
    Reachable afterDrop ∧ afterDrop.g.board 19 3 = 1 ∧
    (∀ r c : Int, 0 ≤ afterDrop.g.board r c ∧ afterDrop.g.board r c ≤ 7) :=
  ⟨afterDrop_reachable, afterDrop_cells.1, (C17_cell_values afterDrop afterDrop_reachable).1⟩

/-! ## At most four rows per lock: the checked claim -/

theorem startLoop_drop_log :
    mainBodyT 41 (keyAt0 KEY_SPACE) startLoop = some (afterDrop, [droppedPiece]) := rfl

theorem handleKeyT_log (fuel : Nat) (inp : Input) (g : Game) (lt : Int) (g1 : Game)
    (lt1 : Int) (tr1 : List Game) (h : handleKeyT fuel inp g lt = some (g1, lt1, tr1)) :
    tr1 = [] ∨
      (tr1.length = 1 ∧ lt1 = inp.t_cmd ∧ (inp.ch = KEY_DOWN ∨ inp.ch = KEY_SPACE)) := by
  unfold handleKeyT at h
  split at h
  · split at h <;> (cases h; exact Or.inl rfl)
  split at h
  · split at h <;> (cases h; exact Or.inl rfl)
  split at h
  · split at h <;> (cases h; exact Or.inl rfl)
  split at h
  · next hk =>
    split at h
    · cases h; exact Or.inl rfl
    · split at h
      · cases h
      · cases h; exact Or.inr ⟨rfl, rfl, Or.inl hk⟩
  split at h
  · next hk =>
    split at h
    · cases h
    · split at h
      · cases h
      · cases h; exact Or.inr ⟨rfl, rfl, Or.inr hk⟩
  · cases h; exact Or.inl rfl

theorem gravityT_log (fuel : Nat) (inp : Input) (g : Game) (lt di : Int) (g' : Game)
    (lt' : Int) (tr : List Game) (h : gravityT fuel inp g lt di = some (g', lt', tr)) :
    tr.length ≤ 1 := by
  unfold gravityT at h
  split at h
  · split at h
    · cases h; exact Nat.zero_le _
    · split at h
      · cases h
      · cases h; exact le_refl _
  · cases h; exact Nat.zero_le _

theorem gravityT_not_due (fuel : Nat) (inp : Input) (g : Game) (lt di : Int)
    (h : inp.now - lt < di) : gravityT fuel inp g lt di = some (g, lt, []) := by
  unfold gravityT
  rw [if_neg (by omega)]

/-- C19: in one iteration of the main loop in which the clock does not advance
between the command handling and the gravity check (`now` equals the time read
in the drop branch), the lock sequence `place_piece(); clear_lines();
spawn_piece();` runs at most once, whatever the key and the elapsed time: the
log of lock sequences has at most one entry.  When the key handling ran one (a
soft drop or a hard drop), it reset `last_tick`, so the gravity block is not
entered and leaves the globals and the timer as they are. -/
theorem C19_one_lock_per_tick (fuel : Nat) (inp : Input) (st st' : Loop) (tr : List Game)
    (hstep : mainBodyT fuel inp st = some (st', tr)) (hclock : inp.now = inp.t_cmd) :
    tr.length ≤ 1 ∧
    ∀ (g1 : Game) (lt1 : Int) (tr1 : List Game),
      handleKeyT fuel inp st.g st.last_tick = some (g1, lt1, tr1) → tr1 ≠ [] →
      (inp.ch = KEY_DOWN ∨ inp.ch = KEY_SPACE) ∧ lt1 = inp.t_cmd ∧
        gravityT fuel inp g1 lt1 (dropInterval g1.level) = some (g1, lt1, []) := by
  have hsecond : ∀ (g1 : Game) (lt1 : Int) (tr1 : List Game),
      handleKeyT fuel inp st.g st.last_tick = some (g1, lt1, tr1) → tr1 ≠ [] →
      (inp.ch = KEY_DOWN ∨ inp.ch = KEY_SPACE) ∧ lt1 = inp.t_cmd ∧
        gravityT fuel inp g1 lt1 (dropInterval g1.level) = some (g1, lt1, []) := by
    intro g1 lt1 tr1 hk hne
    rcases handleKeyT_log fuel inp st.g st.last_tick g1 lt1 tr1 hk with e | ⟨_, e2, e3⟩
    · exact absurd e hne
    · refine ⟨e3, e2, gravityT_not_due fuel inp g1 lt1 _ ?_⟩
      have := dropInterval_ge g1.level
      omega
  refine ⟨?_, hsecond⟩
  unfold mainBodyT at hstep
  split at hstep
  · cases hstep
    exact Nat.zero_le _
  · split at hstep
    · cases hstep
    · next g1 lt1 tr1 hk =>
      dsimp only at hstep
      split at hstep
      · cases hstep
      · next g2 lt2 tr2 hgr =>
        cases hstep
        rw [List.length_append]
        by_cases hne : tr1 = []
        · rw [hne]
          have := gravityT_log fuel inp g1 lt1 _ g2 lt2 tr2 hgr
          simpa using this
        · obtain ⟨_, _, hg⟩ := hsecond g1 lt1 tr1 hk hne
          rw [hg] at hgr
          cases hgr
          rcases handleKeyT_log fuel inp st.g st.last_tick g1 lt1 tr1 hk with e | ⟨e1, _, _⟩
          · exact absurd e hne
          · rw [e1]
            exact le_refl _

/-- C19, at a hard drop from the start state with the clock standing at 0: the
one lock sequence is the one of the hard drop. -/
theorem C19_one_lock_per_tick_witness :
    mainBodyT 41 (keyAt0 KEY_SPACE) startLoop = some (afterDrop, [droppedPiece]) ∧
    (keyAt0 KEY_SPACE).now = (keyAt0 KEY_SPACE).t_cmd ∧
    [droppedPiece].length ≤ 1 :=
  ⟨startLoop_drop_log, rfl,
    (C19_one_lock_per_tick 41 (keyAt0 KEY_SPACE) startLoop afterDrop [droppedPiece]
      startLoop_drop_log rfl).1⟩

/-! ## Array accesses in bounds: the checked claim -/

theorem tetrominoRead_eq (shape : Nat) (hs : shape < 7) (r c : Nat) (hr : r < 4) (hc : c < 4) :
    tetrominoRead shape (r : Int) (c : Int) = some (tetrominoAt shape r c) := by
  unfold tetrominoRead
  rw [if_pos ⟨hs, by omega, by simp only [SIZE]; omega, by omega, by simp only [SIZE]; omega⟩,
    Int.toNat_ofNat, Int.toNat_ofNat]

theorem size_sub_cast (c : Nat) (hc : c < 4) :
    ((SIZE : Nat) : Int) - 1 - (c : Int) = ((SIZE - 1 - c : Nat) : Int) := by
  simp only [SIZE]
  omega

/-- For a shape of the table and a cell of the 4x4 grid the checked `shape_at`
returns, with the value of `shape_at`: its table read is in bounds. -/
theorem shape_atC_eq (shape : Nat) (hs : shape < 7) (rot : Int) (r c : Nat) (hr : r < 4)
    (hc : c < 4) : shape_atC shape rot r c = some (shape_at shape rot r c) := by
  unfold shape_atC shape_at
  rw [size_sub_cast r hr, size_sub_cast c hc]
  have h3r : SIZE - 1 - r < 4 := by simp only [SIZE]; omega
  have h3c : SIZE - 1 - c < 4 := by simp only [SIZE]; omega
  dsimp only
  split
  · exact tetrominoRead_eq shape hs r c hr hc
  split
  · exact tetrominoRead_eq shape hs _ r h3c hr
  split
  · exact tetrominoRead_eq shape hs _ _ h3r h3c
  split
  · exact tetrominoRead_eq shape hs c _ hc h3r
  · rfl

theorem collideCellC_eq (b : Board) (shape : Nat) (hs : shape < 7) (nx ny nrot : Int)
    (r c : Nat) (hr : r < 4) (hc : c < 4) :
    collideCellC b shape nx ny nrot r c = some (collideCell b shape nx ny nrot r c) := by
  unfold collideCellC collideCell
  rw [shape_atC_eq shape hs nrot r c hr hc]
  dsimp only
  by_cases hv : shape_at shape nrot r c ≠ 0
  · rw [if_pos hv, if_pos hv]
    generalize wrapInt (nx + (c : Int)) = bx
    generalize wrapInt (ny + (r : Int)) = by_
    by_cases hout : bx < 0 ∨ bx ≥ BOARD_W ∨ by_ ≥ BOARD_H
    · rw [if_pos hout, if_pos hout]
    · rw [if_neg hout, if_neg hout]
      by_cases hy : by_ ≥ 0
      · rw [if_pos hy]
        have hin : 0 ≤ by_ ∧ by_ < BOARD_H ∧ 0 ≤ bx ∧ bx < BOARD_W := by
          simp only [BOARD_W, BOARD_H] at hout ⊢
          omega
        unfold boardRead
        rw [if_pos hin]
        dsimp only
        by_cases hw : b by_ bx ≠ 0
        · rw [if_pos hw, if_pos ⟨hy, hw⟩]
        · rw [if_neg hw, if_neg (fun h => hw h.2)]
      · rw [if_neg hy, if_neg (fun h => hy h.1)]
  · rw [if_neg hv, if_neg hv]

theorem collideColsC_eq (b : Board) (shape : Nat) (hs : shape < 7) (nx ny nrot : Int)
    (r : Nat) (hr : r < 4) (n c : Nat) (hc : c + n ≤ 4) :
    collideColsC b shape nx ny nrot r n c = some (collideCols b shape nx ny nrot r n c) := by
  induction n generalizing c with
  | zero => rfl
  | succ n ih =>
    unfold collideColsC collideCols
    rw [collideCellC_eq b shape hs nx ny nrot r c hr (by omega)]
    cases hcell : collideCell b shape nx ny nrot r c
    · dsimp only
      rw [ih (c + 1) (by omega)]
      simp
    · rfl

theorem collideRowsC_eq (b : Board) (shape : Nat) (hs : shape < 7) (nx ny nrot : Int)
    (n r : Nat) (hr : r + n ≤ 4) :
    collideRowsC b shape nx ny nrot n r = some (collideRows b shape nx ny nrot n r) := by
  induction n generalizing r with
  | zero => rfl
  | succ n ih =>
    unfold collideRowsC collideRows
    rw [collideColsC_eq b shape hs nx ny nrot r (by omega) SIZE 0 (by simp only [SIZE]; omega)]
    cases hcols : collideCols b shape nx ny nrot r SIZE 0
    · dsimp only
      rw [ih (r + 1) (by omega)]
      simp
    · rfl

/-- The checked `collide` returns for every pose, with the value of `collide`:
it reads the table and the board in bounds only. -/
theorem collideC_eq (g : Game) (hs : g.curShape < 7) (nx ny nrot : Int) :
    collideC g nx ny nrot = some (collide g nx ny nrot) := by
  unfold collideC collide
  rw [collideRowsC_eq g.board g.curShape hs nx ny nrot SIZE 0 (by simp only [SIZE]; omega)]

theorem placeCellC_eq (shape : Nat) (hs : shape < 7) (rot x y : Int) (b : Board) (r c : Nat)
    (hr : r < 4) (hc : c < 4) :
    placeCellC shape rot x y b r c = some (placeCell shape rot x y b r c) := by
  unfold placeCellC placeCell
  rw [shape_atC_eq shape hs rot r c hr hc]
  dsimp only
  by_cases hv : shape_at shape rot r c ≠ 0
  · rw [if_pos hv, if_pos hv]
    by_cases hin : y + (r : Int) ≥ 0 ∧ y + (r : Int) < BOARD_H ∧ x + (c : Int) ≥ 0 ∧
        x + (c : Int) < BOARD_W
    · rw [if_pos hin, if_pos hin]
      unfold boardWrite
      rw [if_pos ⟨hin.1, hin.2.1, hin.2.2.1, hin.2.2.2⟩]
    · rw [if_neg hin, if_neg hin]
  · rw [if_neg hv, if_neg hv]

theorem placeColsC_eq (shape : Nat) (hs : shape < 7) (rot x y : Int) (r : Nat) (hr : r < 4)
    (n c : Nat) (b : Board) (hc : c + n ≤ 4) :
    placeColsC shape rot x y r n c b = some (placeCols shape rot x y r n c b) := by
  induction n generalizing c b with
  | zero => rfl
  | succ n ih =>
    unfold placeColsC placeCols
    rw [placeCellC_eq shape hs rot x y b r c hr (by omega)]
    exact ih (c + 1) _ (by omega)

theorem placeRowsC_eq (shape : Nat) (hs : shape < 7) (rot x y : Int) (n r : Nat) (b : Board)
    (hr : r + n ≤ 4) :
    placeRowsC shape rot x y n r b = some (placeRows shape rot x y n r b) := by
  induction n generalizing r b with
  | zero => rfl
  | succ n ih =>
    unfold placeRowsC placeRows
    rw [placeColsC_eq shape hs rot x y r (by omega) SIZE 0 b (by simp only [SIZE]; omega)]
    exact ih (r + 1) _ (by omega)

/-- The checked `place_piece` returns, with the state of `place_piece`: it
reads the table and writes the board in bounds only. -/
theorem place_pieceC_eq (g : Game) (hs : g.curShape < 7) :
    place_pieceC g = some (place_piece g) := by
  unfold place_pieceC place_piece
  rw [placeRowsC_eq g.curShape hs _ _ _ SIZE 0 g.board (by simp only [SIZE]; omega)]

theorem rowFullC_eq (b : Board) (r : Int) (hr : 0 ≤ r ∧ r < 20) (n : Nat) (c : Int)
    (hc : 0 ≤ c ∧ c + n ≤ 10) : rowFullC b r n c = some (rowFull b r n c) := by
  induction n generalizing c with
  | zero => rfl
  | succ n ih =>
    unfold rowFullC rowFull
    unfold boardRead
    rw [if_pos (by simp only [BOARD_W, BOARD_H]; push_cast at hc; omega)]
    dsimp only
    split
    · rfl
    · exact ih (c + 1) (by push_cast at hc; omega)

theorem copyRowDownC_eq (rr : Int) (hr : 1 ≤ rr ∧ rr < 20) (n : Nat) (cc : Int) (b : Board)
    (hc : 0 ≤ cc ∧ cc + n ≤ 10) : copyRowDownC rr n cc b = some (copyRowDown rr n cc b) := by
  induction n generalizing cc b with
  | zero => rfl
  | succ n ih =>
    unfold copyRowDownC copyRowDown
    unfold boardRead boardWrite
    rw [if_pos (by simp only [BOARD_W, BOARD_H]; push_cast at hc; omega)]
    dsimp only
    rw [if_pos (by simp only [BOARD_W, BOARD_H]; push_cast at hc; omega)]
    exact ih (cc + 1) _ (by push_cast at hc; omega)

theorem shiftRowsC_eq (n : Nat) (rr : Int) (hr : rr < 20) (b : Board) :
    shiftRowsC n rr b = some (shiftRows n rr b) := by
  induction n generalizing rr b with
  | zero => rfl
  | succ n ih =>
    unfold shiftRowsC shiftRows
    split
    · rw [copyRowDownC_eq rr ⟨by omega, hr⟩ BOARD_W.toNat 0 b ⟨le_refl _, by decide⟩]
      exact ih (rr - 1) (by omega) _
    · rfl

theorem zeroTopC_eq (n : Nat) (cc : Int) (b : Board) (hc : 0 ≤ cc ∧ cc + n ≤ 10) :
    zeroTopC n cc b = some (zeroTop n cc b) := by
  induction n generalizing cc b with
  | zero => rfl
  | succ n ih =>
    unfold zeroTopC zeroTop
    unfold boardWrite
    rw [if_pos (by simp only [BOARD_W, BOARD_H]; push_cast at hc; omega)]
    exact ih (cc + 1) _ (by push_cast at hc; omega)

/-- From a row `r <= 19` the checked scan and the scan of `clear_lines` agree
for every fuel: the scan never leaves the rows `0..19`. -/
theorem clearLoopC_eq (fuel : Nat) (r : Int) (hr : r < 20) (b : Board) (cleared : Int) :
    clearLoopC fuel r b cleared = clearLoop fuel r b cleared := by
  induction fuel generalizing r b cleared with
  | zero => rfl
  | succ fuel ih =>
    unfold clearLoopC clearLoop
    split
    · next h0 =>
      rw [rowFullC_eq b r ⟨h0, hr⟩ BOARD_W.toNat 0 ⟨le_refl _, by decide⟩]
      cases hfull : rowFull b r BOARD_W.toNat 0
      · dsimp only
        rw [if_neg (by decide)]
        exact ih (r - 1) (by omega) b cleared
      · dsimp only
        rw [if_pos rfl, shiftRowsC_eq BOARD_H.toNat r hr b]
        dsimp only
        rw [zeroTopC_eq BOARD_W.toNat 0 _ ⟨le_refl _, by decide⟩]
        exact ih (r + 1 - 1) (by omega) _ _
    · rfl

/-- The checked `clear_lines` agrees with `clear_lines` for every fuel. -/
theorem clear_linesC_eq (fuel : Nat) (g : Game) : clear_linesC fuel g = clear_lines fuel g := by
  unfold clear_linesC clear_lines
  rw [clearLoopC_eq fuel (BOARD_H - 1) (by decide) g.board 0]

/-- C20: for every current shape in `[0,7)`, every integer rotation and every
integer position, the array accesses of `shape_at` (with `r`, `c` in `[0,4)`),
`collide`, `place_piece` and `clear_lines` are in bounds.  The versions of
these functions that check every index (`tetromino` rows and columns in
`[0,4)`, shape in `[0,7)`; `board` rows in `[0,20)`, columns in `[0,10)`)
return, and return the results of the unchecked ones.  This covers poses with
cells above, beside and below the board (`collide` skips the board read for
them) and the re-check after `r++` in `clear_lines`, whose scan stays in rows
`0..19`. -/
theorem C20_accesses_in_bounds (g : Game) (hs : g.curShape < 7) (nx ny nrot : Int)
    (r c : Nat) (hr : r < 4) (hc : c < 4) (fuel : Nat) (hf : 41 ≤ fuel) :
    shape_atC g.curShape nrot r c = some (shape_at g.curShape nrot r c) ∧
    collideC g nx ny nrot = some (collide g nx ny nrot) ∧
    place_pieceC g = some (place_piece g) ∧
    (∃ g', clear_linesC fuel g = some g' ∧ clear_lines fuel g = some g') := by
  refine ⟨shape_atC_eq g.curShape hs nrot r c hr hc, collideC_eq g hs nx ny nrot,
    place_pieceC_eq g hs, ?_⟩
  obtain ⟨b', hcl, _, _⟩ := clear_lines_full g fuel hf
  exact ⟨_, by rw [clear_linesC_eq, hcl], hcl⟩

/-- C20, at one state for the four functions (they share the globals): an I
piece at position `(-2, -3)`, left of and above the board `fullEmptyFull`,
whose two full rows make `clear_lines` pull rows down twice, once from row 19
after the `r++` re-check. -/
theorem C20_accesses_in_bounds_witness :
    ({ gameOn fullEmptyFull 1 with curPos := ⟨-2, -3⟩ } : Game).curShape < 7 ∧
    (1 : Nat) < 4 ∧ (0 : Nat) < 4 ∧ 41 ≤ 41 ∧
    collideC { gameOn fullEmptyFull 1 with curPos := ⟨-2, -3⟩ } (-2) (-3) 0 = some 1 ∧
    place_pieceC { gameOn fullEmptyFull 1 with curPos := ⟨-2, -3⟩ } =
      some (place_piece { gameOn fullEmptyFull 1 with curPos := ⟨-2, -3⟩ }) ∧
    ∃ g', clear_linesC 41 { gameOn fullEmptyFull 1 with curPos := ⟨-2, -3⟩ } = some g' ∧
      clear_lines 41 { gameOn fullEmptyFull 1 with curPos := ⟨-2, -3⟩ } = some g' := by
  obtain ⟨_, h2, h3, h4⟩ := C20_accesses_in_bounds
    { gameOn fullEmptyFull 1 with curPos := ⟨-2, -3⟩ } (by decide) (-2) (-3) 0 1 0
    (by decide) (by decide) 41 (le_refl _)
  refine ⟨by decide, by decide, by decide, le_refl _, ?_, h3, h4⟩
  rw [h2]
  decide

/-- The checks are real: a shape index 7, a grid row 4, a board row 20, a board
row -1 and a board column 10 are each answered with `none`. -/
theorem checked_access_faults (b : Board) :
    tetrominoRead 7 0 0 = none ∧ tetrominoRead 0 4 0 = none ∧ tetrominoRead 0 0 (-1) = none ∧
    boardRead b 20 0 = none ∧ boardRead b (-1) 0 = none ∧ boardRead b 0 10 = none ∧
    boardWrite b 20 0 1 = none ∧ boardWrite b 0 (-1) 1 = none := by
  refine ⟨by decide, by decide, by decide, ?_, ?_, ?_, ?_, ?_⟩ <;> rfl

/-- C16, at a T piece at `(3, -1)` on the empty board: the cell (1,1) of its
grid is written into the board cell (0,4) as the value 3, and the board cell
(-1,4) under its grid cell (0,1) is not written. -/
theorem C16_place_piece_frame_witness :
    (place_piece tAtTop).board 0 4 = 3 ∧
    (place_piece tAtTop).board (-1) 4 = tAtTop.board (-1) 4 :=
  ⟨(C16_place_piece_frame tAtTop 0 4).1
      ⟨1, 1, by decide, by decide, by decide, by decide, by decide, by decide, by decide,
        by decide, by decide⟩,
    (C16_place_piece_frame tAtTop (-1) 4).2.2.1 (by decide)⟩

/-! ## Overflow of the counters in play

The cycle of five O pieces is played from `init_game`; every cycle adds two
rows to `linesCleared`, so after `2^30 - 1` cycles the counter stands at
`INT_MAX - 1`. -/

theorem mainBody_quiet (fuel : Nat) (inp : Input) (st : Loop) (g1 : Game) (lt1 : Int)
    (hgo : st.g.gameOver = 0)
    (hk : handleKey fuel inp st.g st.last_tick = some (g1, lt1))
    (hq : inp.now - lt1 < 100) :
    mainBody fuel inp st =
      some { g := g1, last_tick := lt1, drop_interval := dropInterval g1.level } := by
  rw [mainBody_running fuel inp st hgo, hk]
  dsimp only
  rw [gravity_not_due fuel inp g1 lt1 _ (lt_of_lt_of_le hq (dropInterval_ge _))]

/-- An iteration at a standing clock in which only the key handling acts. -/
theorem headOf_step (g g1 : Game) (inp : Input) (hgo : g.gameOver = 0)
    (hk : handleKey 41 inp g 0 = some (g1, 0)) (hnow : inp.now = 0) :
    mainBody 41 inp (headOf g) = some (headOf g1) :=
  mainBody_quiet 41 inp (headOf g) g1 0 hgo hk (by rw [hnow]; decide)

theorem reach_step (g g1 : Game) (inp : Input) (h : Reachable (headOf g))
    (hgo : g.gameOver = 0) (hk : handleKey 41 inp g 0 = some (g1, 0))
    (hnow : inp.now = 0) (hq : inp.ch ≠ KEY_Q) : Reachable (headOf g1) :=
  Reachable.step 41 inp h hq (headOf_step g g1 inp hgo hk hnow)

/-- The occupied cells of the O piece: rows 0 and 1, columns 1 and 2 of the grid. -/
theorem shape_o (r c : Nat) (hr : r < 4) (hc : c < 4) :
    shape_at 1 0 r c ≠ 0 ↔ (r = 0 ∨ r = 1) ∧ (c = 1 ∨ c = 2) := by
  interval_cases r <;> interval_cases c <;> decide

/-- Locking an O piece at `(w - 1, 18)` next to the columns `0 .. w-1` fills
the columns `w`, `w + 1` of rows 18 and 19. -/
theorem place_o (w : Int) (h0 : 0 ≤ w) (h8 : w ≤ 8) (l s v : Int) :
    place_piece (oGame (oRows w) (w - 1) 18 l s v) =
      oGame (oRows (w + 2)) (w - 1) 18 l s v := by
  have hb : (place_piece (oGame (oRows w) (w - 1) 18 l s v)).board = oRows (w + 2) := by
    funext r' c'
    have hp := place_piece_board (oGame (oRows w) (w - 1) 18 l s v) r' c'
    by_cases hw : (r' = 18 ∨ r' = 19) ∧ (c' = w ∨ c' = w + 1)
    · have hex : ∃ r c : Nat, r < 4 ∧ c < 4 ∧ WritesAt 1 0 (w - 1) 18 r c r' c' := by
        refine ⟨(r' - 18).toNat, (c' - w + 1).toNat, by omega, by omega, ?_⟩
        exact ⟨(shape_o _ _ (by omega) (by omega)).2 ⟨by omega, by omega⟩,
          by omega, by omega, by omega, by omega, by omega, by omega⟩
      rw [hp.1 hex]
      unfold oRows
      rw [if_pos (by omega)]
      rfl
    · rw [hp.2 (by
        intro r c hr hc hW
        have hW2 : WritesAt 1 0 (w - 1) 18 r c r' c' := hW
        have h1 := (shape_o r c hr hc).1 hW2.1
        have h2 := hW2.2.1
        have h3 := hW2.2.2.1
        omega)]
      show oRows w r' c' = oRows (w + 2) r' c'
      unfold oRows
      by_cases h1 : 18 ≤ r' ∧ r' ≤ 19 ∧ 0 ≤ c' ∧ c' < w
      · rw [if_pos h1, if_pos (by omega)]
      · rw [if_neg h1, if_neg (by omega)]
  have e : place_piece (oGame (oRows w) (w - 1) 18 l s v) =
      oGame (place_piece (oGame (oRows w) (w - 1) 18 l s v)).board (w - 1) 18 l s v := rfl
  rw [e, hb]

/-- The Space key: hard drop, then the lock sequence. -/
theorem space_lock (g gD gC : Game) (hd : hardDropLoop 41 g = some gD)
    (hc : clear_lines 41 (place_piece gD) = some gC) :
    handleKey 41 (keyO KEY_SPACE) g 0 = some (spawn_piece 1 gC, 0) := by
  have e : handleKey 41 (keyO KEY_SPACE) g 0 =
      match hardDropLoop 41 g with
      | none => none
      | some g1 =>
        match lockSequence 41 1 g1 with
        | none => none
        | some g2 => some (g2, 0) := rfl
  rw [e, hd]
  dsimp only
  unfold lockSequence
  rw [hc]
theorem cyc_move_0_3 (l s v : Int) :
    handleKey 41 (keyO KEY_LEFT) (oGame (oRows 0) 3 (-1) l s v) 0 =
      some (oGame (oRows 0) 2 (-1) l s v, 0) := rfl

theorem cyc_move_0_2 (l s v : Int) :
    handleKey 41 (keyO KEY_LEFT) (oGame (oRows 0) 2 (-1) l s v) 0 =
      some (oGame (oRows 0) 1 (-1) l s v, 0) := rfl

theorem cyc_move_0_1 (l s v : Int) :
    handleKey 41 (keyO KEY_LEFT) (oGame (oRows 0) 1 (-1) l s v) 0 =
      some (oGame (oRows 0) 0 (-1) l s v, 0) := rfl

theorem cyc_move_0_0 (l s v : Int) :
    handleKey 41 (keyO KEY_LEFT) (oGame (oRows 0) 0 (-1) l s v) 0 =
      some (oGame (oRows 0) (-1) (-1) l s v, 0) := rfl

theorem cyc_drop_0 (l s v : Int) :
    handleKey 41 (keyO KEY_SPACE) (oGame (oRows 0) (-1) (-1) l s v) 0 =
      some (oGame (oRows 2) 3 (-1) l s v, 0) := by
  have hd : hardDropLoop 41 (oGame (oRows 0) (-1) (-1) l s v) =
      some (oGame (oRows 0) (-1) 18 l s v) := rfl
  have hp : place_piece (oGame (oRows 0) (-1) 18 l s v) =
      oGame (oRows 2) (-1) 18 l s v :=
    place_o 0 (by decide) (by decide) l s v
  have hc : clear_lines 41 (oGame (oRows 2) (-1) 18 l s v) =
      some (oGame (oRows 2) (-1) 18 l s v) := rfl
  rw [← hp] at hc
  rw [space_lock _ _ _ hd hc, hp]
  rfl

theorem cyc_move_2_3 (l s v : Int) :
    handleKey 41 (keyO KEY_LEFT) (oGame (oRows 2) 3 (-1) l s v) 0 =
      some (oGame (oRows 2) 2 (-1) l s v, 0) := rfl

theorem cyc_move_2_2 (l s v : Int) :
    handleKey 41 (keyO KEY_LEFT) (oGame (oRows 2) 2 (-1) l s v) 0 =
      some (oGame (oRows 2) 1 (-1) l s v, 0) := rfl

theorem cyc_drop_2 (l s v : Int) :
    handleKey 41 (keyO KEY_SPACE) (oGame (oRows 2) 1 (-1) l s v) 0 =
      some (oGame (oRows 4) 3 (-1) l s v, 0) := by
  have hd : hardDropLoop 41 (oGame (oRows 2) 1 (-1) l s v) =
      some (oGame (oRows 2) 1 18 l s v) := rfl
  have hp : place_piece (oGame (oRows 2) 1 18 l s v) =
      oGame (oRows 4) 1 18 l s v :=
    place_o 2 (by decide) (by decide) l s v
  have hc : clear_lines 41 (oGame (oRows 4) 1 18 l s v) =
      some (oGame (oRows 4) 1 18 l s v) := rfl
  rw [← hp] at hc
  rw [space_lock _ _ _ hd hc, hp]
  rfl

theorem cyc_drop_4 (l s v : Int) :
    handleKey 41 (keyO KEY_SPACE) (oGame (oRows 4) 3 (-1) l s v) 0 =
      some (oGame (oRows 6) 3 (-1) l s v, 0) := by
  have hd : hardDropLoop 41 (oGame (oRows 4) 3 (-1) l s v) =
      some (oGame (oRows 4) 3 18 l s v) := rfl
  have hp : place_piece (oGame (oRows 4) 3 18 l s v) =
      oGame (oRows 6) 3 18 l s v :=
    place_o 4 (by decide) (by decide) l s v
  have hc : clear_lines 41 (oGame (oRows 6) 3 18 l s v) =
      some (oGame (oRows 6) 3 18 l s v) := rfl
  rw [← hp] at hc
  rw [space_lock _ _ _ hd hc, hp]
  rfl

theorem cyc_move_6_3 (l s v : Int) :
    handleKey 41 (keyO KEY_RIGHT) (oGame (oRows 6) 3 (-1) l s v) 0 =
      some (oGame (oRows 6) 4 (-1) l s v, 0) := rfl

theorem cyc_move_6_4 (l s v : Int) :
    handleKey 41 (keyO KEY_RIGHT) (oGame (oRows 6) 4 (-1) l s v) 0 =
      some (oGame (oRows 6) 5 (-1) l s v, 0) := rfl

theorem cyc_drop_6 (l s v : Int) :
    handleKey 41 (keyO KEY_SPACE) (oGame (oRows 6) 5 (-1) l s v) 0 =
      some (oGame (oRows 8) 3 (-1) l s v, 0) := by
  have hd : hardDropLoop 41 (oGame (oRows 6) 5 (-1) l s v) =
      some (oGame (oRows 6) 5 18 l s v) := rfl
  have hp : place_piece (oGame (oRows 6) 5 18 l s v) =
      oGame (oRows 8) 5 18 l s v :=
    place_o 6 (by decide) (by decide) l s v
  have hc : clear_lines 41 (oGame (oRows 8) 5 18 l s v) =
      some (oGame (oRows 8) 5 18 l s v) := rfl
  rw [← hp] at hc
  rw [space_lock _ _ _ hd hc, hp]
  rfl

theorem cyc_move_8_3 (l s v : Int) :
    handleKey 41 (keyO KEY_RIGHT) (oGame (oRows 8) 3 (-1) l s v) 0 =
      some (oGame (oRows 8) 4 (-1) l s v, 0) := rfl

theorem cyc_move_8_4 (l s v : Int) :
    handleKey 41 (keyO KEY_RIGHT) (oGame (oRows 8) 4 (-1) l s v) 0 =
      some (oGame (oRows 8) 5 (-1) l s v, 0) := rfl

theorem cyc_move_8_5 (l s v : Int) :
    handleKey 41 (keyO KEY_RIGHT) (oGame (oRows 8) 5 (-1) l s v) 0 =
      some (oGame (oRows 8) 6 (-1) l s v, 0) := rfl

theorem cyc_move_8_6 (l s v : Int) :
    handleKey 41 (keyO KEY_RIGHT) (oGame (oRows 8) 6 (-1) l s v) 0 =
      some (oGame (oRows 8) 7 (-1) l s v, 0) := rfl

/-- Two boards with the same rows agree on the cells of the array. -/
theorem rowsOf_ext (b1 b2 : Board) (h : rowsOf b1 = rowsOf b2) (r c : Nat) (hr : r < 20)
    (hc : c < 10) : b1 r c = b2 r c := by
  have h1 : (rowsOf b1)[r]? = (rowsOf b2)[r]? := by rw [h]
  rw [rowsOf_getElem? b1 r hr, rowsOf_getElem? b2 r hr] at h1
  have h2 : (rowOf b1 r)[c]? = (rowOf b2 r)[c]? := by rw [Option.some.inj h1]
  rw [rowOf_getElem? b1 r c hc, rowOf_getElem? b2 r c hc] at h2
  exact Option.some.inj h2

/-- The scan of `clear_lines` writes no cell outside the array. -/
theorem clearLoop_frame (fuel : Nat) (r : Int) (b : Board) (cleared : Int) (b' : Board)
    (cleared' : Int) (h : clearLoop fuel r b cleared = some (b', cleared')) (hr : r ≤ 19)
    (r0 c0 : Int) (hout : ¬ (0 ≤ r0 ∧ r0 < 20 ∧ 0 ≤ c0 ∧ c0 < 10)) :
    b' r0 c0 = b r0 c0 := by
  induction fuel generalizing r b cleared with
  | zero => cases h
  | succ fuel ih =>
    unfold clearLoop at h
    split at h
    · split at h
      · have e := ih _ _ _ h (by omega)
        rw [e]
        have hz := zeroTop_apply BOARD_W.toNat 0 (shiftRows BOARD_H.toNat r b) r0 c0
        have hsft := shiftRows_apply BOARD_H.toNat r b (by
          have : ((BOARD_H.toNat : Nat) : Int) = 20 := rfl
          omega) r0 c0
        have hw : ((BOARD_W.toNat : Nat) : Int) = 10 := rfl
        rw [hz, hsft, if_neg (by omega), if_neg (by omega)]
      · exact ih _ _ _ h (by omega)
    · cases h
      rfl

set_option maxRecDepth 100000 in
/-- The drop of the fifth O piece: rows 18 and 19 are full and are removed, the
counters take up two rows, and the next O piece is spawned on the empty board. -/
theorem cyc_drop_8 (l s v : Int) :
    handleKey 41 (keyO KEY_SPACE) (oGame (oRows 8) 7 (-1) l s v) 0 =
      some (oGame (oRows 0) 3 (-1) (wrapInt (l + 2)) (wrapInt (s + wrapInt (100 * v)))
        (wrapInt (1 + Int.tdiv (wrapInt (l + 2)) 10)), 0) := by
  have hd : hardDropLoop 41 (oGame (oRows 8) 7 (-1) l s v) =
      some (oGame (oRows 8) 7 18 l s v) := rfl
  have hp : place_piece (oGame (oRows 8) 7 18 l s v) = oGame (oRows 10) 7 18 l s v :=
    place_o 8 (by decide) (by decide) l s v
  obtain ⟨b', hc, hloop, hrows⟩ := clear_lines_full (oGame (oRows 10) 7 18 l s v) 41 (le_refl _)
  have hk : fullRows (oRows 10) = 2 := by decide
  have hcomp : compact (rowsOf (oRows 10)) = rowsOf (oRows 0) := by decide
  have hbd : (oGame (oRows 10) 7 18 l s v).board = oRows 10 := rfl
  rw [hbd] at hc hloop hrows
  have hb : b' = oRows 0 := by
    funext r c
    by_cases hin : 0 ≤ r ∧ r < 20 ∧ 0 ≤ c ∧ c < 10
    · have := rowsOf_ext b' (oRows 0) (by rw [hrows, hcomp]) r.toNat c.toNat (by omega)
        (by omega)
      rw [Int.toNat_of_nonneg hin.1, Int.toNat_of_nonneg hin.2.2.1] at this
      exact this
    · rw [clearLoop_frame _ _ _ _ _ _ hloop (by decide) r c hin]
      show oRows 10 r c = oRows 0 r c
      unfold oRows
      rw [if_neg (by omega), if_neg (by omega)]
  rw [hk, hb, ← hp] at hc
  rw [space_lock _ _ _ hd hc]
  rfl

theorem oRows_zero : oRows 0 = fun _ _ => 0 := by
  funext r c
  unfold oRows
  rw [if_neg (by omega)]

/-- The state `main` enters its loop with when `rand()` gives 1 and the clock
reads 0. -/
theorem cycHead_zero : cycHead 0 = { g := init_game 1, last_tick := 0, drop_interval := 1000 } := by
  have e : init_game 1 = oGame (fun _ _ => 0) 3 (-1) 0 0 1 := rfl
  rw [e, ← oRows_zero]
  rfl

/-- The first sixteen iterations of a cycle: four O pieces are moved and
dropped, the fifth is moved above the columns 8 and 9. -/
theorem cycle_start (l s v : Int) (h : Reachable (headOf (oGame (oRows 0) 3 (-1) l s v))) :
    Reachable (headOf (oGame (oRows 8) 7 (-1) l s v)) := by
  have h := reach_step _ _ (keyO KEY_LEFT) h rfl (cyc_move_0_3 l s v) rfl (by decide)
  have h := reach_step _ _ (keyO KEY_LEFT) h rfl (cyc_move_0_2 l s v) rfl (by decide)
  have h := reach_step _ _ (keyO KEY_LEFT) h rfl (cyc_move_0_1 l s v) rfl (by decide)
  have h := reach_step _ _ (keyO KEY_LEFT) h rfl (cyc_move_0_0 l s v) rfl (by decide)
  have h := reach_step _ _ (keyO KEY_SPACE) h rfl (cyc_drop_0 l s v) rfl (by decide)
  have h := reach_step _ _ (keyO KEY_LEFT) h rfl (cyc_move_2_3 l s v) rfl (by decide)
  have h := reach_step _ _ (keyO KEY_LEFT) h rfl (cyc_move_2_2 l s v) rfl (by decide)
  have h := reach_step _ _ (keyO KEY_SPACE) h rfl (cyc_drop_2 l s v) rfl (by decide)
  have h := reach_step _ _ (keyO KEY_SPACE) h rfl (cyc_drop_4 l s v) rfl (by decide)
  have h := reach_step _ _ (keyO KEY_RIGHT) h rfl (cyc_move_6_3 l s v) rfl (by decide)
  have h := reach_step _ _ (keyO KEY_RIGHT) h rfl (cyc_move_6_4 l s v) rfl (by decide)
  have h := reach_step _ _ (keyO KEY_SPACE) h rfl (cyc_drop_6 l s v) rfl (by decide)
  have h := reach_step _ _ (keyO KEY_RIGHT) h rfl (cyc_move_8_3 l s v) rfl (by decide)
  have h := reach_step _ _ (keyO KEY_RIGHT) h rfl (cyc_move_8_4 l s v) rfl (by decide)
  have h := reach_step _ _ (keyO KEY_RIGHT) h rfl (cyc_move_8_5 l s v) rfl (by decide)
  have h := reach_step _ _ (keyO KEY_RIGHT) h rfl (cyc_move_8_6 l s v) rfl (by decide)
  exact h

theorem cycLines_succ (n : Nat) : wrapInt (cycLines n + 2) = cycLines (n + 1) := by
  unfold cycLines
  rw [wrapInt_wrapInt_add]
  push_cast
  rw [mul_add, mul_one]

theorem cycLevel_succ (n : Nat) :
    wrapInt (1 + Int.tdiv (wrapInt (cycLines n + 2)) 10) = cycLevel (n + 1) := by
  rw [cycLines_succ]
  unfold cycLevel cycLines
  exact tdiv_ten_fits _ (wrapInt_mem _)

theorem cycLast_step (n : Nat) :
    mainBody 41 (keyO KEY_SPACE) (cycLast n) = some (cycHead (n + 1)) := by
  unfold cycLast cycHead
  rw [headOf_step _ _ (keyO KEY_SPACE) rfl (cyc_drop_8 _ _ _) rfl, cycLevel_succ,
    cycLines_succ]
  rfl

/-- Every number of cycles is reached in play from `init_game`. -/
theorem cycHead_reachable (n : Nat) : Reachable (cycHead n) := by
  induction n with
  | zero =>
    rw [cycHead_zero]
    exact Reachable.init 1 0
  | succ n ih =>
    exact Reachable.step 41 (keyO KEY_SPACE) (cycle_start _ _ _ ih) (by decide)
      (cycLast_step n)

theorem cycLast_reachable (n : Nat) : Reachable (cycLast n) :=
  cycle_start _ _ _ (cycHead_reachable n)

theorem overflowLoop_eq : cycLast 1073741823 = overflowLoop := by
  have e1 : cycLines 1073741823 = 2147483646 := by decide
  have e2 : cycLevel 1073741823 = 214748365 := by decide
  unfold cycLast overflowLoop
  rw [e1, e2]

theorem overflowLoop_reachable : Reachable overflowLoop := by
  rw [← overflowLoop_eq]
  exact cycLast_reachable 1073741823

theorem overflowLoop_step :
    mainBody 41 (keyO KEY_SPACE) overflowLoop =
      some (headOf (oGame (oRows 0) 3 (-1) (-2147483648)
        (wrapInt (cycScore 1073741823 + wrapInt (100 * 214748365))) (-214748363))) := by
  unfold overflowLoop
  rw [headOf_step _ _ (keyO KEY_SPACE) rfl (cyc_drop_8 _ _ _) rfl]
  have e1 : wrapInt (2147483646 + 2) = -2147483648 := by decide
  have e2 : wrapInt (1 + Int.tdiv (-2147483648) 10) = -214748363 := by decide
  rw [e1, e2]

theorem fastLoop_reachable : Reachable fastLoop := by
  have e1 : cycLines 134217795 = 268435590 := by decide
  have e2 : cycLevel 134217795 = 26843560 := by decide
  have h := cycHead_reachable 134217795
  unfold cycHead at h
  rw [e1, e2] at h
  exact h

set_option maxRecDepth 100000 in
theorem level12Loop_reachable : Reachable level12Loop := by
  have e1 : cycLines 55 = 110 := by decide
  have e2 : cycLevel 55 = 12 := by decide
  have e3 : cycScore 55 = 33000 := by decide
  have h := cycHead_reachable 55
  unfold cycHead at h
  rw [e1, e2, e3] at h
  exact h

/-! ## Level and lines: the checked claim -/

/-- C5 as stated fails where the `int` line counter overflows, and it does in
play: the state `overflowLoop` is reached from `init_game` (by `2^30 - 1` cycles
of five O pieces that clear two rows each, and sixteen more iterations); there
`linesCleared = 2147483646 = INT_MAX - 1` and `level = 214748365 =
1 + linesCleared / 10`.  The Space key then locks the fifth O piece, rows 18
and 19 are full, `clear_lines` removes these two rows and leaves
`linesCleared = -2147483648`, not `2147483646 + 2`, and `level = -214748363`:
the level has decreased. -/
theorem C5_counterexample :
    Reachable overflowLoop ∧
    overflowLoop.g.linesCleared = 2147483646 ∧
    overflowLoop.g.level = 214748365 ∧
    overflowLoop.g.level = 1 + overflowLoop.g.linesCleared / 10 ∧
    (keyO KEY_SPACE).ch ≠ KEY_Q ∧
    fullRows (place_piece (oGame (oRows 8) 7 18 2147483646 0 214748365)).board = 2 ∧
    ∃ st', mainBody 41 (keyO KEY_SPACE) overflowLoop = some st' ∧
      st'.g.linesCleared = -2147483648 ∧
      st'.g.linesCleared ≠ overflowLoop.g.linesCleared + 2 ∧
      st'.g.level = -214748363 ∧
      st'.g.level < overflowLoop.g.level :=
  ⟨overflowLoop_reachable, rfl, rfl, by decide, by decide, by decide,
    _, overflowLoop_step, rfl, by decide, rfl, by decide⟩

/-- C5, amended: in every state reachable from `init_game` by iterations of the
main loop (any keys, clock values and random shapes), `level == 1 +
linesCleared / 10` with the truncating division of C, which is the floor while
the counter is not negative.  In every state `g`, `clear_lines` returns and sets
`linesCleared` to the `int` sum of `linesCleared` and the number `k` of rows it
removed: `linesCleared + k` reduced modulo `2^32`, which is `linesCleared + k`
exactly when that is at most `INT_MAX`; with `k >= 1` it recomputes the level
from the new counter.  An iteration of the main loop adds at most 40 rows to
the counter, and when `linesCleared + 40 <= INT_MAX` neither the counter nor
the level goes down in it.  In particular for `linesCleared` 0, 9, 10, 19, 20
the level is 1, 1, 2, 2, 3. -/
theorem C5_level_formula (st : Loop) (h : Reachable st) :
    st.g.level = 1 + Int.tdiv st.g.linesCleared 10 ∧
    FitsInt st.g.linesCleared ∧
    (0 ≤ st.g.linesCleared → st.g.level = 1 + st.g.linesCleared / 10) ∧
    (∀ (g : Game) (fuel : Nat), 41 ≤ fuel → ∃ g', clear_lines fuel g = some g' ∧
      g'.linesCleared = (if fullRows g.board = 0 then g.linesCleared
        else wrapInt (g.linesCleared + fullRows g.board)) ∧
      (FitsInt g.linesCleared → g.linesCleared + fullRows g.board ≤ 2147483647 →
        g'.linesCleared = g.linesCleared + fullRows g.board) ∧
      (1 ≤ fullRows g.board → g'.level = 1 + Int.tdiv g'.linesCleared 10)) ∧
    (∀ (fuel : Nat) (inp : Input) (st' : Loop), inp.ch ≠ KEY_Q →
      mainBody fuel inp st = some st' →
      (∃ k : Nat, k ≤ 40 ∧ st'.g.linesCleared = wrapInt (st.g.linesCleared + k)) ∧
      (st.g.linesCleared + 40 ≤ 2147483647 →
        st.g.linesCleared ≤ st'.g.linesCleared ∧ st.g.level ≤ st'.g.level)) ∧
    (st.g.linesCleared = 0 → st.g.level = 1) ∧
    (st.g.linesCleared = 9 → st.g.level = 1) ∧
    (st.g.linesCleared = 10 → st.g.level = 2) ∧
    (st.g.linesCleared = 19 → st.g.level = 2) ∧
    (st.g.linesCleared = 20 → st.g.level = 3) := by
  have hok := reachable_levelOk st h
  obtain ⟨h1, h2⟩ := hok
  refine ⟨h1, h2, ?_, ?_, ?_, ?_, ?_, ?_, ?_, ?_⟩
  · intro h0
    rw [h1, Int.tdiv_eq_ediv h0 (by decide)]
  · intro g fuel hf
    obtain ⟨b', hc, _, _⟩ := clear_lines_full g fuel hf
    refine ⟨_, hc, applyCleared_lines g b' _, ?_, ?_⟩
    · intro hfit hsum
      rw [applyCleared_lines]
      split
      · next h0 => rw [h0, Nat.cast_zero, add_zero]
      · exact wrapInt_of_fits _ (by have := hfit.1; omega) hsum
    · intro hk
      rw [applyCleared_level, applyCleared_lines, if_neg (by omega), if_neg (by omega)]
      exact tdiv_ten_fits _ (wrapInt_mem _)
  · intro fuel inp st' _ hstep
    have hadd := mainBody_levelOk fuel inp st st' hstep ⟨h1, h2⟩
    exact ⟨hadd.2, fun hfit => linesAdded_mono 40 _ _ ⟨h1, h2⟩ hadd hfit⟩
  · intro e; rw [h1, e]; rfl
  · intro e; rw [h1, e]; rfl
  · intro e; rw [h1, e]; rfl
  · intro e; rw [h1, e]; rfl
  · intro e; rw [h1, e]; rfl

/-- C5 amended, at the state reached from the start by one Left key, and its
part on `clear_lines` at a board whose bottom row is full: the counter goes
from 0 to 1. -/
theorem C5_level_formula_witness :
    Reachable leftLoop ∧ leftLoop.g.level = 1 + Int.tdiv leftLoop.g.linesCleared 10 ∧
      leftLoop.g.level = 1 ∧ leftLoop.g.linesCleared = 0 ∧
      ∃ g', clear_lines 41 (gameOn bottomFull 1) = some g' ∧ g'.linesCleared = 1 := by
  have hC := C5_level_formula leftLoop leftLoop_reachable
  refine ⟨leftLoop_reachable, hC.1, rfl, rfl, ?_⟩
  obtain ⟨g', hc, hl, _, _⟩ := hC.2.2.2.1 (gameOn bottomFull 1) 41 (le_refl _)
  refine ⟨g', hc, ?_⟩
  have hk : fullRows (gameOn bottomFull 1).board = 1 := by decide
  rw [hl, hk]
  decide

/-! ## The gravity interval: the checked claims -/

/-- C12 as stated fails where the `int` product `(level - 1) * 80` overflows:
at level 26843560 the product 2147484720 wraps to -2147482576 and the interval
is `1000 + 2147482576 = 2147483576` ms, and at level 53687092 the product
4294967280 wraps to -16 and the interval is 1016 ms; neither is
`max(100, 1000 - (level - 1) * 80) = 100`, neither lies in `[100, 1000]`, and
both are above the interval 100 of the lower level 13.  Level 26843560 occurs
in play: the state `fastLoop` is reached from `init_game` and the main loop
holds `drop_interval = 2147483576` there. -/
theorem C12_counterexample :
    (1 : Int) ≤ 26843560 ∧ dropInterval 26843560 = 2147483576 ∧
    max (100 : Int) (1000 - (26843560 - 1) * 80) = 100 ∧
    (1 : Int) ≤ 53687092 ∧ dropInterval 53687092 = 1016 ∧
    max (100 : Int) (1000 - (53687092 - 1) * 80) = 100 ∧
    ¬ dropInterval 53687092 ≤ 1000 ∧
    (13 : Int) ≤ 53687092 ∧ ¬ dropInterval 53687092 ≤ dropInterval 13 ∧
    Reachable fastLoop ∧ fastLoop.g.level = 26843560 ∧
    fastLoop.drop_interval = 2147483576 :=
  ⟨by decide, by decide, by decide, by decide, by decide, by decide, by decide, by decide,
    by decide, fastLoop_reachable, rfl, by decide⟩

/-- C12, amended: for every level from 1 to 26843559 the gravity interval that
the main loop computes (`drop_interval = 1000 - (level - 1) * 80` in `int`
arithmetic, raised to 100 when below) is `max(100, 1000 - (level - 1) * 80)`;
it is 1000 at level 1, lies in `[100, 1000]` and does not increase with the
level within that range.  At every level at all it is at least 100.  The
iteration stores this value, computed from the level after the key handling,
in `drop_interval`. -/
theorem C12_drop_interval (level : Int) (h : 1 ≤ level) (hmax : level ≤ 26843559) :
    dropInterval level = max 100 (1000 - (level - 1) * 80) ∧
    dropInterval 1 = 1000 ∧
    100 ≤ dropInterval level ∧ dropInterval level ≤ 1000 ∧
    (∀ l2 : Int, level ≤ l2 → l2 ≤ 26843559 → dropInterval l2 ≤ dropInterval level) ∧
    (∀ l : Int, 100 ≤ dropInterval l) ∧
    (∀ (fuel : Nat) (inp : Input) (st st' : Loop), st.g.gameOver = 0 →
      mainBody fuel inp st = some st' →
      ∃ g1 lt1, handleKey fuel inp st.g st.last_tick = some (g1, lt1) ∧
        st'.drop_interval = dropInterval g1.level) := by
  refine ⟨dropInterval_eq level h hmax, by decide, dropInterval_ge level, ?_,
    fun l2 h2 h3 => dropInterval_anti level l2 h h2 h3, dropInterval_ge, ?_⟩
  · rw [dropInterval_eq level h hmax]
    exact max_le (by decide) (by omega)
  · intro fuel inp st st' hgo hstep
    rw [mainBody_running fuel inp st hgo] at hstep
    split at hstep
    · cases hstep
    · next g1 lt1 hk =>
      split at hstep
      · cases hstep
      · cases hstep
        exact ⟨g1, lt1, hk, rfl⟩

/-- C12 amended, at level 5: the interval is 680 ms. -/
theorem C12_drop_interval_witness :
    (1 : Int) ≤ 5 ∧ (5 : Int) ≤ 26843559 ∧
    dropInterval 5 = max 100 (1000 - (5 - 1) * 80) ∧ dropInterval 5 = 680 :=
  ⟨by decide, by decide, (C12_drop_interval 5 (by decide) (by decide)).1, by decide⟩

/-- C13 as stated fails at level 12, where the interval is
`1000 - 11 * 80 = 120` ms, which is not below 100 and so is not raised to the
floor; and it fails where the `int` product `(level - 1) * 80` overflows: at
level 26843560 the interval is 2147483576 ms and at level 53687092 it is
1016 ms.  Levels 12 and 26843560 occur in play: the states `level12Loop` and
`fastLoop` are reached from `init_game`, and the main loop holds
`drop_interval = 120` and `drop_interval = 2147483576` there. -/
theorem C13_counterexample :
    (12 : Int) ≥ 12 ∧ dropInterval 12 = 120 ∧ dropInterval 12 ≠ 100 ∧
    (26843560 : Int) ≥ 12 ∧ dropInterval 26843560 = 2147483576 ∧
    (53687092 : Int) ≥ 12 ∧ dropInterval 53687092 = 1016 ∧
    Reachable level12Loop ∧ level12Loop.g.level = 12 ∧ level12Loop.drop_interval = 120 ∧
    Reachable fastLoop ∧ fastLoop.g.level = 26843560 ∧
    fastLoop.drop_interval = 2147483576 :=
  ⟨by decide, by decide, by decide, by decide, by decide, by decide, by decide,
    level12Loop_reachable, rfl, by decide, fastLoop_reachable, rfl, by decide⟩

/-- C13, amended: the gravity interval that the main loop computes is exactly
1000 ms at level 1, 120 ms at level 12, and exactly 100 ms (the floor) at every
level from 13 to 26843559. -/
theorem C13_interval_floor (level : Int) (h : 13 ≤ level) (hmax : level ≤ 26843559) :
    dropInterval 1 = 1000 ∧ dropInterval 12 = 120 ∧ dropInterval level = 100 := by
  refine ⟨by decide, by decide, ?_⟩
  rw [dropInterval_eq level (by omega) hmax]
  exact max_eq_left (by omega)

/-- C13 amended, at levels 13 (`1000 - 12 * 80 = 40` is raised to 100) and
26843559, the last level of the range. -/
theorem C13_interval_floor_witness :
    (13 : Int) ≤ 13 ∧ (13 : Int) ≤ 26843559 ∧
    dropInterval 1 = 1000 ∧ dropInterval 12 = 120 ∧ dropInterval 13 = 100 ∧
    dropInterval 26843559 = 100 :=
  ⟨le_refl _, by decide, (C13_interval_floor 13 (le_refl _) (by decide)).1,
    (C13_interval_floor 13 (le_refl _) (by decide)).2.1,
    (C13_interval_floor 13 (le_refl _) (by decide)).2.2,
    (C13_interval_floor 26843559 (by decide) (le_refl _)).2.2⟩

end Tetris
